import Mathlib

/-!
# s4: a shallow embedding of the script runner and its SSH client

The development follows `core/runner/runner.go` (the interpreter `Runner`) and
`core/ssh/ssh.go` (the remote session `Client`).  Everything the Go code obtains
from outside the process (the network, the two file systems, spawned processes,
the password prompt) is answered by an oracle carried in `World`; every such
call is appended to a trace, so that temporal statements are statements about
the trace.  The progress lines printed to the terminal and the two goroutines
that copy a session's output are left out.
-/

set_option autoImplicit false

namespace S4

/-! ## Go standard library: `path`, `strings` -/

namespace GoPath

/-- Go `path.IsAbs`: the path starts with a slash. -/
def isAbsChars : List Char → Bool
  | c :: _ => c == '/'
  | [] => false

/-- The elements of a path between slashes (empty elements are kept). -/
def splitSlash : List Char → List (List Char)
  | [] => [[]]
  | c :: cs =>
    if c = '/' then [] :: splitSlash cs
    else
      match splitSlash cs with
      | [] => [[c]]
      | h :: t => (c :: h) :: t

/-- One element of `path.Clean`, on the stack of elements written so far (last one first):
empty and `.` elements are dropped, `..` removes the last real element, is dropped at the
root, and is kept when a relative path has nothing left to remove. -/
def cleanStep (rooted : Bool) (stack : List (List Char)) (e : List Char) : List (List Char) :=
  if e = [] then stack
  else if e = ['.'] then stack
  else if e = ['.', '.'] then
    match stack with
    | top :: rest =>
      if top = ['.', '.'] then (if rooted then stack else e :: stack) else rest
    | [] => if rooted then [] else [e]
  else e :: stack

/-- Elements joined by single slashes. -/
def joinSlash : List (List Char) → List Char
  | [] => []
  | [e] => e
  | e :: es => e ++ '/' :: joinSlash es

/-- Go `path.Clean`, on the elements of the path. -/
def cleanChars (p : List Char) : List Char :=
  if p = [] then ['.']
  else
    let rooted := isAbsChars p
    let out := joinSlash ((splitSlash p).foldl (cleanStep rooted) []).reverse
    if rooted then '/' :: out
    else if out = [] then ['.'] else out

/-- Go `path.Join` of two elements: empty elements are ignored, the rest is joined by a
slash and cleaned; two empty elements give the empty string. -/
def joinChars (a b : List Char) : List Char :=
  if a = [] then (if b = [] then [] else cleanChars b)
  else if b = [] then cleanChars a
  else cleanChars (a ++ '/' :: b)

/-- The input of `path.Base` without its trailing slashes. -/
def stripTrailingSlashes (p : List Char) : List Char :=
  (p.reverse.dropWhile (fun c => c == '/')).reverse

/-- The part of a path after its last slash. -/
def afterLastSlash (p : List Char) : List Char :=
  (p.reverse.takeWhile (fun c => c != '/')).reverse

/-- Go `path.Base`. -/
def baseChars (p : List Char) : List Char :=
  if p = [] then ['.']
  else
    let q := afterLastSlash (stripTrailingSlashes p)
    if q = [] then ['/'] else q

/-- Go `path.IsAbs`. -/
def IsAbs (p : String) : Bool := isAbsChars p.data

/-- Go `path.Clean`. -/
def Clean (p : String) : String := String.mk (cleanChars p.data)

/-- Go `path.Join` with two arguments. -/
def Join (a b : String) : String := String.mk (joinChars a.data b.data)

/-- Go `path.Base`. -/
def Base (p : String) : String := String.mk (baseChars p.data)

end GoPath

namespace GoStrings

/-- Go `unicode.IsSpace`. -/
def isSpace (c : Char) : Bool :=
  let n := c.toNat
  (9 ≤ n && n ≤ 13) || n == 32 || n == 0x85 || n == 0xA0 || n == 0x1680 ||
  (0x2000 ≤ n && n ≤ 0x200a) || n == 0x2028 || n == 0x2029 || n == 0x202f ||
  n == 0x205f || n == 0x3000

/-- Go `strings.TrimSpace`. -/
def TrimSpace (s : String) : String :=
  String.mk ((s.data.dropWhile isSpace).reverse.dropWhile isSpace).reverse

/-- Go `strings.Join`. -/
def Join : List String → String → String
  | [], _ => ""
  | [s], _ => s
  | s :: rest, sep => s ++ sep ++ Join rest sep

end GoStrings

/-! ## The outside world -/

/-- Go `map[string]string`, as its entries in the order a `range` loop visits them.
Go leaves that order unspecified; the development fixes it to the order of the list. -/
abbrev StrMap := List (String × String)

namespace StrMap

/-- Map lookup `m[k]`. -/
def get (m : StrMap) (k : String) : Option String := m.lookup k

/-- Map assignment `m[k] = v`: an existing entry is overwritten, a new one is added. -/
def set : StrMap → String → String → StrMap
  | [], k, v => [(k, v)]
  | (k', v') :: rest, k, v =>
    if k' = k then (k, v) :: rest else (k', v') :: set rest k v

end StrMap

mutual
/-- A file-system object as `Stat` and `ReadDir` report it: whether it is a directory, and
the entries listed in it. -/
inductive FsNode where
  | mk (isDir : Bool) (entries : FsEntries)
/-- The named entries of a directory, in listing order. -/
inductive FsEntries where
  | nil
  | cons (name : String) (node : FsNode) (rest : FsEntries)
end

/-- The `IsDir()` of a file-info. -/
def FsNode.IsDir : FsNode → Bool
  | .mk d _ => d

instance : Inhabited FsNode := ⟨.mk false .nil⟩

/-- What the outside world answers to one call: success or an error with its message, the
text produced (a working directory, a variable's value, a command's output), for a
`Stat` the object found, and for a spawned process its `ProcessState.Success()`. -/
structure Answer where
  ok : Bool
  err : String
  out : String
  node : FsNode
  success : Bool

instance : Inhabited Answer := ⟨⟨true, "", "", default, true⟩⟩

/-- The calls that leave the process.  Transports, sub-channels and sessions are named by
the position in the trace of the call that opened them. -/
inductive Call where
  | prompt
  | dial (addr user password : String)
  | sftpNew (transport : Nat)
  | sshClose (transport : Nat)
  | sftpClose (channel : Nat)
  | osGetwd
  | sftpGetwd (channel : Nat)
  | osGetenv (key : String)
  | exec (command : String) (args : List String)
  | newSession (transport : Nat)
  | stdoutPipe (session : Nat)
  | stderrPipe (session : Nat)
  | sessionRun (session : Nat) (command : String)
  | sessionClose (session : Nat)
  | sftpStat (path : String)
  | sftpRemove (path : String)
  | sftpRename (oldPath newPath : String)
  | sftpOpen (path : String)
  | sftpCreate (path : String)
  | sftpChmod (path : String)
  | sftpMkdirAll (path : String)
  | sftpReadDir (path : String)
  | remoteFileStat (path : String)
  | remoteFileClose (path : String)
  | remoteWriteTo (src dst : String)
  | remoteReadFrom (src dst : String)
  | osStat (path : String)
  | osOpen (path : String)
  | osCreate (path : String)
  | osChmod (path : String)
  | osMkdirAll (path : String)
  | ioReadDir (path : String)
  | localFileStat (path : String)
  | localFileClose (path : String)
  | ioCopy (src dst : String)
  deriving DecidableEq

/-- One call and whether it succeeded. -/
structure Event where
  call : Call
  ok : Bool
  deriving DecidableEq

/-- The outside world: the answer it gives to the n-th call of the run, and the calls made
so far, oldest first. -/
structure World where
  answers : Nat → Answer
  trace : List Event

namespace World

/-- Make a call: the answer is the next one of the oracle, and the call is recorded. -/
def ask (w : World) (c : Call) : Answer × World :=
  let a := w.answers w.trace.length
  (a, { w with trace := w.trace ++ [⟨c, a.ok⟩] })

end World

/-- What a Go function of type `error` leaves behind: a nil error, an error value (its
message), or a run-time panic. -/
inductive Status where
  | nil
  | error (msg : String)
  | panic (msg : String)
  deriving DecidableEq

/-- The panic of a method call through a nil pointer. -/
def nilDeref : Status := .panic "invalid memory address or nil pointer dereference"

/-- Functions of the repository that the runner and the client call and whose source is
not part of this development (`core/variable`, `core/util`): taken as parameters. -/
structure Lib where
  Compile : String → StrMap → String
  CompileArray : List String → StrMap → List String
  IsLinuxBuildInPath : String → Bool

/-! ## `core/ssh/ssh.go` -/

/-- The Go `Client`: the SSH transport and the SFTP sub-channel, nil until connected. -/
structure Client where
  sshClient : Option Nat
  sftpClient : Option Nat
  deriving DecidableEq

/-- The Go `Options` of a remote command. -/
structure Options where
  CWD : String
  Env : StrMap

/-- The `export KEY=VALUE;` statement of one entry of the environment. -/
def exportStatement (kv : String × String) : String :=
  "export " ++ kv.1 ++ "=" ++ kv.2 ++ ";"

/-- Go `setEnvForCommand`. -/
def setEnvForCommand (command : String) (env : StrMap) : String :=
  let setEnvCommand := env.map exportStatement
  if setEnvCommand.length != 0 then
    GoStrings.Join setEnvCommand " " ++ " " ++ command
  else
    command

/-- Go `NewSSH`. -/
def NewSSH : Client := { sshClient := none, sftpClient := none }

namespace Client

/-- Go `Client.Connect`: dial, keep the transport, open the SFTP sub-channel on it. -/
def Connect (w : World) (c : Client) (host port username password : String) :
    World × Client × Status :=
  let addr := host ++ ":" ++ port
  let d := w.ask (.dial addr username password)
  if d.1.ok = false then (d.2, c, .error d.1.err)
  else
    let c1 : Client := { c with sshClient := some w.trace.length }
    let f := d.2.ask (.sftpNew w.trace.length)
    if f.1.ok = false then (f.2, c1, .error f.1.err)
    else (f.2, { c1 with sftpClient := some d.2.trace.length }, .nil)

/-- Go `Client.Disconnect`: close both, report the transport's error first. -/
def Disconnect (w : World) (c : Client) : World × Status :=
  match c.sshClient with
  | none => (w, nilDeref)
  | some t =>
    let sshErr := w.ask (.sshClose t)
    match c.sftpClient with
    | none => (sshErr.2, nilDeref)
    | some s =>
      let sftpErr := sshErr.2.ask (.sftpClose s)
      if sshErr.1.ok = false then (sftpErr.2, .error sshErr.1.err)
      else if sftpErr.1.ok = false then (sftpErr.2, .error sftpErr.1.err)
      else (sftpErr.2, .nil)

/-- Go `Client.Pwd`. -/
def Pwd (w : World) (c : Client) : World × String × Status :=
  match c.sftpClient with
  | none => (w, "", nilDeref)
  | some s =>
    let a := w.ask (.sftpGetwd s)
    if a.1.ok = false then (a.2, "", .error a.1.err) else (a.2, a.1.out, .nil)

/-- The deferred `session.Close()` of the functions that open a session. -/
def closeSession (session : Nat) (r : World × Status) : World × Status :=
  ((r.1.ask (.sessionClose session)).2, r.2)

/-- The command `Client.Env` hands to its session. -/
def envCommand (key : String) (options : Options) : String :=
  let command := "echo $" ++ key
  let setEnvCommand := options.Env.map exportStatement
  if setEnvCommand.length != 0 then
    GoStrings.Join setEnvCommand " " ++ " " ++ command
  else
    command

/-- Go `Client.Env`. -/
def Env (w : World) (c : Client) (key : String) (options : Options) :
    World × String × Status :=
  match c.sshClient with
  | none => (w, "", nilDeref)
  | some t =>
    let n := w.ask (.newSession t)
    if n.1.ok = false then (n.2, "", .error n.1.err)
    else
      let session := w.trace.length
      let r := n.2.ask (.sessionRun session (envCommand key options))
      let w2 := (r.2.ask (.sessionClose session)).2
      if r.1.ok = false then (w2, "", .error r.1.err)
      else (w2, GoStrings.TrimSpace r.1.out, .nil)

/-- The command `Client.Run` and `Client.RunWithCustomIO` hand to their session. -/
def runCommand (command : String) (options : Options) : String :=
  let command := if options.CWD != "" then "cd " ++ options.CWD ++ " && " ++ command else command
  setEnvForCommand command options.Env

/-- Go `Client.RunWithCustomIO`; the output written to the two buffers is returned. -/
def RunWithCustomIO (w : World) (c : Client) (command : String) (options : Options) :
    World × String × Status :=
  match c.sshClient with
  | none => (w, "", nilDeref)
  | some t =>
    let n := w.ask (.newSession t)
    if n.1.ok = false then (n.2, "", .error n.1.err)
    else
      let session := w.trace.length
      let r := n.2.ask (.sessionRun session (runCommand command options))
      let w2 := (r.2.ask (.sessionClose session)).2
      if r.1.ok = false then (w2, r.1.out, .error r.1.err)
      else (w2, r.1.out, .nil)

/-- Modelled from the spec: `Client.RunAndCombineOutput`, which `actionVar` calls and whose
source is missing: the command is run remotely "with CWD and environment injected" and its
combined output is returned, as `RunWithCustomIO` does with a single buffer. -/
def RunAndCombineOutput (w : World) (c : Client) (command : String) (options : Options) :
    World × String × Status :=
  let r := RunWithCustomIO w c command options
  match r.2.2 with
  | .nil => r
  | s => (r.1, "", s)

/-- Go `Client.Run`.  The two goroutines that copy the session's output to the terminal are
not part of the embedding. -/
def Run (w : World) (c : Client) (command : String) (options : Options) : World × Status :=
  match c.sshClient with
  | none => (w, nilDeref)
  | some t =>
    let n := w.ask (.newSession t)
    if n.1.ok = false then (n.2, .error n.1.err)
    else
      let session := w.trace.length
      let o := n.2.ask (.stdoutPipe session)
      if o.1.ok = false then closeSession session (o.2, .error o.1.err)
      else
        let e := o.2.ask (.stderrPipe session)
        if e.1.ok = false then closeSession session (e.2, .error e.1.err)
        else
          let r := e.2.ask (.sessionRun session (runCommand command options))
          if r.1.ok = false then closeSession session (r.2, .error r.1.err)
          else closeSession session (r.2, .nil)

/-- Go `Client.Move`. -/
def Move (w : World) (c : Client) (oldFilepath newFilepath : String) : World × Status :=
  match c.sftpClient with
  | none => (w, nilDeref)
  | some _ =>
    let a := w.ask (.sftpRename oldFilepath newFilepath)
    if a.1.ok = false then (a.2, .error a.1.err) else (a.2, .nil)

/-- The deferred `Close()` of a remote file. -/
def closeRemote (path : String) (r : World × Status) : World × Status :=
  ((r.1.ask (.remoteFileClose path)).2, r.2)

/-- The deferred `Close()` of a local file. -/
def closeLocal (path : String) (r : World × Status) : World × Status :=
  ((r.1.ask (.localFileClose path)).2, r.2)

/-- Go `Client.Copy`.  After the copy the only call is `Chmod` with the mode of the source:
the comment of the source, "update new file mode and time", names a time that no call
sets. -/
def Copy (w : World) (c : Client) (sourceFilepath destinationFilepath : String) :
    World × Status :=
  match c.sftpClient with
  | none => (w, nilDeref)
  | some _ =>
    let s := w.ask (.sftpOpen sourceFilepath)
    if s.1.ok = false then (s.2, .error s.1.err)
    else closeRemote sourceFilepath <|
      let d := s.2.ask (.sftpCreate destinationFilepath)
      if d.1.ok = false then (d.2, .error d.1.err)
      else closeRemote destinationFilepath <|
        let x := d.2.ask (.remoteWriteTo sourceFilepath destinationFilepath)
        if x.1.ok = false then (x.2, .error x.1.err)
        else
          let st := x.2.ask (.remoteFileStat sourceFilepath)
          if st.1.ok = false then (st.2, .error st.1.err)
          else
            let m := st.2.ask (.sftpChmod destinationFilepath)
            if m.1.ok = false then (m.2, .error m.1.err) else (m.2, .nil)

/-- Go `Client.Delete`, with the denylist predicate `util.IsLinuxBuildInPath` of `lib`. -/
def Delete (lib : Lib) (w : World) (c : Client) : List String → World × Status
  | [] => (w, .nil)
  | file :: files =>
    if lib.IsLinuxBuildInPath file then Delete lib w c files
    else
      match c.sftpClient with
      | none => (w, nilDeref)
      | some _ =>
        let st := w.ask (.sftpStat file)
        if st.1.ok = false then Delete lib st.2 c files
        else
          let rm := st.2.ask (.sftpRemove file)
          if rm.1.ok = false then (rm.2, .error rm.1.err)
          else Delete lib rm.2 c files

/-- Go `Client.downloadFile`. -/
def downloadFile (w : World) (c : Client) (remoteFilePath localDir : String) : World × Status :=
  match c.sftpClient with
  | none => (w, nilDeref)
  | some _ =>
    let o := w.ask (.sftpOpen remoteFilePath)
    if o.1.ok = false then (o.2, .error o.1.err)
    else closeRemote remoteFilePath <|
      let st := o.2.ask (.remoteFileStat remoteFilePath)
      if st.1.ok = false then (st.2, .error st.1.err)
      else
        let localFileName := GoPath.Base remoteFilePath
        let localFilePath := GoPath.Join localDir localFileName
        let mk := st.2.ask (.osMkdirAll localDir)
        if mk.1.ok = false then (mk.2, .error mk.1.err)
        else
          let cr := mk.2.ask (.osCreate localFilePath)
          if cr.1.ok = false then (cr.2, .error cr.1.err)
          else closeLocal localFilePath <|
            let ch := cr.2.ask (.osChmod localFilePath)
            if ch.1.ok = false then (ch.2, .error ch.1.err)
            else
              let cp := ch.2.ask (.ioCopy remoteFilePath localFilePath)
              if cp.1.ok = false then (cp.2, .error cp.1.err) else (cp.2, .nil)

mutual
/-- Go `Client.downloadDir`; `dir` is the remote directory at `remoteFilePath`. -/
def downloadDir (w : World) (c : Client) (remoteFilePath localDir : String) :
    FsNode → World × Status
  | .mk _ files =>
    match c.sftpClient with
    | none => (w, nilDeref)
    | some _ =>
      let rd := w.ask (.sftpReadDir remoteFilePath)
      if rd.1.ok = false then (rd.2, .error rd.1.err)
      else
        downloadDirLoop rd.2 c remoteFilePath
          (GoPath.Join localDir (GoPath.Base remoteFilePath)) files
/-- The `for _, file := range files` loop of `downloadDir`. -/
def downloadDirLoop (w : World) (c : Client) (remoteFilePath localDir : String) :
    FsEntries → World × Status
  | .nil => (w, .nil)
  | .cons fileName file rest =>
    let absFilePath := GoPath.Join remoteFilePath fileName
    let r :=
      if file.IsDir then downloadDir w c absFilePath (GoPath.Join localDir fileName) file
      else downloadFile w c absFilePath localDir
    match r.2 with
    | .nil => downloadDirLoop r.1 c remoteFilePath localDir rest
    | .error _ => (r.1, .nil)
    | .panic m => (r.1, .panic m)
end

/-- Go `Client.Download`. -/
def Download (w : World) (c : Client) (remoteFilePath localDir : String) : World × Status :=
  match c.sftpClient with
  | none => (w, nilDeref)
  | some _ =>
    let st := w.ask (.sftpStat remoteFilePath)
    if st.1.ok = false then (st.2, .error st.1.err)
    else if st.1.node.IsDir then downloadDir st.2 c remoteFilePath localDir st.1.node
    else downloadFile st.2 c remoteFilePath localDir

/-- Go `Client.uploadFile`. -/
def uploadFile (w : World) (c : Client) (localFilePath remoteDir : String) : World × Status :=
  let o := w.ask (.osOpen localFilePath)
  if o.1.ok = false then (o.2, .error o.1.err)
  else closeLocal localFilePath <|
    let st := o.2.ask (.localFileStat localFilePath)
    if st.1.ok = false then (st.2, .error st.1.err)
    else
      let remoteFileName := GoPath.Base localFilePath
      let remoteFilePath := GoPath.Join remoteDir remoteFileName
      match c.sftpClient with
      | none => (st.2, nilDeref)
      | some _ =>
        let mk := st.2.ask (.sftpMkdirAll remoteDir)
        if mk.1.ok = false then (mk.2, .error mk.1.err)
        else
          let cr := mk.2.ask (.sftpCreate remoteFilePath)
          if cr.1.ok = false then (cr.2, .error cr.1.err)
          else closeRemote remoteFilePath <|
            let ch := cr.2.ask (.sftpChmod remoteFilePath)
            if ch.1.ok = false then (ch.2, .error ch.1.err)
            else
              let rf := ch.2.ask (.remoteReadFrom localFilePath remoteFilePath)
              if rf.1.ok = false then (rf.2, .error rf.1.err) else (rf.2, .nil)

mutual
/-- Go `Client.uploadDir`; `dir` is the local directory at `localFilePath`. -/
def uploadDir (w : World) (c : Client) (localFilePath remoteDir : String) :
    FsNode → World × Status
  | .mk _ files =>
    let rd := w.ask (.ioReadDir localFilePath)
    if rd.1.ok = false then (rd.2, .error rd.1.err)
    else
      uploadDirLoop rd.2 c localFilePath
        (GoPath.Join remoteDir (GoPath.Base localFilePath)) files
/-- The `for _, file := range files` loop of `uploadDir`. -/
def uploadDirLoop (w : World) (c : Client) (localFilePath remoteDir : String) :
    FsEntries → World × Status
  | .nil => (w, .nil)
  | .cons fileName file rest =>
    let absFilePath := GoPath.Join localFilePath fileName
    let r :=
      if file.IsDir then uploadDir w c absFilePath remoteDir file
      else uploadFile w c absFilePath remoteDir
    match r.2 with
    | .nil => uploadDirLoop r.1 c localFilePath remoteDir rest
    | s => (r.1, s)
end

/-- Go `Client.Upload`. -/
def Upload (w : World) (c : Client) (localFilePath remoteDir : String) : World × Status :=
  let st := w.ask (.osStat localFilePath)
  if st.1.ok = false then (st.2, .error st.1.err)
  else if st.1.node.IsDir then uploadDir st.2 c localFilePath remoteDir st.1.node
  else uploadFile st.2 c localFilePath remoteDir

end Client

/-! ## `core/grammar`: the tokens the runner consumes

The declarations of the package are not part of the development; the types below have the
fields `runner.go` reads. -/

/-- The action keys; `other` is any key that is none of the eleven constants. -/
inductive ActionKey where
  | CONNECT | VAR | ENV | CD | CMD | RUN | MOVE | COPY | DELETE | UPLOAD | DOWNLOAD
  | other (name : String)
  deriving DecidableEq

structure NodeConnect where
  Username : String
  Host : String
  Port : String
  Password : Option String

structure VarLiteral where
  Value : String

structure VarEnv where
  Local : Bool
  Key : String

structure VarCommand where
  Local : Bool
  Command : List String

structure NodeVar where
  Key : String
  Literal : Option VarLiteral
  Env : Option VarEnv
  Command : Option VarCommand

structure NodeEnv where
  Key : String
  Value : String

structure NodeCd where
  Target : String

structure NodeCmd where
  Command : String
  Arguments : List String
  SourceCode : String

structure NodeRun where
  Command : String

structure NodeCopy where
  Source : String
  Destination : String

structure NodeDelete where
  Targets : List String

structure NodeUpload where
  SourceFiles : List String
  DestinationDir : String

/-- The dynamic value of `Token.Node`; `other` is a value of any other type. -/
inductive Node where
  | connect (params : NodeConnect)
  | var (params : NodeVar)
  | env (params : NodeEnv)
  | cd (params : NodeCd)
  | cmd (params : NodeCmd)
  | run (params : NodeRun)
  | copy (params : NodeCopy)
  | delete (params : NodeDelete)
  | upload (params : NodeUpload)
  | other

structure Token where
  Key : ActionKey
  Node : Node

/-! ## `core/runner/runner.go` -/

/-- The Go `Runner`.  The field `varTable` is the Go field `variable` (a reserved word
here); `step` is a Go `int` that a script cannot overflow; the two maps are never nil, as
`NewRunner` allocates them. -/
structure Runner where
  ssh : Option Client
  step : Nat
  cwdLocal : String
  tokens : List Token
  cwdRemote : String
  env : StrMap
  varTable : StrMap

/-- The error of `requireConnection`. -/
def notConnected : String := "you need to connect to server first"

/-- The panic of a failed type assertion `action.Node.(T)`. -/
def assertionPanic : Status := .panic "interface conversion"

/-- The panic of `commandArr[0]` on an empty slice. -/
def indexPanic : Status := .panic "index out of range"

/-- Go `fmt.Sprintf("%s", xs)` of a slice of strings. -/
def sprintSlice (xs : List String) : String := "[" ++ GoStrings.Join xs " " ++ "]"

/-- Go `NewRunner`, for a script file that tokenizes to `tokens`: no client, step 0, empty
working directories, empty maps. -/
def NewRunner (tokens : List Token) : Runner :=
  { ssh := none, step := 0, cwdLocal := "", tokens := tokens, cwdRemote := "",
    env := [], varTable := [] }

namespace Runner

/-- Go `Runner.requireConnection`. -/
def requireConnection (r : Runner) : Status :=
  if r.ssh = none then .error notConnected else .nil

/-- Go `Runner.resolveLocalPath`. -/
def resolveLocalPath (r : Runner) (localPath : String) : String :=
  if GoPath.IsAbs localPath then localPath else GoPath.Join r.cwdLocal localPath

/-- Go `Runner.resolveLocalPaths`. -/
def resolveLocalPaths (r : Runner) (localPaths : List String) : List String :=
  localPaths.map r.resolveLocalPath

/-- Go `Runner.resolveRemotePath`. -/
def resolveRemotePath (r : Runner) (remotePath : String) : String :=
  if GoPath.IsAbs remotePath then remotePath else GoPath.Join r.cwdRemote remotePath

/-- Go `Runner.resolveRemotePaths`. -/
def resolveRemotePaths (r : Runner) (remotePaths : List String) : List String :=
  remotePaths.map r.resolveRemotePath

/-- Go `Runner.actionCd`. -/
def actionCd (lib : Lib) (w : World) (r : Runner) (params : NodeCd) : World × Runner × Status :=
  match r.requireConnection with
  | .error err => (w, r, .error err)
  | _ =>
    let dir := params.Target
    let cwd := lib.Compile dir r.varTable
    (w, { r with cwdRemote := r.resolveRemotePath cwd }, .nil)

/-- Go `Runner.actionCmd`. -/
def actionCmd (lib : Lib) (w : World) (r : Runner) (params : NodeCmd) : World × Runner × Status :=
  let command := lib.Compile params.Command r.varTable
  let args := lib.CompileArray params.Arguments r.varTable
  let c := w.ask (.exec command args)
  if c.1.ok = false then (c.2, r, .error c.1.err)
  else if c.1.success = false then
    (c.2, r, .error ("run command '" ++ params.SourceCode ++ "' fail."))
  else (c.2, r, .nil)

/-- Go `Runner.actionCopy`. -/
def actionCopy (lib : Lib) (w : World) (r : Runner) (params : NodeCopy) :
    World × Runner × Status :=
  match r.requireConnection, r.ssh with
  | .error err, _ => (w, r, .error err)
  | _, none => (w, r, nilDeref)
  | _, some c =>
    let sourceFilepath := r.resolveRemotePath (lib.Compile params.Source r.varTable)
    let destinationFilepath := r.resolveRemotePath (lib.Compile params.Destination r.varTable)
    let x := c.Copy w sourceFilepath destinationFilepath
    (x.1, r, x.2)

/-- Go `Runner.actionDelete`. -/
def actionDelete (lib : Lib) (w : World) (r : Runner) (params : NodeDelete) :
    World × Runner × Status :=
  match r.requireConnection, r.ssh with
  | .error err, _ => (w, r, .error err)
  | _, none => (w, r, nilDeref)
  | _, some c =>
    let args := lib.CompileArray params.Targets r.varTable
    let files := r.resolveRemotePaths args
    let x := c.Delete lib w files
    (x.1, r, x.2)

/-- The `for _, filePath := range sourceFiles` loop of `actionDownload`. -/
def downloadAll (w : World) (c : Client) (destinationDir : String) :
    List String → World × Status
  | [] => (w, .nil)
  | filePath :: rest =>
    let x := c.Download w filePath destinationDir
    match x.2 with
    | .nil => downloadAll x.1 c destinationDir rest
    | _ => x

/-- Go `Runner.actionDownload`. -/
def actionDownload (lib : Lib) (w : World) (r : Runner) (params : NodeUpload) :
    World × Runner × Status :=
  match r.requireConnection, r.ssh with
  | .error err, _ => (w, r, .error err)
  | _, none => (w, r, nilDeref)
  | _, some c =>
    let sourceFiles := r.resolveRemotePaths (lib.CompileArray params.SourceFiles r.varTable)
    let destinationDir := r.resolveLocalPath (lib.Compile params.DestinationDir r.varTable)
    let x := downloadAll w c destinationDir sourceFiles
    (x.1, r, x.2)

/-- Go `Runner.actionMove`. -/
def actionMove (lib : Lib) (w : World) (r : Runner) (params : NodeCopy) :
    World × Runner × Status :=
  match r.requireConnection, r.ssh with
  | .error err, _ => (w, r, .error err)
  | _, none => (w, r, nilDeref)
  | _, some c =>
    let sourceFilepath := r.resolveRemotePath (lib.Compile params.Source r.varTable)
    let destinationFilepath := r.resolveRemotePath (lib.Compile params.Destination r.varTable)
    let x := c.Move w sourceFilepath destinationFilepath
    (x.1, r, x.2)

/-- Go `Runner.actionRun`. -/
def actionRun (lib : Lib) (w : World) (r : Runner) (params : NodeRun) : World × Runner × Status :=
  match r.requireConnection, r.ssh with
  | .error err, _ => (w, r, .error err)
  | _, none => (w, r, nilDeref)
  | _, some c =>
    let command := lib.Compile params.Command r.varTable
    let x := c.Run w command { CWD := r.cwdRemote, Env := r.env }
    (x.1, r, x.2)

/-- The `for _, filePath := range sourceFiles` loop of `actionUpload`. -/
def uploadAll (w : World) (c : Client) (destinationDir : String) :
    List String → World × Status
  | [] => (w, .nil)
  | filePath :: rest =>
    let x := c.Upload w filePath destinationDir
    match x.2 with
    | .nil => uploadAll x.1 c destinationDir rest
    | _ => x

/-- Go `Runner.actionUpload`. -/
def actionUpload (lib : Lib) (w : World) (r : Runner) (params : NodeUpload) :
    World × Runner × Status :=
  match r.requireConnection, r.ssh with
  | .error err, _ => (w, r, .error err)
  | _, none => (w, r, nilDeref)
  | _, some c =>
    let sourceFiles := r.resolveLocalPaths (lib.CompileArray params.SourceFiles r.varTable)
    let destinationDir := r.resolveRemotePath (lib.Compile params.DestinationDir r.varTable)
    let x := uploadAll w c destinationDir sourceFiles
    (x.1, r, x.2)

/-- Go `Runner.actionEnv`. -/
def actionEnv (lib : Lib) (w : World) (r : Runner) (params : NodeEnv) : World × Runner × Status :=
  (w, { r with env := r.env.set params.Key (lib.Compile params.Value r.varTable) }, .nil)

/-- Go `Runner.actionVar`. -/
def actionVar (lib : Lib) (w : World) (r : Runner) (params : NodeVar) : World × Runner × Status :=
  match params.Literal, params.Env, params.Command with
  | some literal, _, _ =>
    (w, { r with varTable := r.varTable.set params.Key literal.Value }, .nil)
  | none, some env, _ =>
    if env.Local then
      let v := w.ask (.osGetenv (lib.Compile env.Key r.varTable))
      (v.2, { r with varTable := r.varTable.set params.Key v.1.out }, .nil)
    else
      match r.requireConnection, r.ssh with
      | .error err, _ => (w, r, .error err)
      | _, none => (w, r, nilDeref)
      | _, some c =>
        let x := c.Env w (lib.Compile env.Key r.varTable) { CWD := "", Env := r.env }
        match x.2.2 with
        | .nil => (x.1, { r with varTable := r.varTable.set params.Key x.2.1 }, .nil)
        | err => (x.1, r, err)
  | none, none, some cmd =>
    if cmd.Local then
      match lib.CompileArray cmd.Command r.varTable with
      | [] => (w, r, indexPanic)
      | command :: args =>
        let c := w.ask (.exec command args)
        if c.1.ok = false then (c.2, r, .error c.1.err)
        else if c.1.success = false then
          (c.2, r, .error ("run command '" ++ sprintSlice cmd.Command ++ "' fail."))
        else
          (c.2, { r with varTable := r.varTable.set params.Key (GoStrings.TrimSpace c.1.out) },
            .nil)
    else
      match r.requireConnection, r.ssh with
      | .error err, _ => (w, r, .error err)
      | _, none => (w, r, nilDeref)
      | _, some c =>
        let x := c.RunAndCombineOutput w (GoStrings.Join cmd.Command " ")
          { CWD := r.cwdRemote, Env := r.env }
        match x.2.2 with
        | .nil =>
          (x.1, { r with varTable := r.varTable.set params.Key (GoStrings.TrimSpace x.2.1) },
            .nil)
        | err => (x.1, r, err)
  | none, none, none => (w, r, .nil)

/-- The start of the CONNECT case of `Run`: "if ssh client exist. disconnect first". -/
def disconnectFirst (w : World) (r : Runner) : World × Runner × Status :=
  match r.ssh with
  | none => (w, r, .nil)
  | some c =>
    let d := c.Disconnect w
    match d.2 with
    | .nil => (d.1, { r with ssh := none }, .nil)
    | err => (d.1, r, err)

/-- The password of the CONNECT case: the given one, compiled, or the one typed at the
prompt. -/
def askPassword (lib : Lib) (w : World) (r : Runner) (params : NodeConnect) :
    World × String × Status :=
  match params.Password with
  | some password => (w, lib.Compile password r.varTable, .nil)
  | none =>
    let a := w.ask .prompt
    if a.1.ok = false then (a.2, "", .error a.1.err) else (a.2, a.1.out, .nil)

/-- The rest of the CONNECT case, from `r.ssh = ssh.NewSSH()` on. -/
def connectNew (w : World) (r : Runner) (params : NodeConnect) (password : String) :
    World × Runner × Status :=
  let x := NewSSH.Connect w params.Host params.Port params.Username password
  match x.2.2 with
  | .nil =>
    let r1 := { r with ssh := some x.2.1 }
    let cwd := x.1.ask .osGetwd
    if cwd.1.ok = false then (cwd.2, r1, .error cwd.1.err)
    else
      let r2 := { r1 with cwdLocal := cwd.1.out }
      let remoteCwd := x.2.1.Pwd cwd.2
      match remoteCwd.2.2 with
      | .nil => (remoteCwd.1, { r2 with cwdRemote := remoteCwd.2.1 }, .nil)
      | err => (remoteCwd.1, r2, err)
  | err => (x.1, { r with ssh := none }, err)

/-- The CONNECT case once the old client is gone: the password, then the new client. -/
def promptAndConnect (lib : Lib) (w : World) (r : Runner) (params : NodeConnect) :
    World × Runner × Status :=
  let p := askPassword lib w r params
  match p.2.2 with
  | .nil => connectNew p.1 r params p.2.1
  | err => (p.1, r, err)

/-- The CONNECT case of the switch in `Run`. -/
def caseConnect (lib : Lib) (w : World) (r : Runner) (params : NodeConnect) :
    World × Runner × Status :=
  let d := disconnectFirst w r
  match d.2.2 with
  | .nil => promptAndConnect lib d.1 d.2.1 params
  | _ => d

/-- The switch of `Run` on one action: the type assertion on the node, then the handler. -/
def dispatch (lib : Lib) (w : World) (r : Runner) (action : Token) : World × Runner × Status :=
  match action.Key, action.Node with
  | .CONNECT, .connect params => caseConnect lib w r params
  | .VAR, .var params => actionVar lib w r params
  | .ENV, .env params => actionEnv lib w r params
  | .CD, .cd params => actionCd lib w r params
  | .CMD, .cmd params => actionCmd lib w r params
  | .RUN, .run params => actionRun lib w r params
  | .MOVE, .copy params => actionMove lib w r params
  | .COPY, .copy params => actionCopy lib w r params
  | .DELETE, .delete params => actionDelete lib w r params
  | .UPLOAD, .upload params => actionUpload lib w r params
  | .DOWNLOAD, .upload params => actionDownload lib w r params
  | .other name, _ => (w, r, .error ("Invalid action `" ++ name ++ "`"))
  | _, _ => (w, r, assertionPanic)

/-- The `for _, action := range r.tokens` loop of `Run`: the step counter is incremented,
the action dispatched, and the loop left at the first error or panic. -/
def runLoop (lib : Lib) (w : World) (r : Runner) : List Token → World × Runner × Status
  | [] => (w, r, .nil)
  | action :: rest =>
    let x := dispatch lib w { r with step := r.step + 1 } action
    match x.2.2 with
    | .nil => runLoop lib x.1 x.2.1 rest
    | _ => x

/-- The body of `Run` below the `defer`: the loop, and after a loop without error the last
increment of the step counter for the "done!" line. -/
def runBody (lib : Lib) (w : World) (r : Runner) : World × Runner × Status :=
  let x := runLoop lib w r r.tokens
  match x.2.2 with
  | .nil => (x.1, { x.2.1 with step := x.2.1.step + 1 }, .nil)
  | _ => x

/-- The deferred function of `Run`: disconnect if a client is set; its error is dropped. -/
def deferred (x : World × Runner × Status) : World × Runner × Status :=
  match x.2.1.ssh with
  | none => x
  | some c =>
    let d := c.Disconnect x.1
    match d.2 with
    | .panic m => (d.1, x.2.1, .panic m)
    | _ => (d.1, x.2.1, x.2.2)

/-- Go `Runner.Run`. -/
def Run (lib : Lib) (w : World) (r : Runner) : World × Runner × Status :=
  deferred (runBody lib w r)

end Runner

/-- The state the handler of `action` leaves when the loop of `Run` reaches it after the
actions `pre`. -/
def Runner.afterAction (lib : Lib) (w : World) (r : Runner) (pre : List Token) (action : Token) :
    World × Runner × Status :=
  Runner.dispatch lib (Runner.runLoop lib w r pre).1
    { (Runner.runLoop lib w r pre).2.1 with step := (Runner.runLoop lib w r pre).2.1.step + 1 }
    action

/-- The calls of a disconnect: closing a transport or a sub-channel. -/
def Call.isClose : Call → Bool
  | .sshClose _ => true
  | .sftpClose _ => true
  | _ => false

/-- The export prefix in words: one `export K=V;` statement per entry of the environment,
each followed by one space (nothing for an empty environment). -/
def exportPrefix : StrMap → String
  | [] => ""
  | kv :: rest => "export " ++ kv.1 ++ "=" ++ kv.2 ++ "; " ++ exportPrefix rest

/-- The command prefixed by `cd d && ` when the directory `d` is not empty. -/
def cdPrefixed (d command : String) : String :=
  if d = "" then command else "cd " ++ d ++ " && " ++ command

/-- The transports a trace leaves open, when its first event has position `i`: those
dialed with success and not closed afterwards. -/
def openTransportsFrom (i : Nat) : List Event → List Nat
  | [] => []
  | ev :: rest =>
    match ev with
    | ⟨.dial _ _ _, true⟩ =>
      if rest.any (fun e => decide (e.call = .sshClose i)) then openTransportsFrom (i + 1) rest
      else i :: openTransportsFrom (i + 1) rest
    | _ => openTransportsFrom (i + 1) rest

/-- The transports a trace leaves open. -/
def openTransports (trace : List Event) : List Nat := openTransportsFrom 0 trace

/-- The calls that establish a connection: the password prompt, the dial and the creation
of the SFTP sub-channel. -/
def Call.isConnectAttempt : Call → Bool
  | .prompt => true
  | .dial _ _ _ => true
  | .sftpNew _ => true
  | _ => false

/-- The calls that capture a working directory. -/
def Call.isGetwd : Call → Bool
  | .osGetwd => true
  | .sftpGetwd _ => true
  | _ => false

/-! ## Concrete inputs -/

/-- A stand-in for the missing library functions: substitution leaves every string as it
is, and the denylist holds the root and `/etc`. -/
def Lib.plain : Lib :=
  { Compile := fun s _ => s
    CompileArray := fun xs _ => xs
    IsLinuxBuildInPath := fun p => p == "/" || p == "/etc" }

/-- A world in which every call succeeds, with `/home/u` as every textual answer. -/
def World.calm : World :=
  { answers := fun _ => ⟨true, "", "/home/u", default, true⟩, trace := [] }

/-- A world in which every call succeeds except the listed ones (by position). -/
def World.failingAt (bad : List Nat) : World :=
  { answers := fun n =>
      if n ∈ bad then ⟨false, "refused", "", default, false⟩
      else ⟨true, "", "/home/u", default, true⟩
    trace := [] }

/-- A runner that holds an open client and is nowhere in particular. -/
def Runner.connectedAt (cwdRemote : String) : Runner :=
  { ssh := some { sshClient := some 0, sftpClient := some 1 }, step := 0, cwdLocal := "/work",
    tokens := [], cwdRemote := cwdRemote, env := [], varTable := [] }

/-! ## More of `path`: `Join` with any number of elements, and the workings of `Clean` -/

namespace GoPath

/-- The buffer the loop of Go `path.Join` fills: the elements joined by slashes, the empty
ones before the first non-empty one left out. -/
def joinBuf (buf : List Char) : List (List Char) → List Char
  | [] => buf
  | e :: es => if buf = [] then joinBuf e es else joinBuf (buf ++ '/' :: e) es

/-- Go `path.Join` on any number of elements: the empty string when all are empty, else the
cleaned buffer. -/
def joinListChars (elem : List (List Char)) : List Char :=
  if (elem.map List.length).sum = 0 then [] else cleanChars (joinBuf [] elem)

/-- Go `path.Join` on any number of elements. -/
def JoinList (elem : List String) : String := String.mk (joinListChars (elem.map String.data))

/-- The stack `path.Clean` ends with. -/
def stackOf (rooted : Bool) (p : List Char) : List (List Char) :=
  (splitSlash p).foldl (cleanStep rooted) []

/-- The output of `path.Clean` for a stack. -/
def render (rooted : Bool) (st : List (List Char)) : List Char :=
  if rooted then '/' :: joinSlash st.reverse
  else if joinSlash st.reverse = [] then ['.'] else joinSlash st.reverse

/-- A stack as `path.Clean` keeps it (last element first): no element is empty, holds a
slash or is `.`, and `..` stands only at the bottom of the stack of a relative path. -/
def NormalStack (rooted : Bool) : List (List Char) → Prop
  | [] => True
  | e :: rest =>
    (e ≠ [] ∧ '/' ∉ e ∧ e ≠ ['.']) ∧
    (e = ['.', '.'] → rooted = false ∧ ∀ x ∈ rest, x = ['.', '.']) ∧
    NormalStack rooted rest

/-- A file name as a directory listing gives it: not empty, without a slash, and neither
`.` nor `..`. -/
def plainNameChars (n : List Char) : Bool :=
  n ≠ [] && !n.contains '/' && n != ['.'] && n != ['.', '.']

/-- A file name as a directory listing gives it. -/
def PlainName (n : String) : Bool := plainNameChars n.data

end GoPath

/-! ## Directory trees and the files a trace has transferred -/

mutual
/-- The regular files below a directory, each with the chain of subdirectories that leads
to it from the directory. -/
def FsNode.files : FsNode → List (List String × String)
  | .mk _ entries => FsEntries.files entries
/-- The regular files below the entries of a directory. -/
def FsEntries.files : FsEntries → List (List String × String)
  | .nil => []
  | .cons name node rest =>
    (if node.IsDir then (FsNode.files node).map (fun pf => (name :: pf.1, pf.2))
      else [([], name)]) ++ FsEntries.files rest
end

mutual
/-- Every name in the tree is a file name as a directory listing gives it. -/
def FsNode.plainNames : FsNode → Bool
  | .mk _ entries => FsEntries.plainNames entries
/-- Every name below the entries is a file name as a directory listing gives it. -/
def FsEntries.plainNames : FsEntries → Bool
  | .nil => true
  | .cons name node rest =>
    GoPath.PlainName name && FsNode.plainNames node && FsEntries.plainNames rest
end

/-- The file a call has written to the server: a `ReadFrom` that succeeded, as the pair of
the local source and the remote destination. -/
def Event.uploadedFile : Event → Option (String × String)
  | ⟨.remoteReadFrom src dst, true⟩ => some (src, dst)
  | _ => none

/-- The files a list of calls has written to the server. -/
def uploaded (evs : List Event) : List (String × String) := evs.filterMap Event.uploadedFile

/-- The file a call has written to the local disk: an `io.Copy` that succeeded, as the
pair of the remote source and the local destination. -/
def Event.downloadedFile : Event → Option (String × String)
  | ⟨.ioCopy src dst, true⟩ => some (src, dst)
  | _ => none

/-- The files a list of calls has written to the local disk. -/
def downloaded (evs : List Event) : List (String × String) :=
  evs.filterMap Event.downloadedFile

/-- The transfers of a directory in words: each regular file found at `p/f` under the
source `S` goes from `path.Join(S, p, f)` to `path.Join(D, base(S), p, f)`. -/
def mirrorPlan (S D : String) (tree : FsNode) : List (String × String) :=
  tree.files.map (fun pf =>
    (GoPath.JoinList (S :: pf.1 ++ [pf.2]),
     GoPath.JoinList (D :: GoPath.Base S :: pf.1 ++ [pf.2])))

/-- The calls made since the world `w`. -/
def World.since (w' w : World) : List Event := w'.trace.drop w.trace.length

/-- The transfers of the files `fs` found below the chain of subdirectories `p` of the
source `S`. -/
def levelPlan (S D : String) (p : List String) (fs : List (List String × String)) :
    List (String × String) :=
  fs.map (fun pf =>
    (GoPath.JoinList (S :: p ++ pf.1 ++ [pf.2]),
     GoPath.JoinList (D :: GoPath.Base S :: p ++ pf.1 ++ [pf.2])))

/-- The result `res` of an upload started in the world `w` follows the plan: the oracle is
kept, the files written since `w` are a prefix of the plan, all of it when the result is
nil, and the result is nil when every call succeeds on a client with a sub-channel. -/
def UploadsPlan (w : World) (c : Client) (res : World × Status)
    (plan : List (String × String)) : Prop :=
  res.1.answers = w.answers ∧
  (∃ evs, res.1.trace = w.trace ++ evs ∧ uploaded evs <+: plan ∧
    (res.2 = .nil → uploaded evs = plan)) ∧
  ((∀ n, (w.answers n).ok = true) → c.sftpClient ≠ none → res.2 = .nil)

/-- A world in which every call succeeds except the listed ones (by position), and every
`Stat` finds the object `tree`. -/
def World.withTree (tree : FsNode) (bad : List Nat) : World :=
  { answers := fun n =>
      if n ∈ bad then ⟨false, "refused", "", tree, false⟩
      else ⟨true, "", "/home/u", tree, true⟩
    trace := [] }

/-- A directory with the file `a.txt` and the subdirectory `sub` that holds the file `b`. -/
def FsNode.sample : FsNode :=
  .mk true (.cons "a.txt" (.mk false .nil)
    (.cons "sub" (.mk true (.cons "b" (.mk false .nil) .nil)) .nil))

/-! ## Absolute paths -/

/-- The paths a call hands to the file system of either side. -/
def Call.paths : Call → List String
  | .sftpStat p => [p]
  | .sftpRemove p => [p]
  | .sftpRename a b => [a, b]
  | .sftpOpen p => [p]
  | .sftpCreate p => [p]
  | .sftpChmod p => [p]
  | .sftpMkdirAll p => [p]
  | .sftpReadDir p => [p]
  | .remoteFileStat p => [p]
  | .remoteFileClose p => [p]
  | .remoteWriteTo a b => [a, b]
  | .remoteReadFrom a b => [a, b]
  | .osStat p => [p]
  | .osOpen p => [p]
  | .osCreate p => [p]
  | .osChmod p => [p]
  | .osMkdirAll p => [p]
  | .ioReadDir p => [p]
  | .localFileStat p => [p]
  | .localFileClose p => [p]
  | .ioCopy a b => [a, b]
  | _ => []

/-- Every path handed over in the calls is absolute. -/
def allAbs (trace : List Event) : Bool :=
  trace.all (fun ev => ev.call.paths.all GoPath.IsAbs)

/-- Both working directories of the runner are absolute. -/
def Runner.absDirs (r : Runner) : Bool :=
  GoPath.IsAbs r.cwdLocal && GoPath.IsAbs r.cwdRemote

/-! ## `lib/parser`: the tokenizer `GenerateAST`

The source of the tokenizer is not part of the development (only its test
`lib/parser/ast_test.go` is); the definitions below follow the specification. -/

namespace Parser

/-- The Go `Token` of the test: a keyword and its arguments. -/
structure Token where
  Key : String
  value : List String
  deriving DecidableEq

/-- What the tokenizer makes of one physical line: nothing, a statement, or an error. -/
inductive LineResult where
  | skip
  | token (t : Token)
  | fail (msg : String)
  deriving DecidableEq

/-- The statement a line gave, if it gave one. -/
def LineResult.token? : LineResult → Option Token
  | .token t => some t
  | _ => none

/-- What the tokenizer returns: the statements, or the error of the first bad line. -/
inductive Result where
  | ok (tokens : List Token)
  | error (msg : String)
  deriving DecidableEq

/-- Modelled from the spec: the recognized keywords, "CONNECT, VAR, ENV, CD, CMD, RUN, MOVE,
COPY, DELETE, UPLOAD, DOWNLOAD" (the source of the tokenizer is missing). -/
def keywords : List String :=
  ["CONNECT", "VAR", "ENV", "CD", "CMD", "RUN", "MOVE", "COPY", "DELETE", "UPLOAD", "DOWNLOAD"]

/-- The physical lines of a text. -/
def splitLines : List Char → List (List Char)
  | [] => [[]]
  | c :: cs =>
    if c = '\n' then [] :: splitLines cs
    else
      match splitLines cs with
      | [] => [[c]]
      | h :: t => (c :: h) :: t

/-- A text without the whitespace at its two ends. -/
def trimChars (l : List Char) : List Char :=
  ((l.dropWhile GoStrings.isSpace).reverse.dropWhile GoStrings.isSpace).reverse

/-- A text without the whitespace at its end. -/
def trimRight (l : List Char) : List Char :=
  (l.reverse.dropWhile GoStrings.isSpace).reverse

/-- Modelled from the spec: the marks that open and close a quoted stretch of a "quoted
token" (section 3), the double quote (code 34) and the single quote (code 39); the spec
names no marks, these are the usual ones (the source of the tokenizer is missing). -/
def isQuote (c : Char) : Bool := c == Char.ofNat 34 || c == Char.ofNat 39

/-- Modelled from the spec: the mark of an "escaped token" (section 3), the backslash
(code 92), which escapes the character after it (the source of the tokenizer is
missing). -/
def isEscape (c : Char) : Bool := c == Char.ofNat 92

/-- Modelled from the spec: where a scan of a line stands with respect to "a quoted/escaped
token" (section 3): the mark of the quoted stretch it is in, if any, and whether the next
character is escaped (the source of the tokenizer is missing). -/
structure Scan where
  quote : Option Char
  escaped : Bool
  deriving DecidableEq

namespace Scan

/-- Modelled from the spec: the scan at the start of a line, outside every quoted stretch
(the source of the tokenizer is missing). -/
def start : Scan := ⟨none, false⟩

/-- Modelled from the spec: whether the next character stands outside every quoted stretch
and is not escaped, "not inside a quoted/escaped token" (the source of the tokenizer is
missing). -/
def outside (s : Scan) : Bool := s.quote.isNone && !s.escaped

/-- Modelled from the spec: the scan after one more character: an escaped character ends
the escape; a backslash escapes the next character; inside a quoted stretch only the mark
that opened it closes it; outside, a quote mark opens one (the source of the tokenizer is
missing). -/
def step (s : Scan) (c : Char) : Scan :=
  if s.escaped then { s with escaped := false }
  else if isEscape c then { s with escaped := true }
  else
    match s.quote with
    | some q => if c = q then { s with quote := none } else s
    | none => if isQuote c then { s with quote := some c } else s

end Scan

/-- Modelled from the spec: the line up to its trailing comment, from a given scan on;
`afterSpace` tells whether the character before was a separating whitespace (the source of
the tokenizer is missing). -/
def stripCommentFrom : Scan → Bool → List Char → List Char
  | _, _, [] => []
  | s, afterSpace, c :: cs =>
    if c = '#' ∧ afterSpace = true ∧ s.outside = true then []
    else c :: stripCommentFrom (s.step c) (GoStrings.isSpace c && s.outside) cs

/-- Modelled from the spec: "an inline `#` that begins a trailing comment (preceded by
whitespace, not inside a quoted/escaped token) truncates the remainder of the line"
(section 3), "strip a trailing comment (first `#` preceded by whitespace)" (section 4.1):
the line is cut at the first `#` that stands outside every quoted stretch, is not escaped,
and follows a whitespace that is itself outside every quoted stretch and not escaped (the
source of the tokenizer is missing). -/
def stripComment (l : List Char) : List Char := stripCommentFrom Scan.start false l

/-- Modelled from the spec: the tokens of a text, from a given scan on; `cur` is the token
being read, backwards (the source of the tokenizer is missing). -/
def fieldsFrom : Scan → List Char → List Char → List (List Char)
  | _, cur, [] => if cur = [] then [] else [cur.reverse]
  | s, cur, c :: cs =>
    if GoStrings.isSpace c = true ∧ s.outside = true then
      (if cur = [] then fieldsFrom s [] cs else cur.reverse :: fieldsFrom s [] cs)
    else fieldsFrom (s.step c) (c :: cur) cs

/-- Modelled from the spec: "Whitespace runs are token separators; consecutive whitespace
collapses to one separator" (section 3).  A whitespace inside a quoted stretch or after a
backslash belongs to the token around it (section 3 speaks of a `#` "preceded by whitespace"
and yet "inside a quoted/escaped token"); tokens keep their quote marks and backslashes
(the source of the tokenizer is missing). -/
def fields (l : List Char) : List (List Char) := fieldsFrom Scan.start [] l

/-- Modelled from the spec: the statement text of a physical line (section 4.1): a line
that is empty or starts with `#` after trimming has none; otherwise it is the line without
its trailing comment and without the whitespace at its end, if that is not empty (the
source of the tokenizer is missing). -/
def statement (raw : List Char) : Option (List Char) :=
  let line := trimChars raw
  if line = [] then none
  else if line.head? = some '#' then none
  else
    let body := trimRight (stripComment line)
    if body = [] then none else some body

/-- Modelled from the spec: the first token of a statement text, the text up to its first
whitespace (the source of the tokenizer is missing). -/
def keywordOf (body : List Char) : List Char :=
  body.takeWhile (fun c => !GoStrings.isSpace c)

/-- Modelled from the spec: the text of a statement that follows its first token (the
source of the tokenizer is missing). -/
def argumentText (body : List Char) : List Char :=
  body.dropWhile (fun c => !GoStrings.isSpace c)

/-- Modelled from the spec: the key of an ENV statement, the text before the first `=`,
trimmed (the source of the tokenizer is missing). -/
def envKey (rest : List Char) : List Char :=
  trimChars (rest.takeWhile (fun c => c != '='))

/-- Modelled from the spec: the value of an ENV statement, the text after the first `=`,
trimmed (the source of the tokenizer is missing). -/
def envValue (rest : List Char) : List Char :=
  trimChars ((rest.dropWhile (fun c => c != '=')).drop 1)

/-- Modelled from the spec: the rule of ENV, "`ENV KEY = VALUE`; both KEY and VALUE
non-empty after trim; missing `=` or empty value ⇒ parse error" (section 3), on the text
that follows the keyword, split at its first `=` (the source of the tokenizer is missing;
section 4.1 words the same rule as "a literal `=` token and a non-empty value after it"). -/
def envStatement (rest : List Char) : LineResult :=
  if '=' ∉ rest then .fail "ENV requires `=`"
  else if envKey rest = [] then .fail "ENV requires a key"
  else if envValue rest = [] then .fail "ENV requires a value"
  else .token ⟨"ENV", [String.mk (envKey rest), String.mk (envValue rest)]⟩

/-- Modelled from the spec: the grammar of one statement text (section 4.1): the first
token must consist of uppercase letters and be a recognized keyword; ENV has its own rule;
any other keyword needs at least one argument (the source of the tokenizer is missing). -/
def tokenizeStatement (body : List Char) : LineResult :=
  let keyword := keywordOf body
  let rest := argumentText body
  if keyword.all Char.isUpper = false then .fail "invalid grammar"
  else if String.mk keyword ∉ keywords then .fail "invalid keyword"
  else if String.mk keyword = "ENV" then envStatement rest
  else if fields rest = [] then .fail "the keyword requires a value"
  else .token ⟨String.mk keyword, (fields rest).map String.mk⟩

/-- Modelled from the spec: one line of the tokenizer (section 4.1): a line without a
statement text is skipped, any other line is judged by the grammar of its statement text
(the source of the tokenizer is missing). -/
def tokenizeLine (raw : List Char) : LineResult :=
  match statement raw with
  | none => .skip
  | some body => tokenizeStatement body

/-- The statements of the lines, or the error of the first bad line. -/
def collect : List (List Char) → Result
  | [] => .ok []
  | l :: ls =>
    match tokenizeLine l with
    | .fail msg => .error msg
    | .skip => collect ls
    | .token t =>
      match collect ls with
      | .ok ts => .ok (t :: ts)
      | .error msg => .error msg

/-- Modelled from the spec: `GenerateAST`, the tokenizer of section 4.1, "tokenize(text) →
(sequence of LineStatement, error)" (its source is missing; `ast_test.go` is its test). -/
def GenerateAST (input : String) : Result := collect (splitLines input.data)

/-- Modelled from the spec: the text that follows the keyword of a physical line that holds
an ENV statement, none for any other line (the source of the tokenizer is missing). -/
def envLine (raw : List Char) : Option (List Char) :=
  match statement raw with
  | none => none
  | some body => if keywordOf body = ['E', 'N', 'V'] then some (argumentText body) else none

end Parser
/-- A word of a statement: not empty, without whitespace, `=` or `#`. -/
def Parser.wordChars (w : List Char) : Bool :=
  w ≠ [] && w.all (fun c => !GoStrings.isSpace c && c != '=' && c != '#')

/-- A word of a statement: not empty, without whitespace, `=` or `#`. -/
def Parser.Word (s : String) : Bool := Parser.wordChars s.data

/-- A stand-in for the missing substitution: a string `$name` is replaced by the value of
`name` in the table (by the empty string when there is none), any other string is left as
it is; the denylist holds the root. -/
def Lib.dollar : Lib :=
  { Compile := fun s vars =>
      match s.data with
      | '$' :: name => (vars.get (String.mk name)).getD ""
      | _ => s
    CompileArray := fun xs vars =>
      xs.map (fun s =>
        match s.data with
        | '$' :: name => (vars.get (String.mk name)).getD ""
        | _ => s)
    IsLinuxBuildInPath := fun p => p == "/" }

/-! ## Frame lemmas: what a handler leaves alone -/

namespace Runner

/-- A runner is well formed when the client it holds, if any, has both its transport and
its sub-channel: the state `NewRunner` and every CONNECT leave behind. -/
def wellFormed (r : Runner) : Bool :=
  match r.ssh with
  | none => true
  | some c => c.sshClient.isSome && c.sftpClient.isSome

theorem actionCd_frame (lib : Lib) (w : World) (r : Runner) (p : NodeCd) :
    (r.actionCd lib w p).1 = w ∧ (r.actionCd lib w p).2.1.ssh = r.ssh ∧
    (r.actionCd lib w p).2.1.step = r.step ∧ (r.actionCd lib w p).2.1.env = r.env ∧
    (r.actionCd lib w p).2.1.varTable = r.varTable ∧
    (r.actionCd lib w p).2.1.cwdLocal = r.cwdLocal ∧
    (r.actionCd lib w p).2.1.tokens = r.tokens := by
  unfold actionCd; split <;> simp

theorem actionEnv_frame (lib : Lib) (w : World) (r : Runner) (p : NodeEnv) :
    (r.actionEnv lib w p).1 = w ∧ (r.actionEnv lib w p).2.1.ssh = r.ssh ∧
    (r.actionEnv lib w p).2.1.step = r.step ∧
    (r.actionEnv lib w p).2.1.varTable = r.varTable ∧
    (r.actionEnv lib w p).2.1.cwdLocal = r.cwdLocal ∧
    (r.actionEnv lib w p).2.1.cwdRemote = r.cwdRemote ∧
    (r.actionEnv lib w p).2.1.tokens = r.tokens := by
  simp [actionEnv]

theorem actionCmd_runner (lib : Lib) (w : World) (r : Runner) (p : NodeCmd) :
    (r.actionCmd lib w p).2.1 = r := by
  unfold actionCmd; simp only []; split <;> [rfl; (split <;> rfl)]

theorem actionCopy_runner (lib : Lib) (w : World) (r : Runner) (p : NodeCopy) :
    (r.actionCopy lib w p).2.1 = r := by
  unfold actionCopy; split <;> rfl

theorem actionMove_runner (lib : Lib) (w : World) (r : Runner) (p : NodeCopy) :
    (r.actionMove lib w p).2.1 = r := by
  unfold actionMove; split <;> rfl

theorem actionDelete_runner (lib : Lib) (w : World) (r : Runner) (p : NodeDelete) :
    (r.actionDelete lib w p).2.1 = r := by
  unfold actionDelete; split <;> rfl

theorem actionRun_runner (lib : Lib) (w : World) (r : Runner) (p : NodeRun) :
    (r.actionRun lib w p).2.1 = r := by
  unfold actionRun; split <;> rfl

theorem actionUpload_runner (lib : Lib) (w : World) (r : Runner) (p : NodeUpload) :
    (r.actionUpload lib w p).2.1 = r := by
  unfold actionUpload; split <;> rfl

theorem actionDownload_runner (lib : Lib) (w : World) (r : Runner) (p : NodeUpload) :
    (r.actionDownload lib w p).2.1 = r := by
  unfold actionDownload; split <;> rfl

theorem actionVar_frame (lib : Lib) (w : World) (r : Runner) (p : NodeVar) :
    (r.actionVar lib w p).2.1.ssh = r.ssh ∧
    (r.actionVar lib w p).2.1.step = r.step ∧ (r.actionVar lib w p).2.1.env = r.env ∧
    (r.actionVar lib w p).2.1.cwdLocal = r.cwdLocal ∧
    (r.actionVar lib w p).2.1.cwdRemote = r.cwdRemote ∧
    (r.actionVar lib w p).2.1.tokens = r.tokens := by
  unfold actionVar
  repeat' (first | split | (dsimp only; split))
  all_goals simp

theorem connect_nil_isOpen (w : World) (c : Client) (host port username password : String)
    (h : (c.Connect w host port username password).2.2 = .nil) :
    ∃ t s, (c.Connect w host port username password).2.1 = ⟨some t, some s⟩ := by
  unfold Client.Connect at h ⊢
  dsimp only at h ⊢
  split
  · rename_i hd; simp [hd] at h
  · split
    · rename_i hd hf; simp [hd, hf] at h
    · exact ⟨_, _, rfl⟩

theorem disconnectFirst_frame (w : World) (r : Runner) :
    (disconnectFirst w r).2.1.step = r.step ∧ (disconnectFirst w r).2.1.env = r.env ∧
    (disconnectFirst w r).2.1.varTable = r.varTable ∧
    (disconnectFirst w r).2.1.tokens = r.tokens ∧
    (disconnectFirst w r).2.1.cwdLocal = r.cwdLocal ∧
    (disconnectFirst w r).2.1.cwdRemote = r.cwdRemote := by
  unfold disconnectFirst
  repeat' (first | split | (dsimp only; split))
  all_goals simp

theorem connectNew_frame (w : World) (r : Runner) (p : NodeConnect) (password : String) :
    (connectNew w r p password).2.1.step = r.step ∧
    (connectNew w r p password).2.1.env = r.env ∧
    (connectNew w r p password).2.1.varTable = r.varTable ∧
    (connectNew w r p password).2.1.tokens = r.tokens := by
  unfold connectNew
  repeat' (first | split | (dsimp only; split))
  all_goals simp

theorem connectNew_wellFormed (w : World) (r : Runner) (p : NodeConnect) (password : String) :
    (connectNew w r p password).2.1.wellFormed = true := by
  unfold connectNew
  dsimp only
  split
  · rename_i hc
    obtain ⟨t, s, hts⟩ := connect_nil_isOpen _ _ _ _ _ _ hc
    repeat' split
    all_goals simp [wellFormed, hts]
  · simp [wellFormed]

theorem promptAndConnect_frame (lib : Lib) (w : World) (r : Runner) (p : NodeConnect) :
    (promptAndConnect lib w r p).2.1.step = r.step ∧
    (promptAndConnect lib w r p).2.1.env = r.env ∧
    (promptAndConnect lib w r p).2.1.varTable = r.varTable ∧
    (promptAndConnect lib w r p).2.1.tokens = r.tokens := by
  unfold promptAndConnect
  dsimp only
  split
  · exact connectNew_frame _ _ _ _
  · simp

theorem caseConnect_frame (lib : Lib) (w : World) (r : Runner) (p : NodeConnect) :
    (caseConnect lib w r p).2.1.step = r.step ∧ (caseConnect lib w r p).2.1.env = r.env ∧
    (caseConnect lib w r p).2.1.varTable = r.varTable ∧
    (caseConnect lib w r p).2.1.tokens = r.tokens := by
  have hd := disconnectFirst_frame w r
  unfold caseConnect
  dsimp only
  split
  · have hc := promptAndConnect_frame lib (disconnectFirst w r).1 (disconnectFirst w r).2.1 p
    simp only [hc, hd, and_self]
  · simp only [hd, and_self]

theorem disconnectFirst_wellFormed (w : World) (r : Runner) (h : r.wellFormed = true) :
    (disconnectFirst w r).2.1.wellFormed = true := by
  unfold disconnectFirst
  split
  · exact h
  · dsimp only
    split
    · simp [wellFormed]
    · exact h

theorem promptAndConnect_wellFormed (lib : Lib) (w : World) (r : Runner) (p : NodeConnect)
    (h : r.wellFormed = true) : (promptAndConnect lib w r p).2.1.wellFormed = true := by
  unfold promptAndConnect
  dsimp only
  split
  · exact connectNew_wellFormed _ _ _ _
  · exact h

theorem caseConnect_wellFormed (lib : Lib) (w : World) (r : Runner) (p : NodeConnect)
    (h : r.wellFormed = true) : (caseConnect lib w r p).2.1.wellFormed = true := by
  have hd := disconnectFirst_wellFormed w r h
  unfold caseConnect
  dsimp only
  split
  · exact promptAndConnect_wellFormed lib _ _ p hd
  · exact hd

/-- The switch leaves the step counter and the tokens alone. -/
theorem dispatch_step (lib : Lib) (w : World) (r : Runner) (a : Token) :
    (dispatch lib w r a).2.1.step = r.step ∧ (dispatch lib w r a).2.1.tokens = r.tokens := by
  unfold dispatch
  split
  · exact ⟨(caseConnect_frame lib w r _).1, (caseConnect_frame lib w r _).2.2.2⟩
  · exact ⟨(actionVar_frame lib w r _).2.1, (actionVar_frame lib w r _).2.2.2.2.2⟩
  · exact ⟨(actionEnv_frame lib w r _).2.2.1, (actionEnv_frame lib w r _).2.2.2.2.2.2⟩
  · exact ⟨(actionCd_frame lib w r _).2.2.1, (actionCd_frame lib w r _).2.2.2.2.2.2⟩
  · rw [actionCmd_runner]; exact ⟨rfl, rfl⟩
  · rw [actionRun_runner]; exact ⟨rfl, rfl⟩
  · rw [actionMove_runner]; exact ⟨rfl, rfl⟩
  · rw [actionCopy_runner]; exact ⟨rfl, rfl⟩
  · rw [actionDelete_runner]; exact ⟨rfl, rfl⟩
  · rw [actionUpload_runner]; exact ⟨rfl, rfl⟩
  · rw [actionDownload_runner]; exact ⟨rfl, rfl⟩
  · exact ⟨rfl, rfl⟩
  · exact ⟨rfl, rfl⟩

/-- The switch keeps the runner well formed. -/
theorem dispatch_wellFormed (lib : Lib) (w : World) (r : Runner) (a : Token)
    (h : r.wellFormed = true) : (dispatch lib w r a).2.1.wellFormed = true := by
  have key : ∀ r' : Runner, r'.ssh = r.ssh → r'.wellFormed = true := by
    intro r' e; simpa [wellFormed, e] using h
  unfold dispatch
  split
  · exact caseConnect_wellFormed lib w r _ h
  · exact key _ (actionVar_frame lib w r _).1
  · exact key _ (actionEnv_frame lib w r _).2.1
  · exact key _ (actionCd_frame lib w r _).2.1
  · rw [actionCmd_runner]; exact h
  · rw [actionRun_runner]; exact h
  · rw [actionMove_runner]; exact h
  · rw [actionCopy_runner]; exact h
  · rw [actionDelete_runner]; exact h
  · rw [actionUpload_runner]; exact h
  · rw [actionDownload_runner]; exact h
  · exact h
  · exact h

/-- The loop over a list that continues with `rest` after `pre`. -/
theorem runLoop_append (lib : Lib) (pre rest : List Token) (w : World) (r : Runner) :
    runLoop lib w r (pre ++ rest) =
      match (runLoop lib w r pre).2.2 with
      | .nil => runLoop lib (runLoop lib w r pre).1 (runLoop lib w r pre).2.1 rest
      | _ => runLoop lib w r pre := by
  induction pre generalizing w r with
  | nil => simp [runLoop]
  | cons a pre ih =>
    simp only [List.cons_append, runLoop]
    split
    · exact ih _ _
    · rename_i hd
      split
      · rename_i h2; exact absurd h2 (by simpa using hd)
      · rfl

/-- The loop keeps the runner well formed. -/
theorem runLoop_wellFormed (lib : Lib) (ts : List Token) (w : World) (r : Runner)
    (h : r.wellFormed = true) : (runLoop lib w r ts).2.1.wellFormed = true := by
  induction ts generalizing w r with
  | nil => simpa [runLoop] using h
  | cons a ts ih =>
    have hd := dispatch_wellFormed lib w { r with step := r.step + 1 } a
      (by simpa [wellFormed] using h)
    simp only [runLoop]
    split
    · exact ih _ _ hd
    · exact hd

/-- A disconnect of a client with both handles does not panic, and asks for the two
closes. -/
theorem disconnect_open (w : World) (t s : Nat) :
    (∀ m, (Client.Disconnect w ⟨some t, some s⟩).2 ≠ .panic m) ∧
    (Client.Disconnect w ⟨some t, some s⟩).1.trace =
      w.trace ++ [⟨.sshClose t, (w.answers w.trace.length).ok⟩,
        ⟨.sftpClose s, (w.answers (w.trace.length + 1)).ok⟩] := by
  unfold Client.Disconnect
  dsimp only
  constructor
  · intro m
    split
    · simp
    · split <;> simp
  · repeat' split
    all_goals simp [World.ask]

end Runner

/-! ## C1: actions that need a connection -/

/-- C1: with no active connection (`ssh = nil`) the handlers of CD, RUN, MOVE, COPY, DELETE,
UPLOAD, DOWNLOAD, VAR from a remote environment variable and VAR from a remote command
return the error "you need to connect to server first"; the handlers of ENV and of VAR
with a literal do not return it (they return no error at all). -/
theorem C1_not_connected (lib : Lib) (w : World) (r : Runner) (h : r.ssh = none) :
    (∀ p, (r.actionCd lib w p).2.2 = .error "you need to connect to server first") ∧
    (∀ p, (r.actionRun lib w p).2.2 = .error "you need to connect to server first") ∧
    (∀ p, (r.actionMove lib w p).2.2 = .error "you need to connect to server first") ∧
    (∀ p, (r.actionCopy lib w p).2.2 = .error "you need to connect to server first") ∧
    (∀ p, (r.actionDelete lib w p).2.2 = .error "you need to connect to server first") ∧
    (∀ p, (r.actionUpload lib w p).2.2 = .error "you need to connect to server first") ∧
    (∀ p, (r.actionDownload lib w p).2.2 = .error "you need to connect to server first") ∧
    (∀ key envKey cmd, (r.actionVar lib w ⟨key, none, some ⟨false, envKey⟩, cmd⟩).2.2
        = .error "you need to connect to server first") ∧
    (∀ key argv, (r.actionVar lib w ⟨key, none, none, some ⟨false, argv⟩⟩).2.2
        = .error "you need to connect to server first") ∧
    (∀ p, (r.actionEnv lib w p).2.2 = .nil) ∧
    (∀ key lit env cmd, (r.actionVar lib w ⟨key, some lit, env, cmd⟩).2.2 = .nil) := by
  have hr : r.requireConnection = .error "you need to connect to server first" := by
    simp [Runner.requireConnection, h, notConnected]
  refine ⟨?_, ?_, ?_, ?_, ?_, ?_, ?_, ?_, ?_, ?_, ?_⟩
  · intro p; simp [Runner.actionCd, hr]
  · intro p; simp [Runner.actionRun, hr]
  · intro p; simp [Runner.actionMove, hr]
  · intro p; simp [Runner.actionCopy, hr]
  · intro p; simp [Runner.actionDelete, hr]
  · intro p; simp [Runner.actionUpload, hr]
  · intro p; simp [Runner.actionDownload, hr]
  · intro key envKey cmd; simp [Runner.actionVar, hr]
  · intro key argv; simp [Runner.actionVar, hr]
  · intro p; simp [Runner.actionEnv]
  · intro key lit env cmd; simp [Runner.actionVar]

/-- C1 at the runner a fresh `NewRunner` returns. -/
theorem C1_not_connected_witness :
    (NewRunner []).ssh = none ∧
    ((NewRunner []).actionCd Lib.plain World.calm ⟨"/srv"⟩).2.2
      = .error "you need to connect to server first" :=
  ⟨rfl, (C1_not_connected Lib.plain World.calm (NewRunner []) rfl).1 ⟨"/srv"⟩⟩

/-! ## C2: the first error ends the run -/

namespace Runner

/-- The loop stops at the first action whose handler does not return nil. -/
theorem runLoop_stops (lib : Lib) (w : World) (r : Runner) (pre post : List Token) (a : Token)
    (hpre : (runLoop lib w r pre).2.2 = .nil)
    (herr : (afterAction lib w r pre a).2.2 ≠ .nil) :
    runLoop lib w r (pre ++ a :: post) = afterAction lib w r pre a := by
  rw [runLoop_append, hpre]
  simp only [runLoop]
  split
  · rename_i h; exact absurd h herr
  · rfl

/-- The deferred disconnect of a well-formed runner keeps the status, and adds nothing but
closes to the trace. -/
theorem deferred_wellFormed (x : World × Runner × Status) (h : x.2.1.wellFormed = true) :
    (deferred x).2 = x.2 ∧
    ∃ closes, (deferred x).1.trace = x.1.trace ++ closes ∧
      ∀ ev ∈ closes, ev.call.isClose = true := by
  unfold deferred
  split
  · exact ⟨rfl, [], by simp, by simp⟩
  · rename_i c hc
    obtain ⟨t, s⟩ := c
    simp only [wellFormed, hc, Bool.and_eq_true, Option.isSome_iff_exists] at h
    obtain ⟨⟨t, rfl⟩, ⟨s, rfl⟩⟩ := h
    have hd := disconnect_open x.1 t s
    dsimp only
    constructor
    · split
      · rename_i m hm; exact absurd hm (hd.1 m)
      · rfl
    · refine ⟨[⟨.sshClose t, (x.1.answers x.1.trace.length).ok⟩,
        ⟨.sftpClose s, (x.1.answers (x.1.trace.length + 1)).ok⟩], ?_, ?_⟩
      · split <;> exact hd.2
      · intro ev hev
        simp only [List.mem_cons, List.mem_singleton, List.not_mem_nil, or_false] at hev
        rcases hev with rfl | rfl <;> rfl

end Runner

/-- C2: if the loop of `Run` reaches action `a` (the actions `pre` before it returned no
error) and the handler of `a` returns an error, then `Run` returns that same error, the
runner (environment map, variable table, working directories and all) is exactly as the
handler of `a` left it, and the trace is the one left by that handler followed only by the
closes of the deferred disconnect: no action of `post` is dispatched. -/
theorem C2_error_aborts_run (lib : Lib) (w : World) (r : Runner) (pre post : List Token)
    (a : Token) (e : String)
    (hwf : r.wellFormed = true)
    (htok : r.tokens = pre ++ a :: post)
    (hpre : (Runner.runLoop lib w r pre).2.2 = .nil)
    (herr : (Runner.afterAction lib w r pre a).2.2 = .error e) :
    (Runner.Run lib w r).2.2 = .error e ∧
    (Runner.Run lib w r).2.1 = (Runner.afterAction lib w r pre a).2.1 ∧
    ∃ closes, (Runner.Run lib w r).1.trace = (Runner.afterAction lib w r pre a).1.trace ++ closes ∧
      ∀ ev ∈ closes, ev.call.isClose = true := by
  have hne : (Runner.afterAction lib w r pre a).2.2 ≠ .nil := by rw [herr]; simp
  have hloop := Runner.runLoop_stops lib w r pre post a hpre hne
  have hbody : Runner.runBody lib w r = Runner.afterAction lib w r pre a := by
    unfold Runner.runBody
    dsimp only
    rw [htok, hloop]
    split
    · rename_i h; exact absurd h hne
    · rfl
  have hwf' : (Runner.afterAction lib w r pre a).2.1.wellFormed = true := by
    unfold Runner.afterAction
    apply Runner.dispatch_wellFormed
    have := Runner.runLoop_wellFormed lib pre w r hwf
    simpa [Runner.wellFormed] using this
  have hd := Runner.deferred_wellFormed _ hwf'
  unfold Runner.Run
  rw [hbody]
  refine ⟨?_, ?_, hd.2⟩
  · rw [hd.1, herr]
  · rw [hd.1]

/-- C2 on the script `ENV FOO = bar`, `CD /srv`, `ENV X = y` run without a CONNECT: the CD
fails, and the second ENV is never executed. -/
theorem C2_error_aborts_run_witness :
    (Runner.Run Lib.plain World.calm (NewRunner
        [⟨.ENV, .env ⟨"FOO", "bar"⟩⟩, ⟨.CD, .cd ⟨"/srv"⟩⟩, ⟨.ENV, .env ⟨"X", "y"⟩⟩])).2.2
      = .error "you need to connect to server first" ∧
    (Runner.Run Lib.plain World.calm (NewRunner
        [⟨.ENV, .env ⟨"FOO", "bar"⟩⟩, ⟨.CD, .cd ⟨"/srv"⟩⟩, ⟨.ENV, .env ⟨"X", "y"⟩⟩])).2.1.env
      = [("FOO", "bar")] := by
  have h := C2_error_aborts_run Lib.plain World.calm
    (NewRunner [⟨.ENV, .env ⟨"FOO", "bar"⟩⟩, ⟨.CD, .cd ⟨"/srv"⟩⟩, ⟨.ENV, .env ⟨"X", "y"⟩⟩])
    [⟨.ENV, .env ⟨"FOO", "bar"⟩⟩] [⟨.ENV, .env ⟨"X", "y"⟩⟩] ⟨.CD, .cd ⟨"/srv"⟩⟩
    "you need to connect to server first" rfl rfl rfl rfl
  exact ⟨h.1, by rw [h.2.1]; rfl⟩

/-! ## C3: CD -/

/-- C3: for a connected runner and a CD target `t` with substituted target
`t' = Compile t`, `actionCd` returns no error and leaves the remote working directory at
`t'` when `t'` is absolute and at `path.Join(old remote working directory, t')` otherwise. -/
theorem C3_cd_resolves_target (lib : Lib) (w : World) (r : Runner) (c : Client) (t : String)
    (h : r.ssh = some c) :
    (r.actionCd lib w ⟨t⟩).2.2 = .nil ∧
    (GoPath.IsAbs (lib.Compile t r.varTable) = true →
      (r.actionCd lib w ⟨t⟩).2.1.cwdRemote = lib.Compile t r.varTable) ∧
    (GoPath.IsAbs (lib.Compile t r.varTable) = false →
      (r.actionCd lib w ⟨t⟩).2.1.cwdRemote
        = GoPath.Join r.cwdRemote (lib.Compile t r.varTable)) := by
  have hr : r.requireConnection = .nil := by simp [Runner.requireConnection, h]
  refine ⟨?_, ?_, ?_⟩
  · simp [Runner.actionCd, hr]
  · intro habs; simp [Runner.actionCd, hr, Runner.resolveRemotePath, habs]
  · intro hrel; simp [Runner.actionCd, hr, Runner.resolveRemotePath, hrel]

/-- C3 at `/home/u` with the relative target `../srv/./www`, and with the absolute `/opt`. -/
theorem C3_cd_resolves_target_witness :
    ((Runner.connectedAt "/home/u").actionCd Lib.plain World.calm ⟨"../srv/./www"⟩).2.1.cwdRemote
      = "/home/srv/www" ∧
    ((Runner.connectedAt "/home/u").actionCd Lib.plain World.calm ⟨"/opt"⟩).2.1.cwdRemote
      = "/opt" := by
  have h1 := C3_cd_resolves_target Lib.plain World.calm (Runner.connectedAt "/home/u")
    ⟨some 0, some 1⟩ "../srv/./www" rfl
  have h2 := C3_cd_resolves_target Lib.plain World.calm (Runner.connectedAt "/home/u")
    ⟨some 0, some 1⟩ "/opt" rfl
  exact ⟨by rw [h1.2.2 (by decide)]; decide, by rw [h2.2.1 (by decide)]; rfl⟩

/-! ## C4: the command a RUN sends -/

theorem join_export_statements (kv : String × String) (env : StrMap) :
    GoStrings.Join ((kv :: env).map exportStatement) " " ++ " " = exportPrefix (kv :: env) := by
  induction env generalizing kv with
  | nil =>
    simp only [List.map, GoStrings.Join, exportStatement, exportPrefix, String.append_assoc]
    rfl
  | cons kv' env ih =>
    have h := ih kv'
    simp only [List.map, GoStrings.Join, String.append_assoc] at h ⊢
    rw [h]
    simp only [exportStatement, exportPrefix, String.append_assoc]
    rfl

theorem setEnvForCommand_exports (command : String) (env : StrMap) :
    setEnvForCommand command env = exportPrefix env ++ command := by
  cases env with
  | nil => simp [setEnvForCommand, exportPrefix]
  | cons kv env =>
    have h := join_export_statements kv env
    simp only [setEnvForCommand, List.length_map, List.length_cons, bne_iff_ne, ne_eq,
      Nat.add_one_ne_zero, not_false_eq_true, ↓reduceIte]
    rw [h]

/-- C4: the command `Client.Run` builds from the command `c`, the working directory `d` and
the environment `env` is `c`, prefixed by `cd d && ` when `d` is not empty, then prefixed by
one `export K=V;` statement per entry of `env`, each followed by one space (so: no export
prefix for an empty `env`); when the session and its two pipes open, that string is what
`Client.Run` hands to `session.Run`.  For `env = {FOO: bar}`, a non-empty `d` and
`c = "echo $FOO"` it is `export FOO=bar; cd d && echo $FOO`. -/
theorem C4_run_command_string (c : String) (d : String) (env : StrMap) :
    Client.runCommand c ⟨d, env⟩ = exportPrefix env ++ cdPrefixed d c ∧
    Client.runCommand c ⟨d, []⟩ = cdPrefixed d c ∧
    (d ≠ "" → Client.runCommand "echo $FOO" ⟨d, [("FOO", "bar")]⟩
      = "export FOO=bar; cd " ++ d ++ " && echo $FOO") ∧
    (∀ (w : World) (t : Nat) (s : Option Nat),
      (w.answers w.trace.length).ok = true → (w.answers (w.trace.length + 1)).ok = true →
      (w.answers (w.trace.length + 2)).ok = true →
      (Client.Run w ⟨some t, s⟩ c ⟨d, env⟩).1.trace = w.trace ++
        [⟨.newSession t, true⟩, ⟨.stdoutPipe w.trace.length, true⟩,
         ⟨.stderrPipe w.trace.length, true⟩,
         ⟨.sessionRun w.trace.length (exportPrefix env ++ cdPrefixed d c),
           (w.answers (w.trace.length + 3)).ok⟩,
         ⟨.sessionClose w.trace.length, (w.answers (w.trace.length + 4)).ok⟩]) := by
  have h1 : ∀ (c d : String) (env : StrMap),
      Client.runCommand c ⟨d, env⟩ = exportPrefix env ++ cdPrefixed d c := by
    intro c d env
    unfold Client.runCommand cdPrefixed
    dsimp only
    rw [setEnvForCommand_exports]
    by_cases hd : d = "" <;> simp [hd]
  refine ⟨h1 c d env, ?_, ?_, ?_⟩
  · rw [h1]; simp [exportPrefix]
  · intro hd
    rw [h1]
    simp only [exportPrefix, cdPrefixed, hd, ↓reduceIte, String.append_assoc, String.append_empty]
    rfl
  · intro w t s h0 hp1 hp2
    unfold Client.Run
    simp only [World.ask, h0, hp1, hp2, List.length_append, List.length_singleton,
      Client.closeSession, h1, Nat.add_assoc]
    have e3 : w.trace.length + (1 + (1 + 1)) = w.trace.length + 3 := rfl
    have e4 : w.trace.length + (1 + (1 + (1 + 1))) = w.trace.length + 4 := rfl
    simp only [e3, e4]
    split_ifs <;> first | contradiction | simp

/-- C4 on the scenario of the specification: `ENV FOO = bar`, then `RUN echo $FOO` in the
directory `/home/u`. -/
theorem C4_run_command_string_witness :
    (Client.Run World.calm ⟨some 0, some 1⟩ "echo $FOO" ⟨"/home/u", [("FOO", "bar")]⟩).1.trace
      = [⟨.newSession 0, true⟩, ⟨.stdoutPipe 0, true⟩, ⟨.stderrPipe 0, true⟩,
         ⟨.sessionRun 0 "export FOO=bar; cd /home/u && echo $FOO", true⟩,
         ⟨.sessionClose 0, true⟩] := by
  have h := (C4_run_command_string "echo $FOO" "/home/u" [("FOO", "bar")]).2.2.2
    World.calm 0 (some 1) rfl rfl rfl
  rw [h]
  decide

/-! ## C5: DELETE -/

/-- C5: for a connected client and every list of target paths, the calls `Client.Delete`
makes are such that every remove is issued for a target that the protected-path predicate
rejects and directly after a successful stat of that same path; when no stat succeeds
(every target is protected or does not exist) the result is nil; and an error is returned
only when the last call was a remove that failed. -/
theorem C5_delete_skips_protected_and_missing (lib : Lib) (c : Client) (s : Nat)
    (hc : c.sftpClient = some s) (files : List String) (w : World) :
    ∃ evs, (Client.Delete lib w c files).1.trace = w.trace ++ evs ∧
      (∀ n p ok, evs[n]? = some ⟨.sftpRemove p, ok⟩ →
        lib.IsLinuxBuildInPath p = false ∧ p ∈ files ∧
        ∃ m, n = m + 1 ∧ evs[m]? = some ⟨.sftpStat p, true⟩) ∧
      ((∀ p, (⟨.sftpStat p, true⟩ : Event) ∉ evs) → (Client.Delete lib w c files).2 = .nil) ∧
      (∀ msg, (Client.Delete lib w c files).2 = .error msg →
        ∃ p, evs.getLast? = some ⟨.sftpRemove p, false⟩) ∧
      (∀ m, (Client.Delete lib w c files).2 ≠ .panic m) := by
  induction files generalizing w with
  | nil =>
    refine ⟨[], by simp [Client.Delete], ?_, ?_, ?_, ?_⟩ <;> simp [Client.Delete]
  | cons file files ih =>
    by_cases hp : lib.IsLinuxBuildInPath file = true
    · -- a protected path is skipped
      obtain ⟨evs, htr, hrm, hnil, herr, hpanic⟩ := ih w
      have hD : Client.Delete lib w c (file :: files) = Client.Delete lib w c files := by
        simp [Client.Delete, hp]
      rw [hD]
      refine ⟨evs, htr, ?_, hnil, herr, hpanic⟩
      intro n p ok h
      obtain ⟨h1, h2, h3⟩ := hrm n p ok h
      exact ⟨h1, List.mem_cons_of_mem _ h2, h3⟩
    · have hp' : lib.IsLinuxBuildInPath file = false := by simpa using hp
      by_cases hst : (w.answers w.trace.length).ok = true
      · by_cases hrmv : (w.answers (w.trace.length + 1)).ok = true
        · -- stat and remove succeed
          obtain ⟨evs, htr, hrm, hnil, herr, hpanic⟩ :=
            ih ((w.ask (.sftpStat file)).2.ask (.sftpRemove file)).2
          have hD : Client.Delete lib w c (file :: files)
              = Client.Delete lib ((w.ask (.sftpStat file)).2.ask (.sftpRemove file)).2 c files := by
            simp [Client.Delete, hp', hc, World.ask, hst, hrmv]
          rw [hD]
          refine ⟨⟨.sftpStat file, true⟩ :: ⟨.sftpRemove file, true⟩ :: evs, ?_, ?_, ?_, ?_,
            hpanic⟩
          · rw [htr]; simp [World.ask, hst, hrmv]
          · intro n p ok h
            match n, h with
            | 0, h => simp at h
            | 1, h =>
              simp only [List.getElem?_cons_succ, List.getElem?_cons_zero, Option.some.injEq,
                Event.mk.injEq, Call.sftpRemove.injEq] at h
              obtain ⟨rfl, -⟩ := h
              exact ⟨hp', List.mem_cons_self _ _, 0, rfl, rfl⟩
            | k + 2, h =>
              simp only [List.getElem?_cons_succ] at h
              obtain ⟨h1, h2, m, rfl, h3⟩ := hrm k p ok h
              exact ⟨h1, List.mem_cons_of_mem _ h2, m + 2, rfl, by simpa using h3⟩
          · intro hno
            exact absurd (List.mem_cons_self _ _) (hno file)
          · intro msg hmsg
            obtain ⟨p, hlast⟩ := herr msg hmsg
            refine ⟨p, ?_⟩
            cases evs with
            | nil => simp at hlast
            | cons e evs => simpa [List.getLast?_cons_cons] using hlast
        · -- stat succeeds, remove fails
          have hrmv' : (w.answers (w.trace.length + 1)).ok = false := by simpa using hrmv
          have hD : Client.Delete lib w c (file :: files)
              = (((w.ask (.sftpStat file)).2.ask (.sftpRemove file)).2,
                  .error (w.answers (w.trace.length + 1)).err) := by
            simp [Client.Delete, hp', hc, World.ask, hst, hrmv']
          rw [hD]
          refine ⟨[⟨.sftpStat file, true⟩, ⟨.sftpRemove file, false⟩], ?_, ?_, ?_, ?_, ?_⟩
          · simp [World.ask, hst, hrmv']
          · intro n p ok h
            match n, h with
            | 0, h => simp at h
            | 1, h =>
              simp only [List.getElem?_cons_succ, List.getElem?_cons_zero, Option.some.injEq,
                Event.mk.injEq, Call.sftpRemove.injEq] at h
              obtain ⟨rfl, -⟩ := h
              exact ⟨hp', List.mem_cons_self _ _, 0, rfl, rfl⟩
            | k + 2, h => simp at h
          · intro hno
            exact absurd (List.mem_cons_self _ _) (hno file)
          · intro msg _
            exact ⟨file, rfl⟩
          · intro m; simp
      · -- the stat fails: the path is skipped
        have hst' : (w.answers w.trace.length).ok = false := by simpa using hst
        obtain ⟨evs, htr, hrm, hnil, herr, hpanic⟩ := ih (w.ask (.sftpStat file)).2
        have hD : Client.Delete lib w c (file :: files)
            = Client.Delete lib (w.ask (.sftpStat file)).2 c files := by
          simp [Client.Delete, hp', hc, World.ask, hst']
        rw [hD]
        refine ⟨⟨.sftpStat file, false⟩ :: evs, ?_, ?_, ?_, ?_, hpanic⟩
        · rw [htr]; simp [World.ask, hst']
        · intro n p ok h
          match n, h with
          | 0, h => simp at h
          | k + 1, h =>
            simp only [List.getElem?_cons_succ] at h
            obtain ⟨h1, h2, m, rfl, h3⟩ := hrm k p ok h
            exact ⟨h1, List.mem_cons_of_mem _ h2, m + 1, rfl, by simpa using h3⟩
        · intro hno
          apply hnil
          intro p hmem
          exact hno p (List.mem_cons_of_mem _ hmem)
        · intro msg hmsg
          obtain ⟨p, hlast⟩ := herr msg hmsg
          refine ⟨p, ?_⟩
          cases evs with
          | nil => simp at hlast
          | cons e evs => simpa [List.getLast?_cons_cons] using hlast

/-- C5 on the targets `/etc` (protected), `/srv/gone` (its stat fails) and `/srv/old`
(removed): one failed stat, one successful stat and one remove, and no error. -/
theorem C5_delete_skips_protected_and_missing_witness :
    (Client.Delete Lib.plain (World.failingAt [0]) ⟨some 0, some 1⟩
        ["/etc", "/srv/gone", "/srv/old"]).1.trace
      = [⟨.sftpStat "/srv/gone", false⟩, ⟨.sftpStat "/srv/old", true⟩,
         ⟨.sftpRemove "/srv/old", true⟩] ∧
    ∃ evs, (Client.Delete Lib.plain (World.failingAt [0]) ⟨some 0, some 1⟩
        ["/etc", "/srv/gone", "/srv/old"]).1.trace = (World.failingAt [0]).trace ++ evs ∧
      (∀ n p ok, evs[n]? = some ⟨.sftpRemove p, ok⟩ →
        Lib.plain.IsLinuxBuildInPath p = false ∧ p ∈ ["/etc", "/srv/gone", "/srv/old"] ∧
        ∃ m, n = m + 1 ∧ evs[m]? = some ⟨.sftpStat p, true⟩) ∧
      ((∀ p, (⟨.sftpStat p, true⟩ : Event) ∉ evs) →
        (Client.Delete Lib.plain (World.failingAt [0]) ⟨some 0, some 1⟩
          ["/etc", "/srv/gone", "/srv/old"]).2 = .nil) ∧
      (∀ msg, (Client.Delete Lib.plain (World.failingAt [0]) ⟨some 0, some 1⟩
          ["/etc", "/srv/gone", "/srv/old"]).2 = .error msg →
        ∃ p, evs.getLast? = some ⟨.sftpRemove p, false⟩) ∧
      (∀ m, (Client.Delete Lib.plain (World.failingAt [0]) ⟨some 0, some 1⟩
          ["/etc", "/srv/gone", "/srv/old"]).2 ≠ .panic m) :=
  ⟨by decide, C5_delete_skips_protected_and_missing Lib.plain ⟨some 0, some 1⟩ 1 rfl
    ["/etc", "/srv/gone", "/srv/old"] (World.failingAt [0])⟩

/-! ## C6: the deferred disconnect -/

/-- C6: whatever the body of `Run` returns (nil, an error, a panic), if the runner holds a
client `c` when the body is left, `Disconnect` is called on `c` in the world the body left
before `Run` returns: for a well-formed runner the trace of `Run` is the trace of the body
followed by the close of the transport and the close of the sub-channel of `c`, and the
status of the body is what `Run` returns. -/
theorem C6_disconnect_before_return (lib : Lib) (w : World) (r : Runner)
    (hwf : r.wellFormed = true) (c : Client)
    (hc : (Runner.runBody lib w r).2.1.ssh = some c) :
    (Runner.Run lib w r).1 = (c.Disconnect (Runner.runBody lib w r).1).1 ∧
    (Runner.Run lib w r).2.2 = (Runner.runBody lib w r).2.2 ∧
    ∃ t s a b, c = ⟨some t, some s⟩ ∧
      (Runner.Run lib w r).1.trace
        = (Runner.runBody lib w r).1.trace ++ [⟨.sshClose t, a⟩, ⟨.sftpClose s, b⟩] := by
  have hwf' : (Runner.runBody lib w r).2.1.wellFormed = true := by
    have h := Runner.runLoop_wellFormed lib r.tokens w r hwf
    unfold Runner.runBody
    dsimp only
    split
    · simpa [Runner.wellFormed] using h
    · exact h
  have hd := (Runner.deferred_wellFormed _ hwf').1
  have hw : (Runner.Run lib w r).1 = (c.Disconnect (Runner.runBody lib w r).1).1 := by
    unfold Runner.Run Runner.deferred
    rw [hc]
    dsimp only
    split <;> rfl
  refine ⟨hw, ?_, ?_⟩
  · unfold Runner.Run; rw [hd]
  · obtain ⟨t, s⟩ := c
    simp only [Runner.wellFormed, hc, Bool.and_eq_true, Option.isSome_iff_exists] at hwf'
    obtain ⟨⟨t, rfl⟩, ⟨s, rfl⟩⟩ := hwf'
    exact ⟨t, s, _, _, rfl, by rw [hw]; exact (Runner.disconnect_open _ t s).2⟩

/-- C6 on the script `CONNECT user:pw@host:22`, `RUN false` where the remote command fails:
`Run` returns the error, and the last two calls are the closes of the connection. -/
theorem C6_disconnect_before_return_witness :
    (Runner.Run Lib.plain (World.failingAt [7]) (NewRunner
        [⟨.CONNECT, .connect ⟨"user", "host", "22", some "pw"⟩⟩, ⟨.RUN, .run ⟨"false"⟩⟩])).2.2
      = .error "refused" ∧
    ∃ t s a b, (⟨some 0, some 1⟩ : Client) = ⟨some t, some s⟩ ∧
      (Runner.Run Lib.plain (World.failingAt [7]) (NewRunner
        [⟨.CONNECT, .connect ⟨"user", "host", "22", some "pw"⟩⟩, ⟨.RUN, .run ⟨"false"⟩⟩])).1.trace
      = (Runner.runBody Lib.plain (World.failingAt [7]) (NewRunner
        [⟨.CONNECT, .connect ⟨"user", "host", "22", some "pw"⟩⟩, ⟨.RUN, .run ⟨"false"⟩⟩])).1.trace
        ++ [⟨.sshClose t, a⟩, ⟨.sftpClose s, b⟩] := by
  have h := C6_disconnect_before_return Lib.plain (World.failingAt [7]) (NewRunner
    [⟨.CONNECT, .connect ⟨"user", "host", "22", some "pw"⟩⟩, ⟨.RUN, .run ⟨"false"⟩⟩])
    rfl ⟨some 0, some 1⟩ (by decide)
  exact ⟨by decide, h.2.2⟩

/-! ## C7: transports left open -/

/-- C7, on the code: on the script `CONNECT user:pw@host:22`, when the dial succeeds and
the SFTP sub-channel cannot be created, `Run` returns the error with `ssh = nil`, the
trace holds no close at all, and the dialed transport (number 0) is left open. -/
theorem C7_transport_left_open_when_sftp_fails :
    (Runner.Run Lib.plain (World.failingAt [1]) (NewRunner
        [⟨.CONNECT, .connect ⟨"user", "host", "22", some "pw"⟩⟩])).1.trace
      = [⟨.dial "host:22" "user" "pw", true⟩, ⟨.sftpNew 0, false⟩] ∧
    (Runner.Run Lib.plain (World.failingAt [1]) (NewRunner
        [⟨.CONNECT, .connect ⟨"user", "host", "22", some "pw"⟩⟩])).2.1.ssh = none ∧
    (Runner.Run Lib.plain (World.failingAt [1]) (NewRunner
        [⟨.CONNECT, .connect ⟨"user", "host", "22", some "pw"⟩⟩])).2.2 = .error "refused" ∧
    openTransports (Runner.Run Lib.plain (World.failingAt [1]) (NewRunner
        [⟨.CONNECT, .connect ⟨"user", "host", "22", some "pw"⟩⟩])).1.trace = [0] := by
  decide

/-! ## C8: the state a CONNECT leaves -/

namespace Runner

/-- What the part of CONNECT from `NewSSH()` on leaves. -/
theorem connectNew_spec (w : World) (r : Runner) (p : NodeConnect) (pw : String) :
    ((connectNew w r p pw).2.2 = .nil →
      ∃ t s, (connectNew w r p pw).2.1.ssh = some ⟨some t, some s⟩) ∧
    (∀ m, (connectNew w r p pw).2.2 ≠ .panic m) ∧
    (∀ e, (connectNew w r p pw).2.2 = .error e →
      ∃ ev, (connectNew w r p pw).1.trace.getLast? = some ev ∧ ev.ok = false ∧
        ((ev.call.isConnectAttempt = true ∧ ev.call.isGetwd = false ∧
            (connectNew w r p pw).2.1.ssh = none) ∨
         (ev.call.isGetwd = true ∧ ev.call.isConnectAttempt = false ∧
            ∃ t s, (connectNew w r p pw).2.1.ssh = some ⟨some t, some s⟩))) := by
  by_cases h0 : (w.answers w.trace.length).ok = true
  · by_cases h1 : (w.answers (w.trace.length + 1)).ok = true
    · by_cases h2 : (w.answers (w.trace.length + 1 + 1)).ok = true
      · by_cases h3 : (w.answers (w.trace.length + 1 + 1 + 1)).ok = true
        · simp [connectNew, Client.Connect, Client.Pwd, NewSSH, World.ask, h0, h1, h2, h3]
        · simp [connectNew, Client.Connect, Client.Pwd, NewSSH, World.ask, h0, h1, h2, h3,
            Call.isGetwd, Call.isConnectAttempt]
      · simp [connectNew, Client.Connect, Client.Pwd, NewSSH, World.ask, h0, h1, h2,
            Call.isGetwd, Call.isConnectAttempt]
    · simp [connectNew, Client.Connect, Client.Pwd, NewSSH, World.ask, h0, h1,
            Call.isGetwd, Call.isConnectAttempt]
  · simp [connectNew, Client.Connect, Client.Pwd, NewSSH, World.ask, h0,
            Call.isGetwd, Call.isConnectAttempt]

/-- What the CONNECT case leaves once the old client is gone. -/
theorem promptAndConnect_spec (lib : Lib) (w : World) (r : Runner) (p : NodeConnect)
    (hs : r.ssh = none) :
    ((promptAndConnect lib w r p).2.2 = .nil →
      ∃ t s, (promptAndConnect lib w r p).2.1.ssh = some ⟨some t, some s⟩) ∧
    (∀ e ev, (promptAndConnect lib w r p).2.2 = .error e →
      (promptAndConnect lib w r p).1.trace.getLast? = some ev →
      ev.call.isConnectAttempt = true → (promptAndConnect lib w r p).2.1.ssh = none) ∧
    (∀ e c, (promptAndConnect lib w r p).2.2 = .error e →
      (promptAndConnect lib w r p).2.1.ssh = some c →
      ∃ ev, (promptAndConnect lib w r p).1.trace.getLast? = some ev ∧
        ev.call.isGetwd = true ∧ ev.ok = false ∧ ∃ t s, c = ⟨some t, some s⟩) ∧
    (∀ m, (promptAndConnect lib w r p).2.2 ≠ .panic m) := by
  have key : ∀ (w' : World) (pw : String),
      ((connectNew w' r p pw).2.2 = .nil →
        ∃ t s, (connectNew w' r p pw).2.1.ssh = some ⟨some t, some s⟩) ∧
      (∀ e ev, (connectNew w' r p pw).2.2 = .error e →
        (connectNew w' r p pw).1.trace.getLast? = some ev →
        ev.call.isConnectAttempt = true → (connectNew w' r p pw).2.1.ssh = none) ∧
      (∀ e c, (connectNew w' r p pw).2.2 = .error e →
        (connectNew w' r p pw).2.1.ssh = some c →
        ∃ ev, (connectNew w' r p pw).1.trace.getLast? = some ev ∧
          ev.call.isGetwd = true ∧ ev.ok = false ∧ ∃ t s, c = ⟨some t, some s⟩) ∧
      (∀ m, (connectNew w' r p pw).2.2 ≠ .panic m) := by
    intro w' pw
    obtain ⟨h1, h2, h3⟩ := connectNew_spec w' r p pw
    refine ⟨h1, ?_, ?_, h2⟩
    · intro e ev he hev hca
      obtain ⟨ev', hev', -, hcase⟩ := h3 e he
      rw [hev] at hev'
      obtain rfl : ev = ev' := by simpa using hev'
      rcases hcase with ⟨-, -, hnone⟩ | ⟨-, hn, -⟩
      · exact hnone
      · rw [hca] at hn; exact absurd hn (by simp)
    · intro e c he hc
      obtain ⟨ev', hev', hok, hcase⟩ := h3 e he
      rcases hcase with ⟨-, -, hnone⟩ | ⟨hg, -, t, s, hts⟩
      · rw [hnone] at hc; exact absurd hc (by simp)
      · rw [hts] at hc
        exact ⟨ev', hev', hg, hok, t, s, by simpa using hc.symm⟩
  cases hpw : p.Password with
  | some pw =>
    have hc : promptAndConnect lib w r p = connectNew w r p (lib.Compile pw r.varTable) := by
      simp [promptAndConnect, askPassword, hpw]
    rw [hc]
    exact key _ _
  | none =>
    by_cases h0 : (w.answers w.trace.length).ok = true
    · have hc : promptAndConnect lib w r p
          = connectNew (w.ask .prompt).2 r p (w.answers w.trace.length).out := by
        simp [promptAndConnect, askPassword, hpw, World.ask, h0]
      rw [hc]
      exact key _ _
    · have hc : promptAndConnect lib w r p
          = ((w.ask .prompt).2, r, .error (w.answers w.trace.length).err) := by
        simp [promptAndConnect, askPassword, hpw, World.ask, h0]
      rw [hc]
      simp [hs]

/-- A failing `connectNew` in full: the last call failed; it is either the dial or the
creation of the sub-channel, and `ssh` is nil, or the capture of a working directory, and
`ssh` is the client dialled in this very part (its handles are the positions of the
successful dial and `sftp.NewClient` in the trace). -/
theorem connectNew_failure (w : World) (r : Runner) (p : NodeConnect) (pw : String)
    (e : String) (he : (connectNew w r p pw).2.2 = .error e) :
    ∃ ev, (connectNew w r p pw).1.trace.getLast? = some ev ∧ ev.ok = false ∧
      ev.call.isClose = false ∧
      ((ev.call.isConnectAttempt = true ∧ ev.call.isGetwd = false ∧
          (connectNew w r p pw).2.1.ssh = none) ∨
       (ev.call.isGetwd = true ∧ ev.call.isConnectAttempt = false ∧
          (connectNew w r p pw).2.1.ssh
            = some ⟨some w.trace.length, some (w.trace.length + 1)⟩ ∧
          (connectNew w r p pw).1.trace[w.trace.length]?
            = some ⟨.dial (p.Host ++ ":" ++ p.Port) p.Username pw, true⟩ ∧
          (connectNew w r p pw).1.trace[w.trace.length + 1]?
            = some ⟨.sftpNew w.trace.length, true⟩)) := by
  revert he
  by_cases h0 : (w.answers w.trace.length).ok = true
  · by_cases h1 : (w.answers (w.trace.length + 1)).ok = true
    · by_cases h2 : (w.answers (w.trace.length + 1 + 1)).ok = true
      · by_cases h3 : (w.answers (w.trace.length + 1 + 1 + 1)).ok = true
        · simp [connectNew, Client.Connect, Client.Pwd, NewSSH, World.ask, h0, h1, h2, h3]
        · simp [connectNew, Client.Connect, Client.Pwd, NewSSH, World.ask, h0, h1, h2, h3,
            Call.isGetwd, Call.isConnectAttempt, Call.isClose]
          intro _
          exact ⟨by rw [List.getElem_append_right (le_refl _)]; simp,
            by rw [List.getElem_append_right (Nat.le_add_right _ _)]; simp⟩
      · simp [connectNew, Client.Connect, Client.Pwd, NewSSH, World.ask, h0, h1, h2,
            Call.isGetwd, Call.isConnectAttempt, Call.isClose]
        intro _
        exact ⟨by rw [List.getElem_append_right (le_refl _)]; simp,
          by rw [List.getElem_append_right (Nat.le_add_right _ _)]; simp⟩
    · simp [connectNew, Client.Connect, Client.Pwd, NewSSH, World.ask, h0, h1,
            Call.isGetwd, Call.isConnectAttempt, Call.isClose]
  · simp [connectNew, Client.Connect, Client.Pwd, NewSSH, World.ask, h0,
            Call.isGetwd, Call.isConnectAttempt, Call.isClose]

/-- A failing CONNECT once the old client is gone: the last call failed and is no close; it
is the prompt, the dial or the creation of the sub-channel, and `ssh` is nil, or the capture
of a working directory, and `ssh` is the client dialled in this step. -/
theorem promptAndConnect_failure (lib : Lib) (w : World) (r : Runner) (p : NodeConnect)
    (hs : r.ssh = none) (e : String) (he : (promptAndConnect lib w r p).2.2 = .error e) :
    ∃ ev, (promptAndConnect lib w r p).1.trace.getLast? = some ev ∧ ev.ok = false ∧
      ev.call.isClose = false ∧
      ((ev.call.isConnectAttempt = true ∧ ev.call.isGetwd = false ∧
          (promptAndConnect lib w r p).2.1.ssh = none) ∨
       (ev.call.isGetwd = true ∧ ev.call.isConnectAttempt = false ∧
          ∃ t, w.trace.length ≤ t ∧
            (promptAndConnect lib w r p).2.1.ssh = some ⟨some t, some (t + 1)⟩ ∧
            (∃ pw, (promptAndConnect lib w r p).1.trace[t]?
              = some ⟨.dial (p.Host ++ ":" ++ p.Port) p.Username pw, true⟩) ∧
            (promptAndConnect lib w r p).1.trace[t + 1]? = some ⟨.sftpNew t, true⟩)) := by
  have key : ∀ (w' : World) (pw : String), w.trace.length ≤ w'.trace.length →
      (connectNew w' r p pw).2.2 = .error e →
      ∃ ev, (connectNew w' r p pw).1.trace.getLast? = some ev ∧ ev.ok = false ∧
        ev.call.isClose = false ∧
        ((ev.call.isConnectAttempt = true ∧ ev.call.isGetwd = false ∧
            (connectNew w' r p pw).2.1.ssh = none) ∨
         (ev.call.isGetwd = true ∧ ev.call.isConnectAttempt = false ∧
            ∃ t, w.trace.length ≤ t ∧
              (connectNew w' r p pw).2.1.ssh = some ⟨some t, some (t + 1)⟩ ∧
              (∃ pw', (connectNew w' r p pw).1.trace[t]?
                = some ⟨.dial (p.Host ++ ":" ++ p.Port) p.Username pw', true⟩) ∧
              (connectNew w' r p pw).1.trace[t + 1]? = some ⟨.sftpNew t, true⟩)) := by
    intro w' pw hle he'
    obtain ⟨ev, hev, hok, hcl, hcase⟩ := connectNew_failure w' r p pw e he'
    refine ⟨ev, hev, hok, hcl, ?_⟩
    rcases hcase with h | ⟨hg, hn, hssh, hd, hn'⟩
    · exact Or.inl h
    · exact Or.inr ⟨hg, hn, w'.trace.length, hle, hssh, ⟨pw, hd⟩, hn'⟩
  revert he
  cases hpw : p.Password with
  | some pw =>
    have hc : promptAndConnect lib w r p = connectNew w r p (lib.Compile pw r.varTable) := by
      simp [promptAndConnect, askPassword, hpw]
    rw [hc]
    exact key _ _ (le_refl _)
  | none =>
    by_cases h0 : (w.answers w.trace.length).ok = true
    · have hc : promptAndConnect lib w r p
          = connectNew (w.ask .prompt).2 r p (w.answers w.trace.length).out := by
        simp [promptAndConnect, askPassword, hpw, World.ask, h0]
      rw [hc]
      exact key _ _ (by simp [World.ask])
    · have hc : promptAndConnect lib w r p
          = ((w.ask .prompt).2, r, .error (w.answers w.trace.length).err) := by
        simp [promptAndConnect, askPassword, hpw, World.ask, h0]
      rw [hc]
      intro _
      refine ⟨⟨.prompt, false⟩, ?_, rfl, rfl, Or.inl ⟨rfl, rfl, hs⟩⟩
      simp [World.ask, h0]

/-- A failing CONNECT case falls in exactly one of three classes, told apart by its last
call: a connect attempt (prompt, dial, sub-channel), and `ssh` is nil; a close, and the
runner is the one the step started with, its client included; the capture of a working
directory, and `ssh` is the client dialled in this step. -/
theorem caseConnect_failure (lib : Lib) (w : World) (r : Runner) (p : NodeConnect)
    (hwf : r.wellFormed = true) (e : String) (he : (r.caseConnect lib w p).2.2 = .error e) :
    ∃ ev, (r.caseConnect lib w p).1.trace.getLast? = some ev ∧
      ((ev.call.isConnectAttempt = true ∧ ev.call.isClose = false ∧ ev.call.isGetwd = false ∧
          ev.ok = false ∧ (r.caseConnect lib w p).2.1.ssh = none) ∨
       (ev.call.isClose = true ∧ ev.call.isConnectAttempt = false ∧ ev.call.isGetwd = false ∧
          (r.caseConnect lib w p).2.1 = r ∧
          ∃ t s, r.ssh = some ⟨some t, some s⟩ ∧
            (r.caseConnect lib w p).1 = (Client.Disconnect w ⟨some t, some s⟩).1 ∧
            (Client.Disconnect w ⟨some t, some s⟩).2 = .error e) ∨
       (ev.call.isGetwd = true ∧ ev.call.isConnectAttempt = false ∧ ev.call.isClose = false ∧
          ev.ok = false ∧
          ∃ t, w.trace.length ≤ t ∧
            (r.caseConnect lib w p).2.1.ssh = some ⟨some t, some (t + 1)⟩ ∧
            (∃ pw, (r.caseConnect lib w p).1.trace[t]?
              = some ⟨.dial (p.Host ++ ":" ++ p.Port) p.Username pw, true⟩) ∧
            (r.caseConnect lib w p).1.trace[t + 1]? = some ⟨.sftpNew t, true⟩)) := by
  revert he
  cases hs : r.ssh with
  | none =>
    have hd : Runner.disconnectFirst w r = (w, r, .nil) := by simp [Runner.disconnectFirst, hs]
    have hc : r.caseConnect lib w p = Runner.promptAndConnect lib w r p := by
      simp [Runner.caseConnect, hd]
    rw [hc]
    intro he
    obtain ⟨ev, hev, hok, hcl, hcase⟩ := promptAndConnect_failure lib w r p hs e he
    refine ⟨ev, hev, ?_⟩
    rcases hcase with ⟨ha, hg, hn⟩ | ⟨hg, ha, h⟩
    · exact Or.inl ⟨ha, hcl, hg, hok, hn⟩
    · exact Or.inr (Or.inr ⟨hg, ha, hcl, hok, h⟩)
  | some c =>
    obtain ⟨t, s⟩ := c
    simp only [Runner.wellFormed, hs, Bool.and_eq_true, Option.isSome_iff_exists] at hwf
    obtain ⟨⟨t, rfl⟩, ⟨s, rfl⟩⟩ := hwf
    have hopen := (Runner.disconnect_open w t s).2
    by_cases h0 : (w.answers w.trace.length).ok = true ∧ (w.answers (w.trace.length + 1)).ok = true
    · have hd : Runner.disconnectFirst w r
          = ((Client.Disconnect w ⟨some t, some s⟩).1, { r with ssh := none }, .nil) := by
        simp [Runner.disconnectFirst, hs, Client.Disconnect, World.ask, h0.1, h0.2]
      have hc : r.caseConnect lib w p = Runner.promptAndConnect lib
          (Client.Disconnect w ⟨some t, some s⟩).1 { r with ssh := none } p := by
        simp [Runner.caseConnect, hd]
      rw [hc]
      intro he
      obtain ⟨ev, hev, hok, hcl, hcase⟩ := promptAndConnect_failure lib
        (Client.Disconnect w ⟨some t, some s⟩).1 { r with ssh := none } p rfl e he
      refine ⟨ev, hev, ?_⟩
      rcases hcase with ⟨ha, hg, hn⟩ | ⟨hg, ha, t', hle, h⟩
      · exact Or.inl ⟨ha, hcl, hg, hok, hn⟩
      · refine Or.inr (Or.inr ⟨hg, ha, hcl, hok, t', ?_, h⟩)
        rw [hopen] at hle
        simp at hle
        omega
    · have hd : ∃ e', (Client.Disconnect w ⟨some t, some s⟩).2 = .error e' ∧
          r.caseConnect lib w p = ((Client.Disconnect w ⟨some t, some s⟩).1, r, .error e') := by
        by_cases h1 : (w.answers w.trace.length).ok = true
        · have h2 : (w.answers (w.trace.length + 1)).ok = false := by
            simpa [h1] using h0
          exact ⟨(w.answers (w.trace.length + 1)).err, by
            simp [Runner.caseConnect, Runner.disconnectFirst, hs, Client.Disconnect, World.ask,
              h1, h2]⟩
        · exact ⟨(w.answers w.trace.length).err, by
            simp [Runner.caseConnect, Runner.disconnectFirst, hs, Client.Disconnect, World.ask,
              h1]⟩
      obtain ⟨e', hde, hc⟩ := hd
      rw [hc]
      intro he
      have hee : e' = e := by simpa using he
      subst hee
      refine ⟨⟨.sftpClose s, (w.answers (w.trace.length + 1)).ok⟩, ?_,
        Or.inr (Or.inl ⟨rfl, rfl, rfl, rfl, t, s, rfl, rfl, hde⟩)⟩
      rw [hopen]; simp

/-- The CONNECT case stage by stage, once the old client is gone (`d`): a failed password
prompt (`a`) and a failed `Connect` (`x`) return their error with `ssh` nil; after a
successful `Connect`, a failed `os.Getwd` or `Pwd` returns an error with `ssh` the client
just connected, and success of both returns nil with that client. -/
theorem caseConnect_stages (lib : Lib) (w : World) (r : Runner) (p : NodeConnect)
    (d : World × Runner × Status) (a : World × String × Status) (x : World × Client × Status)
    (hd : d = disconnectFirst w r) (ha : a = askPassword lib d.1 d.2.1 p)
    (hx : x = NewSSH.Connect a.1 p.Host p.Port p.Username a.2.1) (hd0 : d.2.2 = .nil) :
    (a.2.2 ≠ .nil → (r.caseConnect lib w p).2.2 = a.2.2 ∧ (r.caseConnect lib w p).2.1.ssh = none) ∧
    (a.2.2 = .nil → x.2.2 ≠ .nil →
      (r.caseConnect lib w p).2.2 = x.2.2 ∧ (r.caseConnect lib w p).2.1.ssh = none) ∧
    (a.2.2 = .nil → x.2.2 = .nil →
      ((x.1.ask .osGetwd).1.ok = false ∨ (x.2.1.Pwd (x.1.ask .osGetwd).2).2.2 ≠ .nil) →
      (r.caseConnect lib w p).2.2 ≠ .nil ∧ (r.caseConnect lib w p).2.1.ssh = some x.2.1) ∧
    (a.2.2 = .nil → x.2.2 = .nil → (x.1.ask .osGetwd).1.ok = true →
      (x.2.1.Pwd (x.1.ask .osGetwd).2).2.2 = .nil →
      (r.caseConnect lib w p).2.2 = .nil ∧ (r.caseConnect lib w p).2.1.ssh = some x.2.1) := by
  have hnone : d.2.1.ssh = none := by
    rw [hd] at hd0 ⊢
    unfold disconnectFirst at hd0 ⊢
    cases hs : r.ssh with
    | none => simp [hs]
    | some c =>
      simp only [hs] at hd0 ⊢
      cases hc : (c.Disconnect w).2 with
      | nil => simp [hc]
      | error e => simp [hc] at hd0
      | panic m => simp [hc] at hd0
  have hcase : r.caseConnect lib w p = promptAndConnect lib d.1 d.2.1 p := by
    unfold caseConnect
    rw [← hd]
    simp [hd0]
  rw [hcase]
  unfold promptAndConnect
  rw [← ha]
  refine ⟨?_, ?_, ?_, ?_⟩
  · intro hne
    cases hs : a.2.2 with
    | nil => exact absurd hs hne
    | error e => simp [hs, hnone]
    | panic m => simp [hs, hnone]
  · intro ha0 hxne
    simp only [ha0]
    unfold connectNew
    rw [← hx]
    cases hs : x.2.2 with
    | nil => exact absurd hs hxne
    | error e => simp [hs]
    | panic m => simp [hs]
  · intro ha0 hx0 hfail
    simp only [ha0]
    unfold connectNew
    rw [← hx]
    simp only [hx0]
    by_cases hg : (x.1.ask .osGetwd).1.ok = false
    · simp [hg]
    · have hg' : (x.1.ask .osGetwd).1.ok = true := by simpa using hg
      have hp : (x.2.1.Pwd (x.1.ask .osGetwd).2).2.2 ≠ .nil := by
        rcases hfail with h | h
        · exact absurd h hg
        · exact h
      simp only [hg', Bool.true_eq_false, ↓reduceIte]
      cases hs : (x.2.1.Pwd (x.1.ask .osGetwd).2).2.2 with
      | nil => exact absurd hs hp
      | error e => simp [hs]
      | panic m => simp [hs]
  · intro ha0 hx0 hg hp
    simp only [ha0]
    unfold connectNew
    rw [← hx]
    simp only [hx0, hg, Bool.true_eq_false, ↓reduceIte, hp]
    simp

/-- The CONNECT case at a well-formed runner: success leaves a client with transport and
sub-channel; a failure whose last call is a connect attempt leaves `ssh` nil; a failure that
leaves a client failed in a close (the old client is kept) or in the capture of a working
directory; the case never panics. -/
theorem caseConnect_spec (lib : Lib) (w : World) (r : Runner) (p : NodeConnect)
    (hwf : r.wellFormed = true) :
    ((r.caseConnect lib w p).2.2 = .nil →
      ∃ t s, (r.caseConnect lib w p).2.1.ssh = some ⟨some t, some s⟩) ∧
    (∀ e ev, (r.caseConnect lib w p).2.2 = .error e →
      (r.caseConnect lib w p).1.trace.getLast? = some ev → ev.call.isConnectAttempt = true →
      (r.caseConnect lib w p).2.1.ssh = none) ∧
    (∀ e c, (r.caseConnect lib w p).2.2 = .error e →
      (r.caseConnect lib w p).2.1.ssh = some c →
      ∃ ev, (r.caseConnect lib w p).1.trace.getLast? = some ev ∧
        ((ev.call.isClose = true ∧ r.ssh = some c) ∨
         (ev.call.isGetwd = true ∧ ev.ok = false ∧ ∃ t s, c = ⟨some t, some s⟩))) ∧
    (∀ m, (r.caseConnect lib w p).2.2 ≠ .panic m) := by
  cases hs : r.ssh with
  | none =>
    have hd : Runner.disconnectFirst w r = (w, r, .nil) := by simp [Runner.disconnectFirst, hs]
    have hc : r.caseConnect lib w p = Runner.promptAndConnect lib w r p := by
      simp [Runner.caseConnect, hd]
    obtain ⟨h1, h2, h3, h4⟩ := Runner.promptAndConnect_spec lib w r p hs
    rw [hc]
    refine ⟨h1, h2, ?_, h4⟩
    intro e c he hc'
    obtain ⟨ev, hev, hg, hok, hts⟩ := h3 e c he hc'
    exact ⟨ev, hev, Or.inr ⟨hg, hok, hts⟩⟩
  | some c =>
    obtain ⟨t, s⟩ := c
    simp only [Runner.wellFormed, hs, Bool.and_eq_true, Option.isSome_iff_exists] at hwf
    obtain ⟨⟨t, rfl⟩, ⟨s, rfl⟩⟩ := hwf
    by_cases h0 : (w.answers w.trace.length).ok = true ∧ (w.answers (w.trace.length + 1)).ok = true
    · have hd : Runner.disconnectFirst w r
          = ((Client.Disconnect w ⟨some t, some s⟩).1, { r with ssh := none }, .nil) := by
        simp [Runner.disconnectFirst, hs, Client.Disconnect, World.ask, h0.1, h0.2]
      have hc : r.caseConnect lib w p = Runner.promptAndConnect lib
          (Client.Disconnect w ⟨some t, some s⟩).1 { r with ssh := none } p := by
        simp [Runner.caseConnect, hd]
      obtain ⟨h1, h2, h3, h4⟩ := Runner.promptAndConnect_spec lib
        (Client.Disconnect w ⟨some t, some s⟩).1 { r with ssh := none } p rfl
      rw [hc]
      refine ⟨h1, h2, ?_, h4⟩
      intro e c he hc'
      obtain ⟨ev, hev, hg, hok, hts⟩ := h3 e c he hc'
      exact ⟨ev, hev, Or.inr ⟨hg, hok, hts⟩⟩
    · have hd : ∃ e, r.caseConnect lib w p
          = ((Client.Disconnect w ⟨some t, some s⟩).1, r, .error e) := by
        by_cases h1 : (w.answers w.trace.length).ok = true
        · have h2 : (w.answers (w.trace.length + 1)).ok = false := by
            simpa [h1] using h0
          exact ⟨(w.answers (w.trace.length + 1)).err, by
            simp [Runner.caseConnect, Runner.disconnectFirst, hs, Client.Disconnect, World.ask,
              h1, h2]⟩
        · exact ⟨(w.answers w.trace.length).err, by
            simp [Runner.caseConnect, Runner.disconnectFirst, hs, Client.Disconnect, World.ask,
              h1]⟩
      obtain ⟨e, he⟩ := hd
      have hlast := (Runner.disconnect_open w t s).2
      rw [he]
      refine ⟨by simp, ?_, ?_, by simp⟩
      · intro e' ev _ hev hca
        rw [hlast] at hev
        simp at hev
        subst hev
        simp [Call.isConnectAttempt] at hca
      · intro e' c _ hc'
        refine ⟨⟨.sftpClose s, (w.answers (w.trace.length + 1)).ok⟩, ?_, Or.inl ⟨rfl, ?_⟩⟩
        · rw [hlast]; simp
        · simpa [hs] using hc'

end Runner

/-- C8, as stated, fails: when the capture of the remote working directory fails, and when
the disconnect of the old session fails, the CONNECT step returns an error and the runner
still holds a client. -/
theorem C8_failed_connect_keeps_client :
    ((NewRunner []).caseConnect Lib.plain (World.failingAt [3])
        ⟨"user", "host", "22", some "pw"⟩).2.2 = .error "refused" ∧
    ((NewRunner []).caseConnect Lib.plain (World.failingAt [3])
        ⟨"user", "host", "22", some "pw"⟩).2.1.ssh = some ⟨some 0, some 1⟩ ∧
    ((Runner.connectedAt "/home/u").caseConnect Lib.plain (World.failingAt [0])
        ⟨"user", "host", "22", some "pw"⟩).2.2 = .error "refused" ∧
    ((Runner.connectedAt "/home/u").caseConnect Lib.plain (World.failingAt [0])
        ⟨"user", "host", "22", some "pw"⟩).2.1.ssh = some ⟨some 0, some 1⟩ := by
  decide

/-- C8, amended: for a well-formed runner, a CONNECT step that succeeds leaves the runner
connected to a client with transport and sub-channel, and the step never panics.  A CONNECT
step that fails ends on a failed connect attempt (password prompt, dial, creation of the
SFTP sub-channel), on a close of the old client, or on a failed capture of a working
directory (`os.Getwd`, `Pwd`), and these three exclude each other.  In the first case the
runner is left with `ssh = nil`.  In the second the runner is returned as it was, so it
still holds the old client, and the error is the one of the old client's `Disconnect`; this
happens whenever that `Disconnect` does not return nil.  In the third the runner holds the
new client, the one dialled in this step: its transport and sub-channel are the successful
dial and `sftp.NewClient` that this step added to the trace.  Stage by stage, once the old
client is gone: a failed password prompt and a failed `Connect` return their error with
`ssh = nil`; after a successful `Connect`, a failed `os.Getwd` or `Pwd` returns an error
with `ssh` the client just connected, and success of both returns nil with that client. -/
theorem C8_connect_state (lib : Lib) (w : World) (r : Runner) (p : NodeConnect)
    (hwf : r.wellFormed = true) :
    ((r.caseConnect lib w p).2.2 = .nil →
      ∃ t s, (r.caseConnect lib w p).2.1.ssh = some ⟨some t, some s⟩) ∧
    (∀ e ev, (r.caseConnect lib w p).2.2 = .error e →
      (r.caseConnect lib w p).1.trace.getLast? = some ev → ev.call.isConnectAttempt = true →
      (r.caseConnect lib w p).2.1.ssh = none) ∧
    (∀ e c, (r.caseConnect lib w p).2.2 = .error e →
      (r.caseConnect lib w p).2.1.ssh = some c →
      ∃ ev, (r.caseConnect lib w p).1.trace.getLast? = some ev ∧
        ((ev.call.isClose = true ∧ r.ssh = some c) ∨
         (ev.call.isGetwd = true ∧ ev.ok = false ∧ ∃ t s, c = ⟨some t, some s⟩))) ∧
    (∀ m, (r.caseConnect lib w p).2.2 ≠ .panic m) ∧
    (∀ e, (r.caseConnect lib w p).2.2 = .error e →
      ∃ ev, (r.caseConnect lib w p).1.trace.getLast? = some ev ∧
        ((ev.call.isConnectAttempt = true ∧ ev.call.isClose = false ∧
            ev.call.isGetwd = false) ∨
         (ev.call.isClose = true ∧ ev.call.isConnectAttempt = false ∧
            ev.call.isGetwd = false) ∨
         (ev.call.isGetwd = true ∧ ev.call.isConnectAttempt = false ∧
            ev.call.isClose = false))) ∧
    (∀ e ev, (r.caseConnect lib w p).2.2 = .error e →
      (r.caseConnect lib w p).1.trace.getLast? = some ev → ev.call.isClose = true →
      (r.caseConnect lib w p).2.1 = r ∧
      ∃ t s, r.ssh = some ⟨some t, some s⟩ ∧
        (r.caseConnect lib w p).2.1.ssh = some ⟨some t, some s⟩ ∧
        (Client.Disconnect w ⟨some t, some s⟩).2 = .error e) ∧
    (∀ e ev, (r.caseConnect lib w p).2.2 = .error e →
      (r.caseConnect lib w p).1.trace.getLast? = some ev → ev.call.isGetwd = true →
      ev.ok = false ∧
      ∃ t, w.trace.length ≤ t ∧
        (r.caseConnect lib w p).2.1.ssh = some ⟨some t, some (t + 1)⟩ ∧
        (∃ pw, (r.caseConnect lib w p).1.trace[t]?
          = some ⟨.dial (p.Host ++ ":" ++ p.Port) p.Username pw, true⟩) ∧
        (r.caseConnect lib w p).1.trace[t + 1]? = some ⟨.sftpNew t, true⟩) ∧
    (∀ c, r.ssh = some c → (c.Disconnect w).2 ≠ .nil →
      r.caseConnect lib w p = ((c.Disconnect w).1, r, (c.Disconnect w).2)) ∧
    (∀ (d : World × Runner × Status) (a : World × String × Status)
        (x : World × Client × Status),
      d = Runner.disconnectFirst w r → a = Runner.askPassword lib d.1 d.2.1 p →
      x = NewSSH.Connect a.1 p.Host p.Port p.Username a.2.1 → d.2.2 = .nil →
      (a.2.2 ≠ .nil →
        (r.caseConnect lib w p).2.2 = a.2.2 ∧ (r.caseConnect lib w p).2.1.ssh = none) ∧
      (a.2.2 = .nil → x.2.2 ≠ .nil →
        (r.caseConnect lib w p).2.2 = x.2.2 ∧ (r.caseConnect lib w p).2.1.ssh = none) ∧
      (a.2.2 = .nil → x.2.2 = .nil →
        ((x.1.ask .osGetwd).1.ok = false ∨ (x.2.1.Pwd (x.1.ask .osGetwd).2).2.2 ≠ .nil) →
        (r.caseConnect lib w p).2.2 ≠ .nil ∧ (r.caseConnect lib w p).2.1.ssh = some x.2.1) ∧
      (a.2.2 = .nil → x.2.2 = .nil → (x.1.ask .osGetwd).1.ok = true →
        (x.2.1.Pwd (x.1.ask .osGetwd).2).2.2 = .nil →
        (r.caseConnect lib w p).2.2 = .nil ∧
        (r.caseConnect lib w p).2.1.ssh = some x.2.1)) := by
  obtain ⟨h1, h2, h3, h4⟩ := Runner.caseConnect_spec lib w r p hwf
  refine ⟨h1, h2, h3, h4, ?_, ?_, ?_, ?_,
    fun d a x hd ha hx hd0 => Runner.caseConnect_stages lib w r p d a x hd ha hx hd0⟩
  · intro e he
    obtain ⟨ev, hev, hcase⟩ := Runner.caseConnect_failure lib w r p hwf e he
    refine ⟨ev, hev, ?_⟩
    rcases hcase with ⟨ha, hc, hg, -⟩ | ⟨hc, ha, hg, -⟩ | ⟨hg, ha, hc, -⟩
    · exact Or.inl ⟨ha, hc, hg⟩
    · exact Or.inr (Or.inl ⟨hc, ha, hg⟩)
    · exact Or.inr (Or.inr ⟨hg, ha, hc⟩)
  · intro e ev he hev hcl
    obtain ⟨ev', hev', hcase⟩ := Runner.caseConnect_failure lib w r p hwf e he
    rw [hev] at hev'
    obtain rfl : ev = ev' := by simpa using hev'
    rcases hcase with ⟨-, hc, -⟩ | ⟨-, -, -, hr, t, s, hs, -, hd⟩ | ⟨-, -, hc, -⟩
    · rw [hcl] at hc; exact absurd hc (by simp)
    · exact ⟨hr, t, s, hs, by rw [hr]; exact hs, hd⟩
    · rw [hcl] at hc; exact absurd hc (by simp)
  · intro e ev he hev hgw
    obtain ⟨ev', hev', hcase⟩ := Runner.caseConnect_failure lib w r p hwf e he
    rw [hev] at hev'
    obtain rfl : ev = ev' := by simpa using hev'
    rcases hcase with ⟨-, -, hg, -⟩ | ⟨-, -, hg, -⟩ | ⟨-, -, -, hok, h⟩
    · rw [hgw] at hg; exact absurd hg (by simp)
    · rw [hgw] at hg; exact absurd hg (by simp)
    · exact ⟨hok, h⟩
  · intro c hs hd
    cases hst : (c.Disconnect w).2 with
    | nil => exact absurd hst hd
    | error e => simp [Runner.caseConnect, Runner.disconnectFirst, hs, hst]
    | panic m => simp [Runner.caseConnect, Runner.disconnectFirst, hs, hst]

/-- C8 (amended) at a fresh runner: when the dial is refused the step fails and `ssh` is
nil; when `os.Getwd` fails the step fails and `ssh` is the client just connected. -/
theorem C8_connect_state_witness :
    (NewRunner []).wellFormed = true ∧
    ((NewRunner []).caseConnect Lib.plain (World.failingAt [0])
        ⟨"user", "host", "22", some "pw"⟩).2.1.ssh = none ∧
    ((NewRunner []).caseConnect Lib.plain (World.failingAt [2])
        ⟨"user", "host", "22", some "pw"⟩).2.1.ssh = some ⟨some 0, some 1⟩ :=
  ⟨rfl, (C8_connect_state Lib.plain (World.failingAt [0]) (NewRunner [])
    ⟨"user", "host", "22", some "pw"⟩ rfl).2.1 "refused" ⟨.dial "host:22" "user" "pw", false⟩
    (by decide) (by decide) rfl,
   ((C8_connect_state Lib.plain (World.failingAt [2]) (NewRunner [])
    ⟨"user", "host", "22", some "pw"⟩ rfl).2.2.2.2.2.2.2.2 _ _ _ rfl rfl rfl
    (by decide)).2.2.1 (by decide) (by decide) (Or.inl (by decide)) |>.2⟩

/-! ## C9: the step counter -/

namespace Runner

/-- The deferred disconnect leaves the runner as it is. -/
theorem deferred_runner (x : World × Runner × Status) : (deferred x).2.1 = x.2.1 := by
  unfold deferred
  split
  · rfl
  · dsimp only; split <;> rfl

/-- The deferred disconnect returns the status of the body, or panics. -/
theorem deferred_status (x : World × Runner × Status) :
    (deferred x).2.2 = x.2.2 ∨ ∃ m, (deferred x).2.2 = .panic m := by
  unfold deferred
  split
  · exact Or.inl rfl
  · dsimp only
    split
    · exact Or.inr ⟨_, rfl⟩
    · exact Or.inl rfl

/-- A loop that ends without error has counted every action. -/
theorem runLoop_step (lib : Lib) (ts : List Token) (w : World) (r : Runner)
    (h : (runLoop lib w r ts).2.2 = .nil) :
    (runLoop lib w r ts).2.1.step = r.step + ts.length := by
  induction ts generalizing w r with
  | nil => simp [runLoop]
  | cons a ts ih =>
    have hs := (dispatch_step lib w { r with step := r.step + 1 } a).1
    simp only [runLoop] at h ⊢
    split
    · rename_i hd
      simp only [hd] at h
      rw [ih _ _ h, hs]
      simp only [List.length_cons]
      omega
    · rename_i hd
      split at h
      · rename_i hd'; exact absurd hd' (by simpa using hd)
      · exact absurd h (by simpa using hd)

end Runner

/-- C9, as stated, fails: after the run of the empty script the step counter is 1, not its
initial value 0. -/
theorem C9_empty_script_counts_one :
    (Runner.Run Lib.plain World.calm (NewRunner [])).2.1.step = 1 ∧
    (Runner.Run Lib.plain World.calm (NewRunner [])).2.1.step ≠ (NewRunner []).step := by
  decide

/-- C9, amended: `Run` increments the step counter once per dispatched action and once more,
for the "done!" line, when the loop ends without error.  A run that returns nil leaves it
at the initial value plus the number of actions plus one (so the empty script leaves it at
the initial value plus one), and a run that stops at the action after `pre` leaves it at the
initial value plus the number of actions dispatched, `pre.length + 1`. -/
theorem C9_step_counter (lib : Lib) (w : World) (r : Runner) :
    ((Runner.Run lib w r).2.2 = .nil →
      (Runner.Run lib w r).2.1.step = r.step + r.tokens.length + 1) ∧
    (r.tokens = [] → (Runner.Run lib w r).2.1.step = r.step + 1) ∧
    (∀ pre a post, r.tokens = pre ++ a :: post →
      (Runner.runLoop lib w r pre).2.2 = .nil →
      (Runner.afterAction lib w r pre a).2.2 ≠ .nil →
      (Runner.Run lib w r).2.1.step = r.step + pre.length + 1) := by
  have hrun : (Runner.Run lib w r).2.1 = (Runner.runBody lib w r).2.1 := by
    unfold Runner.Run; exact Runner.deferred_runner _
  refine ⟨?_, ?_, ?_⟩
  · intro h
    have hb : (Runner.runBody lib w r).2.2 = .nil := by
      rcases Runner.deferred_status (Runner.runBody lib w r) with h1 | ⟨m, h1⟩
      · rw [← h1]; exact h
      · unfold Runner.Run at h; rw [h] at h1; exact absurd h1 (by simp)
    rw [hrun]
    unfold Runner.runBody at hb ⊢
    dsimp only at hb ⊢
    split
    · rename_i hl
      simp only [Runner.runLoop_step lib r.tokens w r hl]
    · rename_i hl
      split at hb
      · rename_i hl'; exact absurd hl' (by simpa using hl)
      · exact absurd hb (by simpa using hl)
  · intro ht
    rw [hrun]
    simp [Runner.runBody, ht, Runner.runLoop]
  · intro pre a post htok hpre herr
    rw [hrun]
    have hloop := Runner.runLoop_stops lib w r pre post a hpre herr
    unfold Runner.runBody
    dsimp only
    rw [htok, hloop]
    split
    · rename_i h; exact absurd h herr
    · unfold Runner.afterAction
      rw [(Runner.dispatch_step lib _ _ a).1]
      simp only [Runner.runLoop_step lib pre w r hpre]

/-- C9 (amended) on the script `ENV FOO = bar`, `CD /srv`, `ENV X = y` without a CONNECT:
the run stops at the second action with the counter at 2; and on the script
`ENV FOO = bar` alone the run ends with the counter at 2 as well. -/
theorem C9_step_counter_witness :
    (Runner.Run Lib.plain World.calm (NewRunner
        [⟨.ENV, .env ⟨"FOO", "bar"⟩⟩, ⟨.CD, .cd ⟨"/srv"⟩⟩, ⟨.ENV, .env ⟨"X", "y"⟩⟩])).2.1.step
      = 0 + 1 + 1 ∧
    (Runner.Run Lib.plain World.calm (NewRunner [⟨.ENV, .env ⟨"FOO", "bar"⟩⟩])).2.1.step
      = 0 + 1 + 1 :=
  ⟨(C9_step_counter Lib.plain World.calm (NewRunner
      [⟨.ENV, .env ⟨"FOO", "bar"⟩⟩, ⟨.CD, .cd ⟨"/srv"⟩⟩, ⟨.ENV, .env ⟨"X", "y"⟩⟩])).2.2
      [⟨.ENV, .env ⟨"FOO", "bar"⟩⟩] ⟨.CD, .cd ⟨"/srv"⟩⟩ [⟨.ENV, .env ⟨"X", "y"⟩⟩] rfl rfl
      (by decide),
   (C9_step_counter Lib.plain World.calm (NewRunner [⟨.ENV, .env ⟨"FOO", "bar"⟩⟩])).1
      (by decide)⟩

/-! ## C10: who writes the environment map and the variable table -/

/-- An assignment leaves the entries of the other keys alone. -/
theorem StrMap.get_set_of_ne (m : StrMap) (k k' v : String) (h : k ≠ k') :
    (m.set k' v).get k = m.get k := by
  induction m with
  | nil =>
    have hb : (k == k') = false := by simpa using h
    simp [StrMap.set, StrMap.get, List.lookup, hb]
  | cons kv m ih =>
    obtain ⟨k0, v0⟩ := kv
    unfold StrMap.get at ih ⊢
    by_cases h0 : k0 = k'
    · subst h0
      have hb : (k == k0) = false := by simpa using h
      simp [StrMap.set, List.lookup, hb]
    · by_cases h1 : k = k0
      · subst h1
        simp [StrMap.set, h0, List.lookup]
      · have hb : (k == k0) = false := by simpa using h1
        simp [StrMap.set, h0, List.lookup, hb, ih]

namespace Runner

/-- Only the ENV case of the switch writes the environment map. -/
theorem dispatch_env (lib : Lib) (w : World) (r : Runner) (a : Token) (h : a.Key ≠ .ENV) :
    (dispatch lib w r a).2.1.env = r.env := by
  unfold dispatch
  split
  · exact (caseConnect_frame lib w r _).2.1
  · exact (actionVar_frame lib w r _).2.2.1
  · rename_i hk _; exact absurd hk h
  · exact (actionCd_frame lib w r _).2.2.2.1
  · rw [actionCmd_runner]
  · rw [actionRun_runner]
  · rw [actionMove_runner]
  · rw [actionCopy_runner]
  · rw [actionDelete_runner]
  · rw [actionUpload_runner]
  · rw [actionDownload_runner]
  · rfl
  · rfl

/-- Only the VAR case of the switch writes the variable table. -/
theorem dispatch_varTable (lib : Lib) (w : World) (r : Runner) (a : Token) (h : a.Key ≠ .VAR) :
    (dispatch lib w r a).2.1.varTable = r.varTable := by
  unfold dispatch
  split
  · exact (caseConnect_frame lib w r _).2.2.1
  · rename_i hk _; exact absurd hk h
  · exact (actionEnv_frame lib w r _).2.2.2.1
  · exact (actionCd_frame lib w r _).2.2.2.2.1
  · rw [actionCmd_runner]
  · rw [actionRun_runner]
  · rw [actionMove_runner]
  · rw [actionCopy_runner]
  · rw [actionDelete_runner]
  · rw [actionUpload_runner]
  · rw [actionDownload_runner]
  · rfl
  · rfl

/-- The handler `actionVar` writes at most the entry of its own key. -/
theorem actionVar_other_keys (lib : Lib) (w : World) (r : Runner) (p : NodeVar) (k : String)
    (h : k ≠ p.Key) : (r.actionVar lib w p).2.1.varTable.get k = r.varTable.get k := by
  unfold actionVar
  repeat' (first | split | (dsimp only; split))
  all_goals first | rfl | exact StrMap.get_set_of_ne _ _ _ _ h

end Runner

/-- C10: in the switch of `Run`, an action whose key is not ENV leaves the environment map
as it is and an action whose key is not VAR leaves the variable table as it is; an ENV
action leaves the entry of every key other than its own as it is in the environment map,
and a VAR action does so in the variable table; hence a loop over actions none of which is
an ENV (a VAR) ends with the environment map (the variable table) it started with. -/
theorem C10_env_and_variable_frames (lib : Lib) (w : World) (r : Runner) :
    (∀ a : Token, a.Key ≠ .ENV → (Runner.dispatch lib w r a).2.1.env = r.env) ∧
    (∀ a : Token, a.Key ≠ .VAR → (Runner.dispatch lib w r a).2.1.varTable = r.varTable) ∧
    (∀ (p : NodeEnv) (k : String), k ≠ p.Key →
      (Runner.dispatch lib w r ⟨.ENV, .env p⟩).2.1.env.get k = r.env.get k) ∧
    (∀ (p : NodeVar) (k : String), k ≠ p.Key →
      (Runner.dispatch lib w r ⟨.VAR, .var p⟩).2.1.varTable.get k = r.varTable.get k) ∧
    (∀ ts : List Token, (∀ a ∈ ts, a.Key ≠ .ENV) → (Runner.runLoop lib w r ts).2.1.env = r.env) ∧
    (∀ ts : List Token, (∀ a ∈ ts, a.Key ≠ .VAR) →
      (Runner.runLoop lib w r ts).2.1.varTable = r.varTable) := by
  refine ⟨fun a h => Runner.dispatch_env lib w r a h,
    fun a h => Runner.dispatch_varTable lib w r a h, ?_, ?_, ?_, ?_⟩
  · intro p k h
    simp only [Runner.dispatch, Runner.actionEnv]
    exact StrMap.get_set_of_ne _ _ _ _ h
  · intro p k h
    simp only [Runner.dispatch]
    exact Runner.actionVar_other_keys lib w r p k h
  · intro ts
    induction ts generalizing w r with
    | nil => intro _; rfl
    | cons a ts ih =>
      intro h
      have ha := Runner.dispatch_env lib w { r with step := r.step + 1 } a
        (h a (List.mem_cons_self _ _))
      simp only [Runner.runLoop]
      split
      · rw [ih _ _ (fun b hb => h b (List.mem_cons_of_mem _ hb)), ha]
      · exact ha
  · intro ts
    induction ts generalizing w r with
    | nil => intro _; rfl
    | cons a ts ih =>
      intro h
      have ha := Runner.dispatch_varTable lib w { r with step := r.step + 1 } a
        (h a (List.mem_cons_self _ _))
      simp only [Runner.runLoop]
      split
      · rw [ih _ _ (fun b hb => h b (List.mem_cons_of_mem _ hb)), ha]
      · exact ha

/-- C10 on a connected runner: a CD leaves the environment map `{FOO: bar}` as it is, and
`ENV X = y` leaves the entry of `FOO` as it is. -/
theorem C10_env_and_variable_frames_witness :
    (Runner.dispatch Lib.plain World.calm
        { Runner.connectedAt "/home/u" with env := [("FOO", "bar")] } ⟨.CD, .cd ⟨"/srv"⟩⟩).2.1.env
      = [("FOO", "bar")] ∧
    (Runner.dispatch Lib.plain World.calm
        { Runner.connectedAt "/home/u" with env := [("FOO", "bar")] }
        ⟨.ENV, .env ⟨"X", "y"⟩⟩).2.1.env.get "FOO" = some "bar" :=
  ⟨(C10_env_and_variable_frames Lib.plain World.calm
      { Runner.connectedAt "/home/u" with env := [("FOO", "bar")] }).1
      ⟨.CD, .cd ⟨"/srv"⟩⟩ (by decide),
   by
    rw [(C10_env_and_variable_frames Lib.plain World.calm
      { Runner.connectedAt "/home/u" with env := [("FOO", "bar")] }).2.2.1
      ⟨"X", "y"⟩ "FOO" (by decide)]
    decide⟩

/-! ## Lemmas on `path.Clean`, `path.Join` and `path.Base` -/

namespace GoPath

theorem cleanChars_eq_render (p : List Char) (h : p ≠ []) :
    cleanChars p = render (isAbsChars p) (stackOf (isAbsChars p) p) := by
  simp [cleanChars, h, render, stackOf]

theorem splitSlash_ne_nil (p : List Char) : splitSlash p ≠ [] := by
  cases p with
  | nil => simp [splitSlash]
  | cons c cs =>
    simp only [splitSlash]
    split
    · simp
    · split <;> simp

theorem splitSlash_append (a b : List Char) :
    splitSlash (a ++ '/' :: b) = splitSlash a ++ splitSlash b := by
  induction a with
  | nil => simp [splitSlash]
  | cons c a ih =>
    by_cases hc : c = '/'
    · simp [splitSlash, hc, ih]
    · simp only [List.cons_append, splitSlash, hc, ↓reduceIte, ih]
      cases hs : splitSlash a with
      | nil => exact absurd hs (splitSlash_ne_nil a)
      | cons h t =>
        have ih' : splitSlash (a.append ('/' :: b)) = splitSlash a ++ splitSlash b := ih
        rw [ih', hs]; simp

theorem splitSlash_no_slash (p : List Char) : ∀ e ∈ splitSlash p, '/' ∉ e := by
  induction p with
  | nil => simp [splitSlash]
  | cons c p ih =>
    by_cases hc : c = '/'
    · simp only [splitSlash, hc, ↓reduceIte, List.mem_cons]
      rintro e (rfl | he)
      · simp
      · exact ih e he
    · simp only [splitSlash, hc, ↓reduceIte]
      cases hs : splitSlash p with
      | nil => exact absurd hs (splitSlash_ne_nil p)
      | cons h t =>
        rw [hs] at ih
        simp only [List.mem_cons]
        rintro e (rfl | he)
        · have := ih h (List.mem_cons_self _ _)
          simp only [List.mem_cons, not_or]
          exact ⟨fun h' => hc h'.symm, this⟩
        · exact ih e (List.mem_cons_of_mem _ he)

theorem splitSlash_of_no_slash (e : List Char) (h : '/' ∉ e) : splitSlash e = [e] := by
  induction e with
  | nil => simp [splitSlash]
  | cons c e ih =>
    simp only [List.mem_cons, not_or] at h
    have hc : c ≠ '/' := fun h' => h.1 h'.symm
    simp [splitSlash, hc, ih h.2]

theorem normalStack_cleanStep (r : Bool) (st : List (List Char)) (e : List Char)
    (hst : NormalStack r st) (he : '/' ∉ e) : NormalStack r (cleanStep r st e) := by
  unfold cleanStep
  by_cases h1 : e = []
  · simp [h1, hst]
  by_cases h2 : e = ['.']
  · simp [h2, hst]
  by_cases h3 : e = ['.', '.']
  · subst h3
    simp only [h1, h2, ↓reduceIte]
    cases st with
    | nil =>
      cases r <;> simp [NormalStack]
    | cons top rest =>
      simp only
      by_cases ht : top = ['.', '.']
      · simp only [ht, ↓reduceIte]
        cases r with
        | true => simpa [ht] using hst
        | false =>
          subst ht
          refine ⟨by simp, fun _ => ⟨rfl, ?_⟩, hst⟩
          intro x hx
          rcases List.mem_cons.1 hx with rfl | hx
          · rfl
          · exact (hst.2.1 rfl).2 x hx
      · simp only [ht, ↓reduceIte]
        exact hst.2.2
  · simp only [h1, h2, h3, ↓reduceIte]
    exact ⟨⟨h1, he, h2⟩, fun h => absurd h h3, hst⟩

theorem normalStack_foldl (r : Bool) (es : List (List Char)) (st : List (List Char))
    (hst : NormalStack r st) (hes : ∀ e ∈ es, '/' ∉ e) :
    NormalStack r (es.foldl (cleanStep r) st) := by
  induction es generalizing st with
  | nil => simpa using hst
  | cons e es ih =>
    simp only [List.foldl_cons]
    exact ih _ (normalStack_cleanStep r st e hst (hes e (List.mem_cons_self _ _)))
      (fun x hx => hes x (List.mem_cons_of_mem _ hx))

theorem normalStack_stackOf (r : Bool) (p : List Char) : NormalStack r (stackOf r p) :=
  normalStack_foldl r _ [] trivial (splitSlash_no_slash p)

theorem normalStack_suffix (r : Bool) (xs st : List (List Char))
    (h : NormalStack r (xs ++ st)) : NormalStack r st := by
  induction xs with
  | nil => simpa using h
  | cons x xs ih => exact ih h.2.2

/-- Folding the elements of a normal stack, oldest first, rebuilds the stack. -/
theorem foldl_cleanStep_normal (r : Bool) (xs st : List (List Char))
    (h : NormalStack r (xs.reverse ++ st)) :
    xs.foldl (cleanStep r) st = xs.reverse ++ st := by
  induction xs generalizing st with
  | nil => simp
  | cons x xs ih =>
    have h' : NormalStack r (xs.reverse ++ (x :: st)) := by
      simpa [List.reverse_cons, List.append_assoc] using h
    have hx := normalStack_suffix r _ _ h'
    have hstep : cleanStep r st x = x :: st := by
      obtain ⟨⟨hx1, -, hx2⟩, hx3, -⟩ := hx
      unfold cleanStep
      simp only [hx1, hx2, ↓reduceIte]
      by_cases hdd : x = ['.', '.']
      · obtain ⟨hr, hall⟩ := hx3 hdd
        subst hdd
        cases st with
        | nil => simp [hr]
        | cons top rest =>
          have : top = ['.', '.'] := hall top (List.mem_cons_self _ _)
          simp [this, hr]
      · simp [hdd]
    simp only [List.foldl_cons, hstep, ih _ h', List.reverse_cons, List.append_assoc,
      List.singleton_append]

theorem joinSlash_cons_cons (e e' : List Char) (es : List (List Char)) :
    joinSlash (e :: e' :: es) = e ++ '/' :: joinSlash (e' :: es) := by
  simp [joinSlash]

theorem splitSlash_joinSlash (xs : List (List Char)) (hne : xs ≠ [])
    (h : ∀ e ∈ xs, '/' ∉ e) : splitSlash (joinSlash xs) = xs := by
  induction xs with
  | nil => exact absurd rfl hne
  | cons e es ih =>
    cases es with
    | nil => simpa [joinSlash] using splitSlash_of_no_slash e (h e (List.mem_cons_self _ _))
    | cons e' es =>
      rw [joinSlash_cons_cons, splitSlash_append,
        splitSlash_of_no_slash e (h e (List.mem_cons_self _ _)),
        ih (by simp) (fun x hx => h x (List.mem_cons_of_mem _ hx))]
      rfl

theorem normalStack_no_slash (r : Bool) (st : List (List Char)) (h : NormalStack r st) :
    ∀ e ∈ st, e ≠ [] ∧ '/' ∉ e := by
  induction st with
  | nil => simp
  | cons x st ih =>
    intro e he
    rcases List.mem_cons.1 he with rfl | he
    · exact ⟨h.1.1, h.1.2.1⟩
    · exact ih h.2.2 e he

theorem joinSlash_eq_nil (xs : List (List Char)) (h : ∀ e ∈ xs, e ≠ []) :
    joinSlash xs = [] ↔ xs = [] := by
  cases xs with
  | nil => simp [joinSlash]
  | cons e es =>
    have he := h e (List.mem_cons_self _ _)
    cases es with
    | nil => simp [joinSlash, he]
    | cons e' es => simp [joinSlash, he]

/-- Cleaning what `path.Clean` wrote gives the same stack. -/
theorem stackOf_render (r : Bool) (st : List (List Char)) (h : NormalStack r st) :
    stackOf r (render r st) = st := by
  have hns := normalStack_no_slash r st h
  have hrev : ∀ e ∈ st.reverse, '/' ∉ e := fun e he => (hns e (List.mem_reverse.1 he)).2
  have hrev' : ∀ e ∈ st.reverse, e ≠ [] := fun e he => (hns e (List.mem_reverse.1 he)).1
  have hfold : st.reverse.foldl (cleanStep r) [] = st := by
    have := foldl_cleanStep_normal r st.reverse [] (by simpa using h)
    simpa using this
  by_cases hst : st = []
  · subst hst
    cases r <;> simp [stackOf, render, joinSlash, splitSlash, cleanStep]
  · have hne : st.reverse ≠ [] := by simpa using hst
    have hj : joinSlash st.reverse ≠ [] := by
      rw [Ne, joinSlash_eq_nil _ hrev']; exact hne
    have hsplit := splitSlash_joinSlash st.reverse hne hrev
    cases r with
    | true =>
      simp only [stackOf, render, ↓reduceIte, splitSlash, hsplit, List.foldl_cons, cleanStep]
      exact hfold
    | false =>
      simp only [stackOf, render, hj, ↓reduceIte, Bool.false_eq_true, hsplit]
      exact hfold

theorem render_ne_nil (r : Bool) (st : List (List Char)) : render r st ≠ [] := by
  unfold render
  cases r
  · simp only [Bool.false_eq_true, ↓reduceIte]
    split
    · simp
    · assumption
  · simp

theorem isAbsChars_render (r : Bool) (st : List (List Char)) (h : NormalStack r st) :
    isAbsChars (render r st) = r := by
  cases r with
  | true => simp [render, isAbsChars]
  | false =>
    unfold render
    simp only [Bool.false_eq_true, ↓reduceIte]
    split
    · simp [isAbsChars]
    · rename_i hj
      have hns := normalStack_no_slash false st h
      cases hrev : st.reverse with
      | nil => simp [hrev, joinSlash] at hj
      | cons e es =>
        have he := hns e (List.mem_reverse.1 (by rw [hrev]; exact List.mem_cons_self _ _))
        cases e with
        | nil => exact absurd rfl he.1
        | cons c cs =>
          have hc : c ≠ '/' := fun hc => he.2 (by simp [hc])
          cases es with
          | nil => simp [joinSlash, isAbsChars, hc]
          | cons e' es => simp [joinSlash, isAbsChars, hc]

theorem isAbsChars_append (a b : List Char) (h : a ≠ []) :
    isAbsChars (a ++ b) = isAbsChars a := by
  cases a with
  | nil => exact absurd rfl h
  | cons c cs => rfl

theorem stackOf_append (r : Bool) (a b : List Char) :
    stackOf r (a ++ '/' :: b) = (splitSlash b).foldl (cleanStep r) (stackOf r a) := by
  simp [stackOf, splitSlash_append, List.foldl_append]

/-- Cleaning is idempotent. -/
theorem cleanChars_cleanChars (a : List Char) (h : a ≠ []) :
    cleanChars (cleanChars a) = cleanChars a := by
  have hn := normalStack_stackOf (isAbsChars a) a
  rw [cleanChars_eq_render a h, cleanChars_eq_render _ (render_ne_nil _ _),
    isAbsChars_render _ _ hn, stackOf_render _ _ hn]

/-- Cleaning the first part of a path beforehand changes nothing. -/
theorem cleanChars_append (a b : List Char) (h : a ≠ []) :
    cleanChars (cleanChars a ++ '/' :: b) = cleanChars (a ++ '/' :: b) := by
  have hn := normalStack_stackOf (isAbsChars a) a
  have h1 : cleanChars a ++ '/' :: b ≠ [] := by simp
  have h2 : a ++ '/' :: b ≠ [] := by simp
  rw [cleanChars_eq_render _ h1, cleanChars_eq_render _ h2, cleanChars_eq_render a h,
    isAbsChars_append _ _ (render_ne_nil _ _), isAbsChars_append _ _ h,
    isAbsChars_render _ _ hn, stackOf_append, stackOf_append, stackOf_render _ _ hn]

theorem cleanChars_trailing_slash (a : List Char) (h : a ≠ []) :
    cleanChars (a ++ ['/']) = cleanChars a := by
  have h2 : a ++ ['/'] ≠ [] := by simp
  rw [cleanChars_eq_render _ h2, cleanChars_eq_render a h, isAbsChars_append _ _ h,
    stackOf_append]
  simp [splitSlash, cleanStep]

theorem cleanChars_ne_nil (a : List Char) : cleanChars a ≠ [] := by
  by_cases h : a = []
  · simp [cleanChars, h]
  · rw [cleanChars_eq_render a h]; exact render_ne_nil _ _

theorem joinBuf_append (buf : List Char) (es : List (List Char)) (y : List Char) :
    joinBuf buf (es ++ [y]) =
      if joinBuf buf es = [] then y else joinBuf buf es ++ '/' :: y := by
  induction es generalizing buf with
  | nil => simp [joinBuf]
  | cons e es ih =>
    simp only [List.cons_append, joinBuf]
    split <;> exact ih _

theorem joinBuf_eq_nil (buf : List Char) (es : List (List Char)) :
    joinBuf buf es = [] ↔ buf = [] ∧ (es.map List.length).sum = 0 := by
  induction es generalizing buf with
  | nil => simp [joinBuf]
  | cons e es ih =>
    simp only [joinBuf, List.map_cons, List.sum_cons, Nat.add_eq_zero_iff, List.length_eq_zero]
    split
    · rename_i hb; rw [ih]; simp [hb]
    · rename_i hb; rw [ih]; simp [hb]

/-- Joining one more element onto a joined path is joining all the elements at once. -/
theorem joinChars_joinListChars (xs : List (List Char)) (y : List Char) :
    joinChars (joinListChars xs) y = joinListChars (xs ++ [y]) := by
  unfold joinListChars joinChars
  rw [joinBuf_append]
  by_cases hs : (xs.map List.length).sum = 0
  · have hb : joinBuf [] xs = [] := (joinBuf_eq_nil [] xs).2 ⟨rfl, hs⟩
    by_cases hy : y = []
    · simp [hs, hy]
    · have hy' : y.length ≠ 0 := by simpa using hy
      simp [hs, hb, hy, hy']
  · have hb : joinBuf [] xs ≠ [] := fun hb => hs ((joinBuf_eq_nil [] xs).1 hb).2
    have hc := cleanChars_ne_nil (joinBuf [] xs)
    simp only [hs, ↓reduceIte, hc, hb, List.map_append, List.map_cons, List.map_nil,
      List.sum_append, List.sum_cons, List.sum_nil, Nat.add_zero, Nat.add_eq_zero_iff,
      false_and]
    by_cases hy : y = []
    · subst hy
      simp only [↓reduceIte]
      rw [cleanChars_cleanChars _ hb, cleanChars_trailing_slash _ hb]
    · simp only [hy, ↓reduceIte]
      exact cleanChars_append _ _ hb

theorem joinChars_eq_joinListChars (a b : List Char) :
    joinChars a b = joinListChars [a, b] := by
  unfold joinChars joinListChars
  by_cases ha : a = []
  · by_cases hb : b = []
    · simp [ha, hb]
    · have hb' : b.length ≠ 0 := by simpa using hb
      simp [ha, hb, hb', joinBuf]
  · have ha' : a.length ≠ 0 := by simpa using ha
    by_cases hb : b = []
    · simp [ha, ha', hb, joinBuf, cleanChars_trailing_slash _ ha]
    · simp [ha, ha', hb, joinBuf]

theorem plainNameChars_iff (n : List Char) :
    plainNameChars n = true ↔ n ≠ [] ∧ '/' ∉ n ∧ n ≠ ['.'] ∧ n ≠ ['.', '.'] := by
  simp [plainNameChars, and_assoc]

theorem cleanStep_plain (r : Bool) (st : List (List Char)) (n : List Char)
    (h : plainNameChars n = true) : cleanStep r st n = n :: st := by
  obtain ⟨h1, -, h3, h4⟩ := (plainNameChars_iff n).1 h
  simp [cleanStep, h1, h3, h4]

theorem joinSlash_append_singleton (ys : List (List Char)) (e : List Char) :
    joinSlash (ys ++ [e]) = if ys = [] then e else joinSlash ys ++ '/' :: e := by
  induction ys with
  | nil => simp [joinSlash]
  | cons y ys ih =>
    cases ys with
    | nil => simp [joinSlash]
    | cons y' ys =>
      have h1 : joinSlash (y :: y' :: (ys ++ [e])) = y ++ '/' :: joinSlash (y' :: (ys ++ [e])) :=
        joinSlash_cons_cons _ _ _
      have h2 : joinSlash (y :: y' :: ys) = y ++ '/' :: joinSlash (y' :: ys) :=
        joinSlash_cons_cons _ _ _
      simp only [List.cons_append] at ih ⊢
      rw [h1, ih, h2]
      simp

/-- What `path.Clean` writes for a stack with the plain name `n` on top ends in `n`, and
`n` is all of it or follows a slash. -/
theorem render_plain_top (r : Bool) (st : List (List Char)) (n : List Char)
    (h : plainNameChars n = true) :
    ∃ pre, render r (n :: st) = pre ++ n ∧ (pre = [] ∨ ∃ q, pre = q ++ ['/']) := by
  obtain ⟨h1, -, -, -⟩ := (plainNameChars_iff n).1 h
  have hj : joinSlash (st.reverse ++ [n])
      = if st.reverse = [] then n else joinSlash st.reverse ++ '/' :: n :=
    joinSlash_append_singleton _ _
  have hne : joinSlash (st.reverse ++ [n]) ≠ [] := by
    rw [hj]; split
    · exact h1
    · simp
  unfold render
  simp only [List.reverse_cons, hne, ↓reduceIte]
  rw [hj]
  by_cases hs : st.reverse = []
  · cases r
    · exact ⟨[], by simp [hs], Or.inl rfl⟩
    · exact ⟨['/'], by simp [hs], Or.inr ⟨[], rfl⟩⟩
  · cases r
    · exact ⟨joinSlash st.reverse ++ ['/'], by simp [hs], Or.inr ⟨_, rfl⟩⟩
    · exact ⟨'/' :: joinSlash st.reverse ++ ['/'], by simp [hs], Or.inr ⟨_, rfl⟩⟩

theorem takeWhile_append_stop {α : Type} (p : α → Bool) (l r : List α)
    (hl : ∀ x ∈ l, p x = true) (hr : r = [] ∨ ∃ y ys, r = y :: ys ∧ p y = false) :
    (l ++ r).takeWhile p = l := by
  induction l with
  | nil =>
    rcases hr with rfl | ⟨y, ys, rfl, hy⟩
    · rfl
    · simp [List.takeWhile, hy]
  | cons x l ih =>
    have hx := hl x (List.mem_cons_self _ _)
    have ih' : List.takeWhile p (l.append r) = l :=
      ih (fun y hy => hl y (List.mem_cons_of_mem _ hy))
    simp only [List.cons_append, List.takeWhile, hx]
    rw [ih']

theorem baseChars_plain (pre n : List Char) (h : plainNameChars n = true)
    (hpre : pre = [] ∨ ∃ q, pre = q ++ ['/']) : baseChars (pre ++ n) = n := by
  obtain ⟨h1, h2, -, -⟩ := (plainNameChars_iff n).1 h
  have hrev : n.reverse ≠ [] := by simpa using h1
  obtain ⟨c, cs, hc⟩ : ∃ c cs, n.reverse = c :: cs := by
    cases hn : n.reverse with
    | nil => exact absurd hn hrev
    | cons c cs => exact ⟨c, cs, rfl⟩
  have hcmem : c ∈ n := by
    have : c ∈ n.reverse := by rw [hc]; exact List.mem_cons_self _ _
    exact List.mem_reverse.1 this
  have hcne : c ≠ '/' := fun e => h2 (e ▸ hcmem)
  have hstrip : stripTrailingSlashes (pre ++ n) = pre ++ n := by
    unfold stripTrailingSlashes
    rw [List.reverse_append, hc]
    have hb : (c == '/') = false := by simpa using hcne
    simp only [List.cons_append, List.dropWhile, hb]
    have : (c :: cs.append pre.reverse) = (pre ++ n).reverse := by
      rw [List.reverse_append, hc]; rfl
    rw [this, List.reverse_reverse]
  have htake : afterLastSlash (pre ++ n) = n := by
    unfold afterLastSlash
    rw [List.reverse_append]
    rw [takeWhile_append_stop]
    · simp
    · intro x hx
      have hx' : x ∈ n := List.mem_reverse.1 hx
      have : x ≠ '/' := fun e => h2 (e ▸ hx')
      simpa using this
    · rcases hpre with rfl | ⟨q, rfl⟩
      · exact Or.inl rfl
      · exact Or.inr ⟨'/', q.reverse, by simp, by simp⟩
  unfold baseChars
  have hne : pre ++ n ≠ [] := by simp [h1]
  simp only [hne, ↓reduceIte, hstrip, htake, h1]

/-- The base name of a path joined with a plain name is that name. -/
theorem baseChars_joinChars (x n : List Char) (h : plainNameChars n = true) :
    baseChars (joinChars x n) = n := by
  obtain ⟨h1, h2, -, -⟩ := (plainNameChars_iff n).1 h
  have key : ∀ p : List Char, p ≠ [] → (∃ st, stackOf (isAbsChars p) p = n :: st) →
      baseChars (cleanChars p) = n := by
    intro p hp ⟨st, hst⟩
    rw [cleanChars_eq_render p hp, hst]
    obtain ⟨pre, hpre, hq⟩ := render_plain_top (isAbsChars p) st n h
    rw [hpre]
    exact baseChars_plain pre n h hq
  unfold joinChars
  by_cases hx : x = []
  · simp only [hx, ↓reduceIte, h1]
    apply key n h1
    refine ⟨[], ?_⟩
    simp [stackOf, splitSlash_of_no_slash n h2, cleanStep_plain _ _ n h]
  · simp only [hx, ↓reduceIte, h1]
    apply key _ (by simp)
    refine ⟨stackOf (isAbsChars (x ++ '/' :: n)) x, ?_⟩
    rw [stackOf_append, splitSlash_of_no_slash n h2]
    simp [cleanStep_plain _ _ n h]

end GoPath

theorem GoPath.Join_eq_JoinList (a b : String) : GoPath.Join a b = GoPath.JoinList [a, b] := by
  simp [GoPath.Join, GoPath.JoinList, GoPath.joinChars_eq_joinListChars]

theorem GoPath.Join_JoinList (xs : List String) (y : String) :
    GoPath.Join (GoPath.JoinList xs) y = GoPath.JoinList (xs ++ [y]) := by
  simp [GoPath.Join, GoPath.JoinList, GoPath.joinChars_joinListChars]

theorem GoPath.Base_Join (x n : String) (h : GoPath.PlainName n = true) :
    GoPath.Base (GoPath.Join x n) = n := by
  simp only [GoPath.Base, GoPath.Join]
  rw [GoPath.baseChars_joinChars _ _ h]

theorem ask_answers (w : World) (c : Call) : (w.ask c).2.answers = w.answers := rfl

theorem ask_trace (w : World) (c : Call) :
    (w.ask c).2.trace = w.trace ++ [⟨c, (w.answers w.trace.length).ok⟩] := rfl

/-- What one `uploadFile` does: it keeps the oracle, adds calls to the trace, has written
the file to `path.Join(remoteDir, base(localFilePath))` exactly when it returns nil, and
returns nil when every call succeeds. -/
theorem Client.uploadFile_spec (w : World) (c : Client) (src dir : String) :
    (Client.uploadFile w c src dir).1.answers = w.answers ∧
    (∃ evs, (Client.uploadFile w c src dir).1.trace = w.trace ++ evs ∧
      uploaded evs = if (Client.uploadFile w c src dir).2 = .nil
        then [(src, GoPath.Join dir (GoPath.Base src))] else []) ∧
    ((∀ n, (w.answers n).ok = true) → c.sftpClient ≠ none →
      (Client.uploadFile w c src dir).2 = .nil) := by
  refine ⟨?_, ?_, ?_⟩
  · unfold Client.uploadFile Client.closeLocal Client.closeRemote
    repeat' (first | split | (dsimp only; split))
    all_goals rfl
  · refine ⟨(Client.uploadFile w c src dir).1.trace.drop w.trace.length, ?_, ?_⟩
    all_goals
      cases hc : c.sftpClient with
      | none =>
        by_cases h0 : (w.answers w.trace.length).ok = true
        · by_cases h1 : (w.answers (w.trace.length + 1)).ok = true
          · simp [Client.uploadFile, Client.closeLocal, Client.closeRemote, World.ask, hc, h0, h1,
              uploaded, Event.uploadedFile, nilDeref]
          · simp [Client.uploadFile, Client.closeLocal, Client.closeRemote, World.ask, hc, h0, h1,
              uploaded, Event.uploadedFile, nilDeref]
        · simp [Client.uploadFile, Client.closeLocal, Client.closeRemote, World.ask, hc, h0,
              uploaded, Event.uploadedFile, nilDeref]
      | some s =>
        by_cases h0 : (w.answers w.trace.length).ok = true
        · by_cases h1 : (w.answers (w.trace.length + 1)).ok = true
          · by_cases h2 : (w.answers (w.trace.length + 1 + 1)).ok = true
            · by_cases h3 : (w.answers (w.trace.length + 1 + 1 + 1)).ok = true
              · by_cases h4 : (w.answers (w.trace.length + 1 + 1 + 1 + 1)).ok = true
                · by_cases h5 : (w.answers (w.trace.length + 1 + 1 + 1 + 1 + 1)).ok = true
                  · simp [Client.uploadFile, Client.closeLocal, Client.closeRemote, World.ask, hc,
                      h0, h1, h2, h3, h4, h5, uploaded, Event.uploadedFile]
                  · simp [Client.uploadFile, Client.closeLocal, Client.closeRemote, World.ask, hc,
                      h0, h1, h2, h3, h4, h5, uploaded, Event.uploadedFile]
                · simp [Client.uploadFile, Client.closeLocal, Client.closeRemote, World.ask, hc,
                    h0, h1, h2, h3, h4, uploaded, Event.uploadedFile]
              · simp [Client.uploadFile, Client.closeLocal, Client.closeRemote, World.ask, hc,
                  h0, h1, h2, h3, uploaded, Event.uploadedFile]
            · simp [Client.uploadFile, Client.closeLocal, Client.closeRemote, World.ask, hc,
                h0, h1, h2, uploaded, Event.uploadedFile]
          · simp [Client.uploadFile, Client.closeLocal, Client.closeRemote, World.ask, hc, h0, h1,
              uploaded, Event.uploadedFile]
        · simp [Client.uploadFile, Client.closeLocal, Client.closeRemote, World.ask, hc, h0,
              uploaded, Event.uploadedFile]
  · intro hok hc
    obtain ⟨s, hs⟩ := Option.ne_none_iff_exists'.1 hc
    simp [Client.uploadFile, Client.closeLocal, Client.closeRemote, World.ask, hok, hs]

theorem uploaded_append (a b : List Event) : uploaded (a ++ b) = uploaded a ++ uploaded b := by
  simp [uploaded]

/-- A call that is no transfer in front of an upload changes nothing. -/
theorem UploadsPlan.after_ask (w : World) (c : Client) (call : Call) (res : World × Status)
    (plan : List (String × String))
    (hcall : ∀ ok, Event.uploadedFile ⟨call, ok⟩ = none)
    (h : UploadsPlan (w.ask call).2 c res plan) : UploadsPlan w c res plan := by
  obtain ⟨ha, ⟨evs, htr, hpre, hnil⟩, hok⟩ := h
  refine ⟨ha, ⟨⟨call, (w.answers w.trace.length).ok⟩ :: evs, ?_, ?_, ?_⟩, hok⟩
  · rw [htr]; simp [World.ask]
  · simpa [uploaded, hcall] using hpre
  · intro hn; simpa [uploaded, hcall] using hnil hn

/-- Two uploads in a row, the second one only when the first returns nil. -/
theorem UploadsPlan.seq (w : World) (c : Client) (r r2 : World × Status)
    (plan1 plan2 : List (String × String))
    (h1 : UploadsPlan w c r plan1) (h2 : r.2 = .nil → UploadsPlan r.1 c r2 plan2) :
    UploadsPlan w c (match r.2 with | .nil => r2 | s => (r.1, s)) (plan1 ++ plan2) := by
  obtain ⟨ha, ⟨evs, htr, hpre, hnil⟩, hok⟩ := h1
  cases hr : r.2 with
  | nil =>
    obtain ⟨ha2, ⟨evs2, htr2, hpre2, hnil2⟩, hok2⟩ := h2 hr
    refine ⟨ha2.trans ha, ⟨evs ++ evs2, ?_, ?_, ?_⟩, ?_⟩
    · simp only [htr2, htr, List.append_assoc]
    · rw [uploaded_append, hnil hr]
      exact (List.prefix_append_right_inj plan1).2 hpre2
    · intro hn
      rw [uploaded_append, hnil hr, hnil2 hn]
    · intro hall hc
      exact hok2 (by rw [ha]; exact hall) hc
  | error m =>
    refine ⟨ha, ⟨evs, htr, hpre.trans (List.prefix_append _ _), ?_⟩, ?_⟩
    · intro hn; exact absurd hn (by simp)
    · intro hall hc; exact absurd (hok hall hc) (by simp [hr])
  | panic m =>
    refine ⟨ha, ⟨evs, htr, hpre.trans (List.prefix_append _ _), ?_⟩, ?_⟩
    · intro hn; exact absurd hn (by simp)
    · intro hall hc; exact absurd (hok hall hc) (by simp [hr])

/-- One `uploadFile` follows the plan of its single file. -/
theorem Client.uploadFile_plan (w : World) (c : Client) (src dir : String) :
    UploadsPlan w c (Client.uploadFile w c src dir)
      [(src, GoPath.Join dir (GoPath.Base src))] := by
  obtain ⟨ha, ⟨evs, htr, hup⟩, hok⟩ := Client.uploadFile_spec w c src dir
  refine ⟨ha, ⟨evs, htr, ?_, ?_⟩, hok⟩
  · rw [hup]; split
    · exact List.prefix_refl _
    · exact List.nil_prefix
  · intro hn; rw [hup, if_pos hn]

mutual
/-- The upload of the directory at `P`, found below the chain `p` of the source `S`,
with the remote directory `R`, follows the plan of the files below it. -/
theorem Client.uploadDir_plan (S D : String) (c : Client) :
    ∀ (node : FsNode) (w : World) (P R : String) (p : List String),
      node.plainNames = true →
      (∀ x, GoPath.Join P x = GoPath.JoinList (S :: p ++ [x])) →
      (∀ x, GoPath.Join (GoPath.Join R (GoPath.Base P)) x
        = GoPath.JoinList (D :: GoPath.Base S :: p ++ [x])) →
      UploadsPlan w c (Client.uploadDir w c P R node) (levelPlan S D p node.files)
  | .mk d files, w, P, R, p, hn, hP, hR => by
    have hloop := Client.uploadDirLoop_plan S D c files (w.ask (.ioReadDir P)).2 P
      (GoPath.Join R (GoPath.Base P)) p (by simpa [FsNode.plainNames] using hn) hP hR
    unfold Client.uploadDir
    dsimp only
    by_cases hrd : (w.ask (.ioReadDir P)).1.ok = false
    · rw [if_pos hrd]
      refine ⟨rfl, ⟨[⟨.ioReadDir P, (w.answers w.trace.length).ok⟩], rfl, ?_, ?_⟩, ?_⟩
      · simp [uploaded, Event.uploadedFile]
      · intro h; exact absurd h (by simp)
      · intro hall _
        have : (w.ask (.ioReadDir P)).1.ok = true := hall _
        rw [this] at hrd; exact absurd hrd (by simp)
    · rw [if_neg hrd]
      simp only [FsNode.files]
      exact UploadsPlan.after_ask w c (.ioReadDir P) _ _ (fun ok => by cases ok <;> rfl) hloop
/-- The loop of `uploadDir` over the entries of the directory at `P` follows the plan of
the files below them. -/
theorem Client.uploadDirLoop_plan (S D : String) (c : Client) :
    ∀ (es : FsEntries) (w : World) (P R : String) (p : List String),
      es.plainNames = true →
      (∀ x, GoPath.Join P x = GoPath.JoinList (S :: p ++ [x])) →
      (∀ x, GoPath.Join R x = GoPath.JoinList (D :: GoPath.Base S :: p ++ [x])) →
      UploadsPlan w c (Client.uploadDirLoop w c P R es) (levelPlan S D p es.files)
  | .nil, w, P, R, p, _, _, _ => by
    refine ⟨rfl, ⟨[], by simp [Client.uploadDirLoop], ?_, ?_⟩, ?_⟩
    · simp [uploaded, FsEntries.files, levelPlan]
    · intro _; simp [uploaded, FsEntries.files, levelPlan]
    · intro _ _; simp [Client.uploadDirLoop]
  | .cons name node rest, w, P, R, p, hn, hP, hR => by
    simp only [FsEntries.plainNames, Bool.and_eq_true] at hn
    obtain ⟨⟨hname, hnode⟩, hrest⟩ := hn
    have hbase : GoPath.Base (GoPath.Join P name) = name := GoPath.Base_Join P name hname
    have hchild : UploadsPlan w c
        (if node.IsDir then Client.uploadDir w c (GoPath.Join P name) R node
          else Client.uploadFile w c (GoPath.Join P name) R)
        (levelPlan S D p (if node.IsDir then (FsNode.files node).map
          (fun pf => (name :: pf.1, pf.2)) else [([], name)])) := by
      by_cases hd : node.IsDir = true
      · simp only [hd, ↓reduceIte]
        have h := Client.uploadDir_plan S D c node w (GoPath.Join P name) R (p ++ [name]) hnode
          (by intro x; rw [hP, GoPath.Join_JoinList]; simp)
          (by intro x; rw [hbase, hR, GoPath.Join_JoinList]; simp)
        simpa [levelPlan, List.map_map, Function.comp_def] using h
      · simp only [hd, ↓reduceIte, Bool.false_eq_true]
        have h := Client.uploadFile_plan w c (GoPath.Join P name) R
        have e : [(GoPath.Join P name, GoPath.Join R (GoPath.Base (GoPath.Join P name)))]
            = [(GoPath.JoinList (S :: p ++ [name]),
                GoPath.JoinList (D :: GoPath.Base S :: p ++ [name]))] := by
          rw [hbase, hP, hR]
        rw [e] at h
        simpa [levelPlan] using h
    have hseq := UploadsPlan.seq w c _ (Client.uploadDirLoop
        (if node.IsDir then Client.uploadDir w c (GoPath.Join P name) R node
          else Client.uploadFile w c (GoPath.Join P name) R).1 c P R rest) _ _ hchild
      (fun _ => Client.uploadDirLoop_plan S D c rest _ P R p hrest hP hR)
    simp only [FsEntries.files, levelPlan, List.map_append]
    simp only [levelPlan] at hseq
    unfold Client.uploadDirLoop
    exact hseq
end

/-! ## C11: the subtree an upload writes -/

/-- C11: when the source `S` of `Client.Upload` is a directory whose listing holds file
names (no slash, not empty, not `.` or `..`), the files written to the server are, in
listing order, a prefix of the plan "each regular file found at `p/f` under `S` goes to
`path.Join(D, base(S), p, f)`"; they are the whole plan when `Upload` returns nil, and
`Upload` returns nil when every call succeeds on a client with a sub-channel. -/
theorem C11_upload_preserves_subtree (w : World) (c : Client) (S D : String) (tree : FsNode)
    (hstat : (w.answers w.trace.length).ok = true)
    (htree : (w.answers w.trace.length).node = tree)
    (hdir : tree.IsDir = true) (hplain : tree.plainNames = true) :
    (∃ evs, (Client.Upload w c S D).1.trace = w.trace ++ evs ∧
      uploaded evs <+: mirrorPlan S D tree ∧
      ((Client.Upload w c S D).2 = .nil → uploaded evs = mirrorPlan S D tree)) ∧
    ((∀ n, (w.answers n).ok = true) → c.sftpClient ≠ none →
      (Client.Upload w c S D).2 = .nil) := by
  have h := Client.uploadDir_plan S D c tree (w.ask (.osStat S)).2 S D [] hplain
    (by intro x; rw [GoPath.Join_eq_JoinList]; rfl)
    (by intro x; rw [GoPath.Join_eq_JoinList D, GoPath.Join_JoinList])
  have h' := UploadsPlan.after_ask w c (.osStat S) _ _ (fun ok => by cases ok <;> rfl) h
  have hU : Client.Upload w c S D = Client.uploadDir (w.ask (.osStat S)).2 c S D tree := by
    simp [Client.Upload, World.ask, hstat, htree, hdir]
  have hplan : levelPlan S D [] tree.files = mirrorPlan S D tree := by
    simp [levelPlan, mirrorPlan]
  rw [hU, ← hplan]
  exact ⟨h'.2.1, h'.2.2⟩

/-- C11 on the directory `/work/site` that holds `a.txt` and `sub/b`, uploaded to `/srv`:
the files go to `/srv/site/a.txt` and `/srv/site/sub/b`. -/
theorem C11_upload_preserves_subtree_witness :
    uploaded (Client.Upload (World.withTree FsNode.sample []) ⟨some 0, some 1⟩
        "/work/site" "/srv").1.trace
      = [("/work/site/a.txt", "/srv/site/a.txt"), ("/work/site/sub/b", "/srv/site/sub/b")] ∧
    mirrorPlan "/work/site" "/srv" FsNode.sample
      = [("/work/site/a.txt", "/srv/site/a.txt"), ("/work/site/sub/b", "/srv/site/sub/b")] ∧
    (Client.Upload (World.withTree FsNode.sample []) ⟨some 0, some 1⟩
        "/work/site" "/srv").2 = .nil :=
  ⟨by decide, by decide,
   (C11_upload_preserves_subtree (World.withTree FsNode.sample []) ⟨some 0, some 1⟩
      "/work/site" "/srv" FsNode.sample rfl rfl rfl (by decide)).2
      (fun _ => rfl) (by decide)⟩

/-! ## C12: the subtree a download writes -/

/-- C12, on the code: the remote directory `/srv/site` holds `a.txt` and `sub/b`; its
download to `/work` writes `b` to `/work/site/sub/sub/b`, where the mirror of the upload
(the plan `path.Join(D, base(S), p, f)`) is `/work/site/sub/b`. -/
theorem C12_download_doubles_subdirectory :
    downloaded (Client.Download (World.withTree FsNode.sample []) ⟨some 0, some 1⟩
        "/srv/site" "/work").1.trace
      = [("/srv/site/a.txt", "/work/site/a.txt"),
         ("/srv/site/sub/b", "/work/site/sub/sub/b")] ∧
    mirrorPlan "/srv/site" "/work" FsNode.sample
      = [("/srv/site/a.txt", "/work/site/a.txt"), ("/srv/site/sub/b", "/work/site/sub/b")] ∧
    uploaded (Client.Upload (World.withTree FsNode.sample []) ⟨some 0, some 1⟩
        "/srv/site" "/work").1.trace
      = mirrorPlan "/srv/site" "/work" FsNode.sample := by
  decide

/-! ## C13: absolute paths -/

theorem GoPath.isAbs_Join (a b : String) (h : GoPath.IsAbs a = true) :
    GoPath.IsAbs (GoPath.Join a b) = true := by
  unfold GoPath.IsAbs at h ⊢
  unfold GoPath.Join GoPath.joinChars
  have ha : a.data ≠ [] := by
    intro e; rw [e] at h; simp [GoPath.isAbsChars] at h
  have hc : ∀ p : List Char, GoPath.isAbsChars p = true →
      GoPath.isAbsChars (GoPath.cleanChars p) = true := by
    intro p hp
    have hpne : p ≠ [] := by intro e; rw [e] at hp; simp [GoPath.isAbsChars] at hp
    rw [GoPath.cleanChars_eq_render p hpne, hp]
    simp [GoPath.render, GoPath.isAbsChars]
  simp only [ha, ↓reduceIte]
  split
  · exact hc _ h
  · exact hc _ (by rw [GoPath.isAbsChars_append _ _ ha]; exact h)

theorem allAbs_ask (w : World) (c : Call) :
    allAbs (w.ask c).2.trace = (allAbs w.trace && c.paths.all GoPath.IsAbs) := by
  simp [allAbs, World.ask]

theorem Runner.resolveRemotePath_abs (r : Runner) (p : String)
    (h : GoPath.IsAbs r.cwdRemote = true) : GoPath.IsAbs (r.resolveRemotePath p) = true := by
  unfold Runner.resolveRemotePath
  split
  · assumption
  · exact GoPath.isAbs_Join _ _ h

theorem Runner.resolveLocalPath_abs (r : Runner) (p : String)
    (h : GoPath.IsAbs r.cwdLocal = true) : GoPath.IsAbs (r.resolveLocalPath p) = true := by
  unfold Runner.resolveLocalPath
  split
  · assumption
  · exact GoPath.isAbs_Join _ _ h

theorem Client.Move_allAbs (w : World) (c : Client) (a b : String)
    (h : allAbs w.trace = true) (ha : GoPath.IsAbs a = true) (hb : GoPath.IsAbs b = true) :
    allAbs (Client.Move w c a b).1.trace = true := by
  unfold Client.Move
  repeat' (first | split | (dsimp only; split))
  all_goals simp [allAbs_ask, Call.paths, h, ha, hb]

theorem Client.Copy_allAbs (w : World) (c : Client) (a b : String)
    (h : allAbs w.trace = true) (ha : GoPath.IsAbs a = true) (hb : GoPath.IsAbs b = true) :
    allAbs (Client.Copy w c a b).1.trace = true := by
  unfold Client.Copy Client.closeRemote
  repeat' (first | split | (dsimp only; split))
  all_goals simp [allAbs_ask, Call.paths, h, ha, hb]

theorem Client.Delete_allAbs (lib : Lib) (c : Client) (files : List String) (w : World)
    (h : allAbs w.trace = true) (hf : ∀ f ∈ files, GoPath.IsAbs f = true) :
    allAbs (Client.Delete lib w c files).1.trace = true := by
  induction files generalizing w with
  | nil => simpa [Client.Delete] using h
  | cons f files ih =>
    have hf0 := hf f (List.mem_cons_self _ _)
    have hfs : ∀ g ∈ files, GoPath.IsAbs g = true := fun g hg => hf g (List.mem_cons_of_mem _ hg)
    unfold Client.Delete
    split
    · exact ih w h hfs
    · split
      · exact h
      · dsimp only
        split
        · exact ih _ (by simp [allAbs_ask, Call.paths, h, hf0]) hfs
        · split
          · simp [allAbs_ask, Call.paths, h, hf0]
          · exact ih _ (by simp [allAbs_ask, Call.paths, h, hf0]) hfs

theorem Client.uploadFile_allAbs (w : World) (c : Client) (src dir : String)
    (h : allAbs w.trace = true) (hs : GoPath.IsAbs src = true) (hd : GoPath.IsAbs dir = true) :
    allAbs (Client.uploadFile w c src dir).1.trace = true := by
  have hj := GoPath.isAbs_Join dir (GoPath.Base src) hd
  unfold Client.uploadFile Client.closeRemote Client.closeLocal
  repeat' (first | split | (dsimp only; split))
  all_goals simp [allAbs_ask, Call.paths, h, hs, hd, hj]

theorem Client.downloadFile_allAbs (w : World) (c : Client) (src dir : String)
    (h : allAbs w.trace = true) (hs : GoPath.IsAbs src = true) (hd : GoPath.IsAbs dir = true) :
    allAbs (Client.downloadFile w c src dir).1.trace = true := by
  have hj := GoPath.isAbs_Join dir (GoPath.Base src) hd
  unfold Client.downloadFile Client.closeRemote Client.closeLocal
  repeat' (first | split | (dsimp only; split))
  all_goals simp [allAbs_ask, Call.paths, h, hs, hd, hj]
mutual
theorem Client.uploadDir_allAbs (c : Client) :
    ∀ (node : FsNode) (w : World) (P R : String), allAbs w.trace = true →
      GoPath.IsAbs P = true → GoPath.IsAbs R = true →
      allAbs (Client.uploadDir w c P R node).1.trace = true
  | .mk d files, w, P, R, h, hP, hR => by
    unfold Client.uploadDir
    dsimp only
    split
    · simp [allAbs_ask, Call.paths, h, hP]
    · exact Client.uploadDirLoop_allAbs c files _ P _
        (by simp [allAbs_ask, Call.paths, h, hP]) hP (GoPath.isAbs_Join _ _ hR)
theorem Client.uploadDirLoop_allAbs (c : Client) :
    ∀ (es : FsEntries) (w : World) (P R : String), allAbs w.trace = true →
      GoPath.IsAbs P = true → GoPath.IsAbs R = true →
      allAbs (Client.uploadDirLoop w c P R es).1.trace = true
  | .nil, w, P, R, h, _, _ => by simpa [Client.uploadDirLoop] using h
  | .cons name node rest, w, P, R, h, hP, hR => by
    have hchild : allAbs (if node.IsDir then Client.uploadDir w c (GoPath.Join P name) R node
        else Client.uploadFile w c (GoPath.Join P name) R).1.trace = true := by
      split
      · exact Client.uploadDir_allAbs c node w _ R h (GoPath.isAbs_Join _ _ hP) hR
      · exact Client.uploadFile_allAbs w c _ R h (GoPath.isAbs_Join _ _ hP) hR
    unfold Client.uploadDirLoop
    dsimp only
    split
    · exact Client.uploadDirLoop_allAbs c rest _ P R hchild hP hR
    · exact hchild
end

mutual
theorem Client.downloadDir_allAbs (c : Client) :
    ∀ (node : FsNode) (w : World) (P R : String), allAbs w.trace = true →
      GoPath.IsAbs P = true → GoPath.IsAbs R = true →
      allAbs (Client.downloadDir w c P R node).1.trace = true
  | .mk d files, w, P, R, h, hP, hR => by
    unfold Client.downloadDir
    split
    · exact h
    · dsimp only
      split
      · simp [allAbs_ask, Call.paths, h, hP]
      · exact Client.downloadDirLoop_allAbs c files _ P _
          (by simp [allAbs_ask, Call.paths, h, hP]) hP (GoPath.isAbs_Join _ _ hR)
theorem Client.downloadDirLoop_allAbs (c : Client) :
    ∀ (es : FsEntries) (w : World) (P R : String), allAbs w.trace = true →
      GoPath.IsAbs P = true → GoPath.IsAbs R = true →
      allAbs (Client.downloadDirLoop w c P R es).1.trace = true
  | .nil, w, P, R, h, _, _ => by simpa [Client.downloadDirLoop] using h
  | .cons name node rest, w, P, R, h, hP, hR => by
    have hchild : allAbs (if node.IsDir then
          Client.downloadDir w c (GoPath.Join P name) (GoPath.Join R name) node
        else Client.downloadFile w c (GoPath.Join P name) R).1.trace = true := by
      split
      · exact Client.downloadDir_allAbs c node w _ _ h (GoPath.isAbs_Join _ _ hP)
          (GoPath.isAbs_Join _ _ hR)
      · exact Client.downloadFile_allAbs w c _ R h (GoPath.isAbs_Join _ _ hP) hR
    unfold Client.downloadDirLoop
    dsimp only
    split
    · exact Client.downloadDirLoop_allAbs c rest _ P R hchild hP hR
    · exact hchild
    · exact hchild
end

theorem Client.Upload_allAbs (w : World) (c : Client) (src dir : String)
    (h : allAbs w.trace = true) (hs : GoPath.IsAbs src = true) (hd : GoPath.IsAbs dir = true) :
    allAbs (Client.Upload w c src dir).1.trace = true := by
  have h1 : allAbs (w.ask (.osStat src)).2.trace = true := by
    simp [allAbs_ask, Call.paths, h, hs]
  unfold Client.Upload
  dsimp only
  split
  · exact h1
  · split
    · exact Client.uploadDir_allAbs c _ _ _ _ h1 hs hd
    · exact Client.uploadFile_allAbs _ c _ _ h1 hs hd

theorem Client.Download_allAbs (w : World) (c : Client) (src dir : String)
    (h : allAbs w.trace = true) (hs : GoPath.IsAbs src = true) (hd : GoPath.IsAbs dir = true) :
    allAbs (Client.Download w c src dir).1.trace = true := by
  have h1 : allAbs (w.ask (.sftpStat src)).2.trace = true := by
    simp [allAbs_ask, Call.paths, h, hs]
  unfold Client.Download
  split
  · exact h
  · dsimp only
    split
    · exact h1
    · split
      · exact Client.downloadDir_allAbs c _ _ _ _ h1 hs hd
      · exact Client.downloadFile_allAbs _ c _ _ h1 hs hd

theorem Runner.uploadAll_allAbs (c : Client) (dir : String) (files : List String) (w : World)
    (h : allAbs w.trace = true) (hd : GoPath.IsAbs dir = true)
    (hf : ∀ f ∈ files, GoPath.IsAbs f = true) :
    allAbs (Runner.uploadAll w c dir files).1.trace = true := by
  induction files generalizing w with
  | nil => simpa [Runner.uploadAll] using h
  | cons f files ih =>
    have h1 := Client.Upload_allAbs w c f dir h (hf f (List.mem_cons_self _ _)) hd
    unfold Runner.uploadAll
    dsimp only
    split
    · exact ih _ h1 (fun g hg => hf g (List.mem_cons_of_mem _ hg))
    · exact h1

theorem Runner.downloadAll_allAbs (c : Client) (dir : String) (files : List String) (w : World)
    (h : allAbs w.trace = true) (hd : GoPath.IsAbs dir = true)
    (hf : ∀ f ∈ files, GoPath.IsAbs f = true) :
    allAbs (Runner.downloadAll w c dir files).1.trace = true := by
  induction files generalizing w with
  | nil => simpa [Runner.downloadAll] using h
  | cons f files ih =>
    have h1 := Client.Download_allAbs w c f dir h (hf f (List.mem_cons_self _ _)) hd
    unfold Runner.downloadAll
    dsimp only
    split
    · exact ih _ h1 (fun g hg => hf g (List.mem_cons_of_mem _ hg))
    · exact h1

theorem Client.Run_allAbs (w : World) (c : Client) (command : String) (o : Options)
    (h : allAbs w.trace = true) : allAbs (Client.Run w c command o).1.trace = true := by
  unfold Client.Run Client.closeSession
  repeat' (first | split | (dsimp only; split))
  all_goals simp [allAbs_ask, Call.paths, h]

theorem Client.Env_allAbs (w : World) (c : Client) (key : String) (o : Options)
    (h : allAbs w.trace = true) : allAbs (Client.Env w c key o).1.trace = true := by
  unfold Client.Env
  repeat' (first | split | (dsimp only; split))
  all_goals simp [allAbs_ask, Call.paths, h]

theorem Client.RunAndCombineOutput_allAbs (w : World) (c : Client) (command : String)
    (o : Options) (h : allAbs w.trace = true) :
    allAbs (Client.RunAndCombineOutput w c command o).1.trace = true := by
  unfold Client.RunAndCombineOutput Client.RunWithCustomIO
  repeat' (first | split | (dsimp only; split))
  all_goals simp [allAbs_ask, Call.paths, h]

theorem Client.Disconnect_allAbs (w : World) (c : Client) (h : allAbs w.trace = true) :
    allAbs (Client.Disconnect w c).1.trace = true := by
  unfold Client.Disconnect
  repeat' (first | split | (dsimp only; split))
  all_goals simp [allAbs_ask, Call.paths, h]
theorem Runner.actionVar_allAbs (lib : Lib) (w : World) (r : Runner) (p : NodeVar)
    (h : allAbs w.trace = true) : allAbs (r.actionVar lib w p).1.trace = true := by
  unfold Runner.actionVar
  repeat' (first | split | (dsimp only; split))
  all_goals first
    | exact h
    | exact Client.Env_allAbs _ _ _ _ h
    | exact Client.RunAndCombineOutput_allAbs _ _ _ _ h
    | simp [allAbs_ask, Call.paths, h]

theorem Runner.actionCmd_allAbs (lib : Lib) (w : World) (r : Runner) (p : NodeCmd)
    (h : allAbs w.trace = true) : allAbs (r.actionCmd lib w p).1.trace = true := by
  unfold Runner.actionCmd
  repeat' (first | split | (dsimp only; split))
  all_goals simp [allAbs_ask, Call.paths, h]

theorem Runner.resolveRemotePaths_abs (r : Runner) (ps : List String)
    (h : GoPath.IsAbs r.cwdRemote = true) :
    ∀ f ∈ r.resolveRemotePaths ps, GoPath.IsAbs f = true := by
  intro f hf
  simp only [Runner.resolveRemotePaths, List.mem_map] at hf
  obtain ⟨p, -, rfl⟩ := hf
  exact Runner.resolveRemotePath_abs r p h

theorem Runner.resolveLocalPaths_abs (r : Runner) (ps : List String)
    (h : GoPath.IsAbs r.cwdLocal = true) :
    ∀ f ∈ r.resolveLocalPaths ps, GoPath.IsAbs f = true := by
  intro f hf
  simp only [Runner.resolveLocalPaths, List.mem_map] at hf
  obtain ⟨p, -, rfl⟩ := hf
  exact Runner.resolveLocalPath_abs r p h

/-- A switch case other than CONNECT keeps both working directories absolute and hands
over absolute paths only. -/
theorem Runner.dispatch_abs (lib : Lib) (w : World) (r : Runner) (a : Token)
    (hk : a.Key ≠ .CONNECT) (hdirs : r.absDirs = true) (h : allAbs w.trace = true) :
    (Runner.dispatch lib w r a).2.1.absDirs = true ∧
    allAbs (Runner.dispatch lib w r a).1.trace = true := by
  have hd := hdirs
  simp only [Runner.absDirs, Bool.and_eq_true] at hd
  obtain ⟨hl, hr⟩ := hd
  unfold Runner.dispatch
  split
  · rename_i hkey _; exact absurd hkey hk
  · refine ⟨?_, Runner.actionVar_allAbs lib w r _ h⟩
    have hf := Runner.actionVar_frame lib w r ‹NodeVar›
    simp only [Runner.absDirs, hf.2.2.2.1, hf.2.2.2.2.1, hl, hr, Bool.and_self]
  · have hf := Runner.actionEnv_frame lib w r ‹NodeEnv›
    refine ⟨?_, by rw [hf.1]; exact h⟩
    simp only [Runner.absDirs, hf.2.2.2.2.1, hf.2.2.2.2.2.1, hl, hr, Bool.and_self]
  · have hf := Runner.actionCd_frame lib w r ‹NodeCd›
    refine ⟨?_, by rw [hf.1]; exact h⟩
    have hc : GoPath.IsAbs (r.actionCd lib w ‹NodeCd›).2.1.cwdRemote = true := by
      unfold Runner.actionCd
      split
      · exact hr
      · exact Runner.resolveRemotePath_abs r _ hr
    simp only [Runner.absDirs, hf.2.2.2.2.2.1, hl, hc, Bool.and_self]
  · rw [Runner.actionCmd_runner]
    exact ⟨hdirs, Runner.actionCmd_allAbs lib w r _ h⟩
  · rw [Runner.actionRun_runner]
    refine ⟨hdirs, ?_⟩
    unfold Runner.actionRun
    split
    · exact h
    · exact h
    · exact Client.Run_allAbs _ _ _ _ h
  · rw [Runner.actionMove_runner]
    refine ⟨hdirs, ?_⟩
    unfold Runner.actionMove
    split
    · exact h
    · exact h
    · exact Client.Move_allAbs _ _ _ _ h (Runner.resolveRemotePath_abs r _ hr)
        (Runner.resolveRemotePath_abs r _ hr)
  · rw [Runner.actionCopy_runner]
    refine ⟨hdirs, ?_⟩
    unfold Runner.actionCopy
    split
    · exact h
    · exact h
    · exact Client.Copy_allAbs _ _ _ _ h (Runner.resolveRemotePath_abs r _ hr)
        (Runner.resolveRemotePath_abs r _ hr)
  · rw [Runner.actionDelete_runner]
    refine ⟨hdirs, ?_⟩
    unfold Runner.actionDelete
    split
    · exact h
    · exact h
    · exact Client.Delete_allAbs lib _ _ w h (Runner.resolveRemotePaths_abs r _ hr)
  · rw [Runner.actionUpload_runner]
    refine ⟨hdirs, ?_⟩
    unfold Runner.actionUpload
    split
    · exact h
    · exact h
    · exact Runner.uploadAll_allAbs _ _ _ w h (Runner.resolveRemotePath_abs r _ hr)
        (Runner.resolveLocalPaths_abs r _ hl)
  · rw [Runner.actionDownload_runner]
    refine ⟨hdirs, ?_⟩
    unfold Runner.actionDownload
    split
    · exact h
    · exact h
    · exact Runner.downloadAll_allAbs _ _ _ w h (Runner.resolveLocalPath_abs r _ hl)
        (Runner.resolveRemotePaths_abs r _ hr)
  · exact ⟨hdirs, h⟩
  · exact ⟨hdirs, h⟩

/-- A loop over actions none of which is a CONNECT keeps both working directories
absolute and hands over absolute paths only. -/
theorem Runner.runLoop_abs (lib : Lib) (ts : List Token) (w : World) (r : Runner)
    (hk : ∀ a ∈ ts, a.Key ≠ .CONNECT) (hdirs : r.absDirs = true) (h : allAbs w.trace = true) :
    (Runner.runLoop lib w r ts).2.1.absDirs = true ∧
    allAbs (Runner.runLoop lib w r ts).1.trace = true := by
  induction ts generalizing w r with
  | nil => exact ⟨hdirs, h⟩
  | cons a ts ih =>
    have hd := Runner.dispatch_abs lib w { r with step := r.step + 1 } a
      (hk a (List.mem_cons_self _ _)) (by simpa [Runner.absDirs] using hdirs) h
    simp only [Runner.runLoop]
    split
    · exact ih _ _ (fun b hb => hk b (List.mem_cons_of_mem _ hb)) hd.1 hd.2
    · exact hd

/-- A CONNECT that succeeds leaves the working directories the two `Getwd` calls
answered. -/
theorem Runner.connectNew_dirs (w : World) (r : Runner) (p : NodeConnect) (pw : String)
    (hout : ∀ n, GoPath.IsAbs (w.answers n).out = true)
    (hnil : (Runner.connectNew w r p pw).2.2 = .nil) :
    (Runner.connectNew w r p pw).2.1.absDirs = true := by
  by_cases h0 : (w.answers w.trace.length).ok = true
  · by_cases h1 : (w.answers (w.trace.length + 1)).ok = true
    · by_cases h2 : (w.answers (w.trace.length + 1 + 1)).ok = true
      · by_cases h3 : (w.answers (w.trace.length + 1 + 1 + 1)).ok = true
        · simp [Runner.connectNew, Client.Connect, Client.Pwd, NewSSH, World.ask, h0, h1, h2, h3,
            Runner.absDirs, hout]
        · simp [Runner.connectNew, Client.Connect, Client.Pwd, NewSSH, World.ask, h0, h1, h2,
            h3] at hnil
      · simp [Runner.connectNew, Client.Connect, Client.Pwd, NewSSH, World.ask, h0, h1, h2]
          at hnil
    · simp [Runner.connectNew, Client.Connect, Client.Pwd, NewSSH, World.ask, h0, h1] at hnil
  · simp [Runner.connectNew, Client.Connect, Client.Pwd, NewSSH, World.ask, h0] at hnil
theorem Runner.disconnectFirst_answers (w : World) (r : Runner) :
    (Runner.disconnectFirst w r).1.answers = w.answers := by
  unfold Runner.disconnectFirst Client.Disconnect
  repeat' (first | split | (dsimp only; split))
  all_goals rfl

theorem Runner.askPassword_answers (lib : Lib) (w : World) (r : Runner) (p : NodeConnect) :
    (Runner.askPassword lib w r p).1.answers = w.answers := by
  unfold Runner.askPassword
  repeat' (first | split | (dsimp only; split))
  all_goals rfl

/-- A CONNECT step that succeeds in a world whose textual answers are absolute paths
leaves both working directories absolute. -/
theorem Runner.caseConnect_dirs (lib : Lib) (w : World) (r : Runner) (p : NodeConnect)
    (hout : ∀ n, GoPath.IsAbs (w.answers n).out = true)
    (hnil : (Runner.caseConnect lib w r p).2.2 = .nil) :
    (Runner.caseConnect lib w r p).2.1.absDirs = true := by
  cases hd : (Runner.disconnectFirst w r).2.2 with
  | nil =>
    have hc : Runner.caseConnect lib w r p = Runner.promptAndConnect lib
        (Runner.disconnectFirst w r).1 (Runner.disconnectFirst w r).2.1 p := by
      simp [Runner.caseConnect, hd]
    rw [hc] at hnil ⊢
    cases hp : (Runner.askPassword lib (Runner.disconnectFirst w r).1
        (Runner.disconnectFirst w r).2.1 p).2.2 with
    | nil =>
      have hc2 : Runner.promptAndConnect lib (Runner.disconnectFirst w r).1
          (Runner.disconnectFirst w r).2.1 p
          = Runner.connectNew (Runner.askPassword lib (Runner.disconnectFirst w r).1
              (Runner.disconnectFirst w r).2.1 p).1 (Runner.disconnectFirst w r).2.1 p
              (Runner.askPassword lib (Runner.disconnectFirst w r).1
                (Runner.disconnectFirst w r).2.1 p).2.1 := by
        simp [Runner.promptAndConnect, hp]
      rw [hc2] at hnil ⊢
      exact Runner.connectNew_dirs _ _ _ _
        (by rw [Runner.askPassword_answers, Runner.disconnectFirst_answers]; exact hout) hnil
    | error m =>
      have : (Runner.promptAndConnect lib (Runner.disconnectFirst w r).1
          (Runner.disconnectFirst w r).2.1 p).2.2 = .error m := by
        simp [Runner.promptAndConnect, hp]
      rw [this] at hnil; cases hnil
    | panic m =>
      have : (Runner.promptAndConnect lib (Runner.disconnectFirst w r).1
          (Runner.disconnectFirst w r).2.1 p).2.2 = .panic m := by
        simp [Runner.promptAndConnect, hp]
      rw [this] at hnil; cases hnil
  | error m =>
    have : (Runner.caseConnect lib w r p).2.2 = .error m := by
      simp [Runner.caseConnect, hd]
    rw [this] at hnil; cases hnil
  | panic m =>
    have : (Runner.caseConnect lib w r p).2.2 = .panic m := by
      simp [Runner.caseConnect, hd]
    rw [this] at hnil; cases hnil

/-- C13: in a runner state whose two working directories are absolute (the state a CONNECT
that captured absolute directories leaves, which the last part states), `resolveRemotePath`
and `resolveLocalPath` return absolute paths; every case of the switch other than CONNECT,
CD in particular, keeps both working directories absolute and, if all paths handed to the
session and to the local disk so far were absolute, hands over absolute paths only (the
sources and destinations of MOVE, COPY, DELETE, UPLOAD and DOWNLOAD and every path derived
from them); and so does a loop over any list of such actions. -/
theorem C13_paths_stay_absolute (lib : Lib) (w : World) (r : Runner)
    (hdirs : r.absDirs = true) (htrace : allAbs w.trace = true) :
    (∀ p, GoPath.IsAbs (r.resolveRemotePath p) = true ∧
      GoPath.IsAbs (r.resolveLocalPath p) = true) ∧
    (∀ p, GoPath.IsAbs (r.actionCd lib w p).2.1.cwdRemote = true) ∧
    (∀ a : Token, a.Key ≠ .CONNECT →
      (Runner.dispatch lib w r a).2.1.absDirs = true ∧
      allAbs (Runner.dispatch lib w r a).1.trace = true) ∧
    (∀ ts : List Token, (∀ a ∈ ts, a.Key ≠ .CONNECT) →
      (Runner.runLoop lib w r ts).2.1.absDirs = true ∧
      allAbs (Runner.runLoop lib w r ts).1.trace = true) ∧
    (∀ (r0 : Runner) (p : NodeConnect), (∀ n, GoPath.IsAbs (w.answers n).out = true) →
      (r0.caseConnect lib w p).2.2 = .nil → (r0.caseConnect lib w p).2.1.absDirs = true) := by
  have hd := hdirs
  simp only [Runner.absDirs, Bool.and_eq_true] at hd
  refine ⟨fun p => ⟨Runner.resolveRemotePath_abs r p hd.2, Runner.resolveLocalPath_abs r p hd.1⟩,
    ?_, fun a hk => Runner.dispatch_abs lib w r a hk hdirs htrace,
    fun ts hk => Runner.runLoop_abs lib ts w r hk hdirs htrace,
    fun r0 p hout hnil => Runner.caseConnect_dirs lib w r0 p hout hnil⟩
  intro p
  have h := (Runner.dispatch_abs lib w r ⟨.CD, .cd p⟩ (by simp) hdirs htrace).1
  simp only [Runner.dispatch, Runner.absDirs, Bool.and_eq_true] at h
  exact h.2

/-- C13 on a runner connected at `/home/u` (local directory `/work`): after `CD ../srv`,
`MOVE old /tmp/new` renames `/home/srv/old`, every path of `UPLOAD site www` is absolute,
and the remote working directory is `/home/srv`. -/
theorem C13_paths_stay_absolute_witness :
    (Runner.runLoop Lib.plain (World.withTree FsNode.sample []) (Runner.connectedAt "/home/u")
      [⟨.CD, .cd ⟨"../srv"⟩⟩, ⟨.MOVE, .copy ⟨"old", "/tmp/new"⟩⟩]).1.trace
      = [⟨.sftpRename "/home/srv/old" "/tmp/new", true⟩] ∧
    allAbs (Runner.runLoop Lib.plain (World.withTree FsNode.sample [])
      (Runner.connectedAt "/home/u")
      [⟨.CD, .cd ⟨"../srv"⟩⟩, ⟨.UPLOAD, .upload ⟨["site"], "www"⟩⟩]).1.trace = true ∧
    (Runner.runLoop Lib.plain (World.withTree FsNode.sample []) (Runner.connectedAt "/home/u")
      [⟨.CD, .cd ⟨"../srv"⟩⟩, ⟨.UPLOAD, .upload ⟨["site"], "www"⟩⟩]).2.1.cwdRemote
      = "/home/srv" := by
  have h := (C13_paths_stay_absolute Lib.plain (World.withTree FsNode.sample [])
    (Runner.connectedAt "/home/u") (by decide) (by decide)).2.2.2.1
    [⟨.CD, .cd ⟨"../srv"⟩⟩, ⟨.UPLOAD, .upload ⟨["site"], "www"⟩⟩] (by decide)
  exact ⟨by decide, h.2, by decide⟩

/-! ## C14: the ENV rule of the tokenizer -/

namespace Parser

theorem dropWhile_eq_self_of_head {p : Char → Bool} (l : List Char)
    (h : ∀ c, l.head? = some c → p c = false) : l.dropWhile p = l := by
  cases l with
  | nil => rfl
  | cons a l => simp [List.dropWhile, h a rfl]

theorem trimChars_head (l : List Char) :
    ∀ c, (trimChars l).head? = some c → GoStrings.isSpace c = false := by
  intro c hc
  have hpre : trimChars l <+: l.dropWhile GoStrings.isSpace := List.rdropWhile_prefix _ _
  obtain ⟨t, ht⟩ := hpre
  have hz := List.head?_dropWhile_not GoStrings.isSpace l
  cases hy : trimChars l with
  | nil => rw [hy] at hc; simp at hc
  | cons a y =>
    rw [hy] at hc ht
    simp only [List.head?_cons, Option.some.injEq] at hc
    subst hc
    rw [← ht] at hz
    simpa using hz

/-- Trimming twice is trimming once. -/
theorem trimChars_trimChars (l : List Char) : trimChars (trimChars l) = trimChars l := by
  have h1 : (trimChars l).dropWhile GoStrings.isSpace = trimChars l :=
    dropWhile_eq_self_of_head _ (trimChars_head l)
  have h2 : List.rdropWhile GoStrings.isSpace (trimChars l) = trimChars l :=
    List.rdropWhile_idempotent _ _
  show List.rdropWhile GoStrings.isSpace ((trimChars l).dropWhile GoStrings.isSpace) = _
  rw [h1, h2]

theorem mem_trimChars {c : Char} {l : List Char} (h : c ∈ trimChars l) : c ∈ l := by
  have hpre : trimChars l <+: l.dropWhile GoStrings.isSpace := List.rdropWhile_prefix _ _
  exact (List.dropWhile_suffix _).subset (hpre.subset h)

theorem mem_trimRight {c : Char} {l : List Char} (h : c ∈ trimRight l) : c ∈ l := by
  have hpre : trimRight l <+: l := List.rdropWhile_prefix _ _
  exact hpre.subset h

theorem mem_stripCommentFrom {c : Char} :
    ∀ (l : List Char) (s : Scan) (b : Bool), c ∈ stripCommentFrom s b l → c ∈ l
  | [], _, _, h => by simp [stripCommentFrom] at h
  | a :: rest, s, b, h => by
    unfold stripCommentFrom at h
    split at h
    · simp at h
    · rcases List.mem_cons.1 h with rfl | h'
      · exact List.mem_cons_self _ _
      · exact List.mem_cons_of_mem _ (mem_stripCommentFrom rest _ _ h')

theorem mem_stripComment {c : Char} {l : List Char} (h : c ∈ stripComment l) : c ∈ l :=
  mem_stripCommentFrom l _ _ h

/-- A line without `#` has no trailing comment. -/
theorem stripCommentFrom_of_no_hash :
    ∀ (l : List Char) (s : Scan) (b : Bool), '#' ∉ l → stripCommentFrom s b l = l
  | [], _, _, _ => rfl
  | a :: rest, s, b, h => by
    have ha : a ≠ '#' := fun e => h (by simp [e])
    unfold stripCommentFrom
    simp only [ha, false_and, ↓reduceIte]
    rw [stripCommentFrom_of_no_hash rest _ _ (fun hm => h (List.mem_cons_of_mem _ hm))]

theorem stripComment_of_no_hash (l : List Char) (h : '#' ∉ l) : stripComment l = l :=
  stripCommentFrom_of_no_hash l _ _ h

/-- The rule of ENV accepts a text exactly when it holds a `=` with a non-empty key before
it and a non-empty value after it, and the statement is made of these two. -/
theorem envStatement_token_iff (rest : List Char) (t : Token) :
    envStatement rest = .token t ↔
      '=' ∈ rest ∧ envKey rest ≠ [] ∧ envValue rest ≠ [] ∧
      t = ⟨"ENV", [String.mk (envKey rest), String.mk (envValue rest)]⟩ := by
  unfold envStatement
  by_cases h1 : '=' ∈ rest
  · by_cases h2 : envKey rest = []
    · simp [h1, h2]
    · by_cases h3 : envValue rest = []
      · simp [h1, h2, h3]
      · simp only [h1, not_true_eq_false, h2, h3, ↓reduceIte, LineResult.token.injEq, ne_eq,
          not_false_eq_true, true_and]
        exact eq_comm
  · simp [h1]

/-- The rule of ENV rejects every other text. -/
theorem envStatement_fail (rest : List Char)
    (h : '=' ∉ rest ∨ envKey rest = [] ∨ envValue rest = []) :
    ∃ msg, envStatement rest = .fail msg := by
  unfold envStatement
  by_cases h1 : '=' ∈ rest
  · by_cases h2 : envKey rest = []
    · exact ⟨"ENV requires a key", by simp [h1, h2]⟩
    · by_cases h3 : envValue rest = []
      · exact ⟨"ENV requires a value", by simp [h1, h2, h3]⟩
      · rcases h with h | h | h
        · exact absurd h1 h
        · exact absurd h h2
        · exact absurd h h3
  · exact ⟨"ENV requires `=`", by simp [h1]⟩

theorem envValue_trimmed (rest : List Char) : trimChars (envValue rest) = envValue rest :=
  trimChars_trimChars _

/-- What an accepted ENV statement looks like. -/
theorem envStatement_token (rest : List Char) (t : Token) (h : envStatement rest = .token t) :
    '=' ∈ rest ∧ ∃ k v, t = ⟨"ENV", [k, v]⟩ ∧ k ≠ "" ∧ v ≠ "" ∧ GoStrings.TrimSpace v = v := by
  obtain ⟨hmem, hk, hv, ht⟩ := (envStatement_token_iff rest t).1 h
  refine ⟨hmem, _, _, ht, ?_, ?_, ?_⟩
  · intro e; exact hk (by simpa using congrArg String.data e)
  · intro e; exact hv (by simpa using congrArg String.data e)
  · show String.mk (trimChars (String.mk _).data) = _
    simp only [envValue_trimmed]

/-- A line that holds an ENV statement is judged by the rule of ENV on the text after the
keyword. -/
theorem tokenizeLine_of_envLine (raw rest : List Char) (h : envLine raw = some rest) :
    tokenizeLine raw = envStatement rest := by
  unfold envLine at h
  unfold tokenizeLine
  cases hs : statement raw with
  | none => rw [hs] at h; cases h
  | some body =>
    rw [hs] at h
    dsimp only at h ⊢
    split at h
    · rename_i hk
      simp only [Option.some.injEq] at h
      subst h
      have hup : (['E', 'N', 'V'] : List Char).all Char.isUpper = true := by decide
      have hkw : String.mk ['E', 'N', 'V'] ∈ keywords := by decide
      have henv : String.mk ['E', 'N', 'V'] = "ENV" := by decide
      unfold tokenizeStatement
      simp only [hk, hup, hkw, henv]
      simp
    · cases h

/-- A line that gives a statement with the keyword ENV holds an ENV statement. -/
theorem envLine_of_token (raw : List Char) (t : Token) (h : tokenizeLine raw = .token t)
    (hk : t.Key = "ENV") : ∃ rest, envLine raw = some rest ∧ envStatement rest = .token t := by
  unfold tokenizeLine at h
  unfold envLine
  cases hs : statement raw with
  | none => rw [hs] at h; cases h
  | some body =>
    rw [hs] at h
    dsimp only at h ⊢
    unfold tokenizeStatement at h
    dsimp only at h
    split at h
    · cases h
    · split at h
      · cases h
      · split at h
        · rename_i henv
          have hkw : keywordOf body = ['E', 'N', 'V'] := by
            simpa using congrArg String.data henv
          exact ⟨argumentText body, by simp [hkw], h⟩
        · rename_i hne
          split at h
          · cases h
          · simp only [LineResult.token.injEq] at h
            rw [← h] at hk
            exact absurd hk hne

/-- The text after the keyword of an ENV line is part of the line. -/
theorem mem_of_mem_envLine {c : Char} (raw rest : List Char) (h : envLine raw = some rest)
    (hc : c ∈ rest) : c ∈ raw := by
  unfold envLine at h
  cases hs : statement raw with
  | none => rw [hs] at h; cases h
  | some body =>
    rw [hs] at h
    dsimp only at h
    split at h
    · simp only [Option.some.injEq] at h
      subst h
      unfold statement at hs
      dsimp only at hs
      split at hs
      · cases hs
      · split at hs
        · cases hs
        · split at hs
          · cases hs
          · simp only [Option.some.injEq] at hs
            subst hs
            exact mem_trimChars (mem_stripComment (mem_trimRight
              ((List.dropWhile_suffix _).subset hc)))
    · cases h

/-- A line that becomes an ENV statement holds a `=`, and the statement has a key and a
trimmed, non-empty value. -/
theorem tokenizeLine_env (raw : List Char) (t : Token) (h : tokenizeLine raw = .token t)
    (hk : t.Key = "ENV") :
    '=' ∈ raw ∧ ∃ k v, t = ⟨"ENV", [k, v]⟩ ∧ k ≠ "" ∧ v ≠ "" ∧ GoStrings.TrimSpace v = v := by
  obtain ⟨rest, hl, hst⟩ := envLine_of_token raw t h hk
  obtain ⟨hmem, hrest⟩ := envStatement_token _ t hst
  exact ⟨mem_of_mem_envLine raw rest hl hmem, hrest⟩

theorem collect_ok_mem (ls : List (List Char)) (ts : List Token) (h : collect ls = .ok ts)
    (t : Token) (ht : t ∈ ts) : ∃ l ∈ ls, tokenizeLine l = .token t := by
  induction ls generalizing ts with
  | nil =>
    simp only [collect, Result.ok.injEq] at h
    subst h; simp at ht
  | cons l ls ih =>
    unfold collect at h
    split at h
    · cases h
    · obtain ⟨l', hl', hl''⟩ := ih ts h ht
      exact ⟨l', List.mem_cons_of_mem _ hl', hl''⟩
    · rename_i t0 ht0
      split at h
      · rename_i ts0 hts0
        simp only [Result.ok.injEq] at h
        subst h
        rcases List.mem_cons.1 ht with rfl | ht'
        · exact ⟨l, List.mem_cons_self _ _, ht0⟩
        · obtain ⟨l', hl', hl''⟩ := ih ts0 hts0 ht'
          exact ⟨l', List.mem_cons_of_mem _ hl', hl''⟩
      · cases h

/-- A bad line makes the whole call fail, whatever follows it, when the lines before it are
accepted. -/
theorem collect_fail (pre post : List (List Char)) (l : List Char) (msg : String)
    (hl : tokenizeLine l = .fail msg) (hpre : ∀ x ∈ pre, ∀ m, tokenizeLine x ≠ .fail m) :
    collect (pre ++ l :: post) = .error msg := by
  induction pre with
  | nil => simp [collect, hl]
  | cons x pre ih =>
    have ih' := ih (fun y hy => hpre y (List.mem_cons_of_mem _ hy))
    have hx := hpre x (List.mem_cons_self _ _)
    simp only [List.cons_append, collect]
    split
    · rename_i m hm; exact absurd hm (hx m)
    · exact ih'
    · have ih'' : collect (pre.append (l :: post)) = .error msg := ih'
      rw [ih'']

/-- The lines are accepted exactly when none of them is rejected, and the statements are
then those of the lines, in order. -/
theorem collect_ok_iff (ls : List (List Char)) (ts : List Token) :
    collect ls = .ok ts ↔
      (∀ l ∈ ls, ∀ m, tokenizeLine l ≠ .fail m) ∧
      ts = ls.filterMap (fun l => (tokenizeLine l).token?) := by
  induction ls generalizing ts with
  | nil => simp [collect, eq_comm]
  | cons l ls ih =>
    cases hl : tokenizeLine l with
    | fail msg =>
      simp only [collect, hl, List.mem_cons, forall_eq_or_imp]
      constructor
      · intro h; cases h
      · intro h; exact absurd rfl (h.1.1 msg)
    | skip =>
      have hf : LineResult.skip.token? = none := rfl
      simp only [collect, hl, List.mem_cons, forall_eq_or_imp, List.filterMap_cons, hf]
      rw [ih ts]
      simp
    | token t =>
      have hf : (LineResult.token t).token? = some t := rfl
      simp only [collect, hl, List.mem_cons, forall_eq_or_imp, List.filterMap_cons, hf]
      cases hc : collect ls with
      | ok ts0 =>
        have h0 := (ih ts0).1 hc
        simp only [Result.ok.injEq]
        constructor
        · intro h
          subst h
          exact ⟨⟨by simp, h0.1⟩, by rw [h0.2]⟩
        · intro h
          rw [h.2, h0.2]
      | error msg =>
        constructor
        · intro h; cases h
        · intro h
          have := (ih (ls.filterMap (fun l => (tokenizeLine l).token?))).2 ⟨h.1.2, rfl⟩
          rw [hc] at this
          cases this

/-- One rejected line makes the whole call fail. -/
theorem collect_error_of_fail (ls : List (List Char)) (l : List Char) (msg : String)
    (hl : l ∈ ls) (hf : tokenizeLine l = .fail msg) : ∃ m, collect ls = .error m := by
  cases hc : collect ls with
  | error m => exact ⟨m, rfl⟩
  | ok ts => exact absurd hf (((collect_ok_iff ls ts).1 hc).1 l hl msg)

end Parser

namespace Parser

theorem wordChars_iff (w : List Char) :
    wordChars w = true ↔
      w ≠ [] ∧ ∀ c ∈ w, GoStrings.isSpace c = false ∧ c ≠ '=' ∧ c ≠ '#' := by
  simp [wordChars, and_assoc]

theorem dropWhile_append_all {p : Char → Bool} (a r : List Char) (h : ∀ c ∈ a, p c = true) :
    (a ++ r).dropWhile p = r.dropWhile p := by
  induction a with
  | nil => rfl
  | cons x a ih =>
    have hx := h x (List.mem_cons_self _ _)
    have ih' : List.dropWhile p (a.append r) = List.dropWhile p r :=
      ih (fun c hc => h c (List.mem_cons_of_mem _ hc))
    simp only [List.cons_append, List.dropWhile, hx]
    exact ih'

theorem takeWhile_append_all_stop {p : Char → Bool} (l r : List Char)
    (hl : ∀ x ∈ l, p x = true) (hr : r = [] ∨ ∃ y ys, r = y :: ys ∧ p y = false) :
    (l ++ r).takeWhile p = l := by
  induction l with
  | nil =>
    rcases hr with rfl | ⟨y, ys, rfl, hy⟩
    · rfl
    · simp [List.takeWhile, hy]
  | cons x l ih =>
    have hx := hl x (List.mem_cons_self _ _)
    have ih' : List.takeWhile p (l.append r) = l :=
      ih (fun y hy => hl y (List.mem_cons_of_mem _ hy))
    simp only [List.cons_append, List.takeWhile, hx]
    rw [ih']

/-- When a text holds a character that stops the scan, what follows the text does not
matter to what the scan takes. -/
theorem takeWhile_append_of_stop {p : Char → Bool} (u s : List Char)
    (h : ∃ x ∈ u, p x = false) : (u ++ s).takeWhile p = u.takeWhile p := by
  induction u with
  | nil => obtain ⟨x, hx, -⟩ := h; simp at hx
  | cons a u ih =>
    by_cases ha : p a = true
    · have h' : ∃ x ∈ u, p x = false := by
        obtain ⟨x, hx, hpx⟩ := h
        rcases List.mem_cons.1 hx with rfl | hx'
        · rw [ha] at hpx; cases hpx
        · exact ⟨x, hx', hpx⟩
      have ih' : List.takeWhile p (u.append s) = List.takeWhile p u := ih h'
      simp only [List.cons_append, List.takeWhile, ha]
      rw [ih']
    · have ha' : p a = false := by simpa using ha
      simp [List.takeWhile, ha']

/-- When a text holds a character that stops the scan, what follows the text is appended to
what the scan leaves. -/
theorem dropWhile_append_of_stop {p : Char → Bool} (u s : List Char)
    (h : ∃ x ∈ u, p x = false) : (u ++ s).dropWhile p = u.dropWhile p ++ s := by
  induction u with
  | nil => obtain ⟨x, hx, -⟩ := h; simp at hx
  | cons a u ih =>
    by_cases ha : p a = true
    · have h' : ∃ x ∈ u, p x = false := by
        obtain ⟨x, hx, hpx⟩ := h
        rcases List.mem_cons.1 hx with rfl | hx'
        · rw [ha] at hpx; cases hpx
        · exact ⟨x, hx', hpx⟩
      have ih' : List.dropWhile p (u.append s) = List.dropWhile p u ++ s := ih h'
      simp only [List.cons_append, List.dropWhile, ha]
      exact ih'
    · have ha' : p a = false := by simpa using ha
      simp [List.dropWhile, ha']

theorem dropWhile_ne_nil_of_stop {p : Char → Bool} (u : List Char)
    (h : ∃ x ∈ u, p x = false) : u.dropWhile p ≠ [] := by
  induction u with
  | nil => obtain ⟨x, hx, -⟩ := h; simp at hx
  | cons a u ih =>
    by_cases ha : p a = true
    · have h' : ∃ x ∈ u, p x = false := by
        obtain ⟨x, hx, hpx⟩ := h
        rcases List.mem_cons.1 hx with rfl | hx'
        · rw [ha] at hpx; cases hpx
        · exact ⟨x, hx', hpx⟩
      simp only [List.dropWhile, ha]
      exact ih h'
    · have ha' : p a = false := by simpa using ha
      simp [List.dropWhile, ha']

/-- A text is its right-trimmed part followed by whitespace. -/
theorem trimRight_append_rest (l : List Char) :
    ∃ s, l = trimRight l ++ s ∧ ∀ c ∈ s, GoStrings.isSpace c = true := by
  refine ⟨(l.reverse.takeWhile GoStrings.isSpace).reverse, ?_, ?_⟩
  · have h := List.takeWhile_append_dropWhile GoStrings.isSpace l.reverse
    have h2 := congrArg List.reverse h
    rw [List.reverse_append, List.reverse_reverse] at h2
    exact h2.symm
  · intro c hc
    exact List.mem_takeWhile_imp (List.mem_reverse.1 hc)

/-- Whitespace after a text is trimmed away. -/
theorem trimRight_append_spaces (x s : List Char) (hs : ∀ c ∈ s, GoStrings.isSpace c = true) :
    trimRight (x ++ s) = trimRight x := by
  unfold trimRight
  rw [List.reverse_append, dropWhile_append_all _ _ (fun c hc => hs c (List.mem_reverse.1 hc))]

theorem trimRight_trimRight (l : List Char) : trimRight (trimRight l) = trimRight l :=
  List.rdropWhile_idempotent _ _

theorem trimChars_eq_trimRight (l : List Char) :
    trimChars l = trimRight (l.dropWhile GoStrings.isSpace) := rfl

/-- Whitespace after a text does not change what trimming leaves. -/
theorem trimChars_append_spaces (x s : List Char) (hs : ∀ c ∈ s, GoStrings.isSpace c = true) :
    trimChars (x ++ s) = trimChars x := by
  induction x with
  | nil =>
    have h := dropWhile_append_all s [] hs
    simp only [List.append_nil] at h
    simp only [trimChars_eq_trimRight, List.nil_append, h]
  | cons a x ih =>
    by_cases ha : GoStrings.isSpace a = true
    · have ih' : trimChars (x.append s) = trimChars x := ih
      simp only [trimChars_eq_trimRight] at ih' ⊢
      simp only [List.cons_append, List.dropWhile, ha]
      exact ih'
    · have ha' : GoStrings.isSpace a = false := by simpa using ha
      simp only [trimChars_eq_trimRight]
      simp only [List.cons_append, List.dropWhile, ha']
      exact trimRight_append_spaces (a :: x) s hs

/-- A text that starts with a character that is no whitespace keeps it when trimmed at the
right. -/
theorem trimRight_cons (c : Char) (l : List Char) (hc : GoStrings.isSpace c = false) :
    trimRight (c :: l) = c :: trimRight l := by
  obtain ⟨s, hs, hsp⟩ := trimRight_append_rest l
  have h1 : trimRight (c :: l) = trimRight (c :: trimRight l) := by
    conv_lhs => rw [hs]
    exact trimRight_append_spaces (c :: trimRight l) s hsp
  rw [h1]
  unfold trimRight
  rw [List.reverse_cons]
  cases hr : (List.dropWhile GoStrings.isSpace l.reverse) with
  | nil =>
    simp [List.dropWhile, hc]
  | cons y ys =>
    have hy : GoStrings.isSpace y = false := by
      have := List.head?_dropWhile_not GoStrings.isSpace l.reverse
      rw [hr] at this
      simpa using this
    have hrr : (y :: ys).reverse.reverse = y :: ys := List.reverse_reverse _
    rw [hrr]
    simp [List.dropWhile, hy]

/-- Whitespace around a text that neither starts nor ends with whitespace is trimmed
away. -/
theorem trimChars_padded (a w b : List Char)
    (ha : ∀ c ∈ a, GoStrings.isSpace c = true) (hb : ∀ c ∈ b, GoStrings.isSpace c = true)
    (hw : ∀ c ∈ w, GoStrings.isSpace c = false) : trimChars (a ++ w ++ b) = w := by
  unfold trimChars
  rw [List.append_assoc, dropWhile_append_all a _ ha]
  have h1 : (w ++ b).dropWhile GoStrings.isSpace = (w ++ b) ∨ w = [] := by
    cases w with
    | nil => exact Or.inr rfl
    | cons x w =>
      left
      exact dropWhile_eq_self_of_head _ (fun c hc => by
        simp only [List.cons_append, List.head?_cons, Option.some.injEq] at hc
        subst hc; exact hw _ (List.mem_cons_self _ _))
  rcases h1 with h1 | rfl
  · rw [h1, List.reverse_append, dropWhile_append_all _ _ (fun c hc => hb c (List.mem_reverse.1 hc)),
      dropWhile_eq_self_of_head _ (fun c hc => hw c (List.mem_reverse.1 (List.mem_of_mem_head? hc))),
      List.reverse_reverse]
  · have hall : ∀ c ∈ ([] ++ b), GoStrings.isSpace c = true := by simpa using hb
    have h2 : ([] ++ b).dropWhile GoStrings.isSpace = [] := by
      have := dropWhile_append_all ([] ++ b) [] hall
      simpa using this
    rw [h2]; rfl

theorem splitLines_of_no_newline (l : List Char) (h : '\n' ∉ l) : splitLines l = [l] := by
  induction l with
  | nil => simp [splitLines]
  | cons c l ih =>
    simp only [List.mem_cons, not_or] at h
    have hc : c ≠ '\n' := fun h' => h.1 h'.symm
    simp [splitLines, hc, ih h.2]

/-- The rule of ENV does not see the whitespace at the end of the text. -/
theorem envStatement_trimRight (rest : List Char) :
    envStatement (trimRight rest) = envStatement rest := by
  obtain ⟨s, hs, hsp⟩ := trimRight_append_rest rest
  have heqsp : GoStrings.isSpace '=' = false := by decide
  by_cases hmem : '=' ∈ rest
  · have hmem' : '=' ∈ trimRight rest := by
      rw [hs] at hmem
      rcases List.mem_append.1 hmem with h | h
      · exact h
      · have := hsp _ h
        rw [heqsp] at this; cases this
    have hstop : ∃ x ∈ trimRight rest, (fun c => c != '=') x = false :=
      ⟨'=', hmem', by decide⟩
    have hkey : envKey rest = envKey (trimRight rest) := by
      unfold envKey
      conv_lhs => rw [hs]
      rw [takeWhile_append_of_stop _ _ hstop]
    have hval : envValue rest = envValue (trimRight rest) := by
      unfold envValue
      conv_lhs => rw [hs]
      rw [dropWhile_append_of_stop _ _ hstop]
      have hne := dropWhile_ne_nil_of_stop _ hstop
      cases hd : List.dropWhile (fun c => c != '=') (trimRight rest) with
      | nil => exact absurd hd hne
      | cons y ys =>
        simp only [List.cons_append, List.drop_succ_cons, List.drop_zero]
        exact trimChars_append_spaces ys s hsp
    unfold envStatement
    simp only [hmem, hmem', hkey, hval]
  · have hmem' : '=' ∉ trimRight rest := fun h => hmem (mem_trimRight h)
    unfold envStatement
    simp [hmem, hmem']

/-- A line `ENV` followed by a text without `#` that is empty or starts with whitespace
holds an ENV statement, on that text without the whitespace at its end. -/
theorem envLine_of_text (rest : List Char) (hhash : '#' ∉ rest)
    (hhead : ∀ c, rest.head? = some c → GoStrings.isSpace c = true) :
    envLine ('E' :: 'N' :: 'V' :: rest) = some (trimRight rest) := by
  have hE : GoStrings.isSpace 'E' = false := by decide
  have hN : GoStrings.isSpace 'N' = false := by decide
  have hV : GoStrings.isSpace 'V' = false := by decide
  have hright : trimRight ('E' :: 'N' :: 'V' :: rest) = 'E' :: 'N' :: 'V' :: trimRight rest := by
    rw [trimRight_cons _ _ hE, trimRight_cons _ _ hN, trimRight_cons _ _ hV]
  have htrim : trimChars ('E' :: 'N' :: 'V' :: rest) = 'E' :: 'N' :: 'V' :: trimRight rest := by
    rw [trimChars_eq_trimRight]
    have h1 : ('E' :: 'N' :: 'V' :: rest).dropWhile GoStrings.isSpace
        = 'E' :: 'N' :: 'V' :: rest := by
      simp [List.dropWhile, hE]
    rw [h1, hright]
  have hhash' : '#' ∉ 'E' :: 'N' :: 'V' :: trimRight rest := by
    simp only [List.mem_cons, not_or]
    exact ⟨by decide, by decide, by decide, fun h => hhash (mem_trimRight h)⟩
  have hstrip : stripComment ('E' :: 'N' :: 'V' :: trimRight rest)
      = 'E' :: 'N' :: 'V' :: trimRight rest := stripComment_of_no_hash _ hhash'
  have hright2 : trimRight ('E' :: 'N' :: 'V' :: trimRight rest)
      = 'E' :: 'N' :: 'V' :: trimRight rest := by
    rw [← hright, trimRight_trimRight]
  have hst : statement ('E' :: 'N' :: 'V' :: rest) = some ('E' :: 'N' :: 'V' :: trimRight rest) := by
    unfold statement
    simp only [htrim, hstrip, hright2, List.head?_cons]
    simp
  have hhead' : trimRight rest = [] ∨
      ∃ y ys, trimRight rest = y :: ys ∧ (fun c => !GoStrings.isSpace c) y = false := by
    cases ht : trimRight rest with
    | nil => exact Or.inl rfl
    | cons y ys =>
      right
      refine ⟨y, ys, rfl, ?_⟩
      obtain ⟨s, hs, -⟩ := trimRight_append_rest rest
      rw [ht] at hs
      have := hhead y (by rw [hs]; rfl)
      simp [this]
  have htake : keywordOf ('E' :: 'N' :: 'V' :: trimRight rest) = ['E', 'N', 'V'] := by
    have := takeWhile_append_all_stop (p := fun c => !GoStrings.isSpace c) ['E', 'N', 'V']
      (trimRight rest) (by
        intro x hx
        simp only [List.mem_cons, List.not_mem_nil, or_false] at hx
        rcases hx with rfl | rfl | rfl <;> decide) hhead'
    exact this
  have hdrop : argumentText ('E' :: 'N' :: 'V' :: trimRight rest) = trimRight rest := by
    unfold argumentText
    have h3 : 'E' :: 'N' :: 'V' :: trimRight rest = ['E', 'N', 'V'] ++ trimRight rest := rfl
    rw [h3, dropWhile_append_all (p := fun c => !GoStrings.isSpace c) ['E', 'N', 'V'] _ (by
        intro x hx
        simp only [List.mem_cons, List.not_mem_nil, or_false] at hx
        rcases hx with rfl | rfl | rfl <;> decide)]
    rcases hhead' with h | ⟨y, ys, h, hy⟩
    · rw [h]; rfl
    · rw [h]; simp only [List.dropWhile, hy]
  unfold envLine
  rw [hst]
  simp only [htake, hdrop, ↓reduceIte]

/-- A line `ENV` followed by a text without `#` that is empty or starts with whitespace is
judged by the rule of ENV on that text. -/
theorem tokenizeLine_env_text (rest : List Char) (hhash : '#' ∉ rest)
    (hhead : ∀ c, rest.head? = some c → GoStrings.isSpace c = true) :
    tokenizeLine ('E' :: 'N' :: 'V' :: rest) = envStatement rest := by
  rw [tokenizeLine_of_envLine _ _ (envLine_of_text rest hhash hhead), envStatement_trimRight]

/-- The whole call on a single line `ENV` followed by a text without a line break. -/
theorem GenerateAST_env_text (rest : List Char) (hnl : '\n' ∉ rest) :
    GenerateAST (String.mk ('E' :: 'N' :: 'V' :: rest)) = collect ['E' :: 'N' :: 'V' :: rest] := by
  unfold GenerateAST
  rw [splitLines_of_no_newline _ (by
    simp only [List.mem_cons, not_or]
    exact ⟨by decide, by decide, by decide, hnl⟩)]

theorem dropWhile_append_stop {p : Char → Bool} (l ys : List Char) (y : Char)
    (hl : ∀ c ∈ l, p c = true) (hy : p y = false) : (l ++ y :: ys).dropWhile p = y :: ys := by
  rw [dropWhile_append_all l _ hl]
  simp [List.dropWhile, hy]

theorem envKey_padded (K rest : List Char) (hK : wordChars K = true) :
    envKey (' ' :: K ++ ' ' :: '=' :: rest) = K ∧
    envValue (' ' :: K ++ ' ' :: '=' :: rest) = trimChars rest := by
  obtain ⟨hne, hall⟩ := (wordChars_iff K).1 hK
  have hS : GoStrings.isSpace ' ' = true := by decide
  have hpre : ∀ c ∈ ' ' :: K ++ [' '], (c != '=') = true := by
    intro c hc
    simp only [List.cons_append, List.mem_cons, List.mem_append, List.mem_singleton,
      List.not_mem_nil, or_false] at hc
    rcases hc with rfl | hc | rfl
    · decide
    · simpa using (hall c hc).2.1
    · decide
  have hshape : ' ' :: K ++ ' ' :: '=' :: rest = (' ' :: K ++ [' ']) ++ '=' :: rest := by simp
  have htake : (' ' :: K ++ ' ' :: '=' :: rest).takeWhile (fun c => c != '=')
      = ' ' :: K ++ [' '] := by
    rw [hshape]
    exact takeWhile_append_all_stop _ _ hpre (Or.inr ⟨'=', rest, rfl, by decide⟩)
  have hdrop : (' ' :: K ++ ' ' :: '=' :: rest).dropWhile (fun c => c != '=')
      = '=' :: rest := by
    rw [hshape]
    exact dropWhile_append_stop _ _ _ hpre (by decide)
  have hkey : trimChars (' ' :: K ++ [' ']) = K := by
    have := trimChars_padded [' '] K [' '] (by simp [hS]) (by simp [hS])
      (fun c hc => (hall c hc).1)
    simpa using this
  constructor
  · unfold envKey; rw [htake, hkey]
  · unfold envValue; rw [hdrop]; rfl

end Parser

namespace Parser

/-- The model gives what `TestGenerateAST` wants on each of the fourteen rows of its table. -/
theorem test_table :
    GenerateAST "RUN 192.168.0.1" = .ok [⟨"RUN", ["192.168.0.1"]⟩] ∧
    GenerateAST "RUN     192.168.0.1" = .ok [⟨"RUN", ["192.168.0.1"]⟩] ∧
    GenerateAST "# server host address\nRUN     192.168.0.1" = .ok [⟨"RUN", ["192.168.0.1"]⟩] ∧
    GenerateAST "RUN 192.168.0.1 # set your server address" = .ok [⟨"RUN", ["192.168.0.1"]⟩] ∧
    GenerateAST "# HOST 192.168.0.1" = .ok [] ∧
    GenerateAST "CONNECT axetroy@192.168.0.1:22\nRUN ls -lh\n\n"
      = .ok [⟨"CONNECT", ["axetroy@192.168.0.1:22"]⟩, ⟨"RUN", ["ls", "-lh"]⟩] ∧
    GenerateAST "UPLOAD ./README.md ./start.py ./dist"
      = .ok [⟨"UPLOAD", ["./README.md", "./start.py", "./dist"]⟩] ∧
    GenerateAST "INVALID KEYWORD" = .error "invalid keyword" ∧
    GenerateAST "# INVALID KEYWORD" = .ok [] ∧
    GenerateAST "(abc)" = .error "invalid grammar" ∧
    GenerateAST "CONNECT" = .error "the keyword requires a value" ∧
    GenerateAST "ENV PRIVATE_KEY" = .error "ENV requires `=`" ∧
    GenerateAST "ENV PRIVATE_KEY = " = .error "ENV requires a value" ∧
    GenerateAST "ENV PRIVATE_KEY = xxx" = .ok [⟨"ENV", ["PRIVATE_KEY", "xxx"]⟩] := by
  decide

/-- A `#` inside a quoted stretch or after a backslash starts no comment, a `#` inside a word
neither; a `#` after a separating whitespace does. -/
theorem quoted_tokens :
    GenerateAST "ENV MSG = \"a #b\"" = .ok [⟨"ENV", ["MSG", "\"a #b\""]⟩] ∧
    GenerateAST "RUN echo \"a # b\"" = .ok [⟨"RUN", ["echo", "\"a # b\""]⟩] ∧
    GenerateAST "RUN echo \"a\" # b" = .ok [⟨"RUN", ["echo", "\"a\""]⟩] ∧
    GenerateAST "RUN echo a\\ #b" = .ok [⟨"RUN", ["echo", "a\\ #b"]⟩] ∧
    GenerateAST "RUN echo a#b" = .ok [⟨"RUN", ["echo", "a#b"]⟩] ∧
    GenerateAST "ENV A B =" = .error "ENV requires a value" ∧
    GenerateAST "ENV K v\nRUN a=b" = .error "ENV requires `=`" := by
  decide

end Parser

namespace Parser

/-- The whole call on a single line `ENV` followed by a text without `#` and line break
that is empty or starts with whitespace: an error when the text lacks a `=`, a key before
it or a value after it, and otherwise the one statement made of the key and the value. -/
theorem GenerateAST_env_line (rest : List Char) (hhash : '#' ∉ rest) (hnl : '\n' ∉ rest)
    (hhead : ∀ c, rest.head? = some c → GoStrings.isSpace c = true) :
    (('=' ∉ rest ∨ envKey rest = [] ∨ envValue rest = []) →
      ∃ msg, GenerateAST (String.mk ('E' :: 'N' :: 'V' :: rest)) = .error msg) ∧
    ('=' ∈ rest → envKey rest ≠ [] → envValue rest ≠ [] →
      GenerateAST (String.mk ('E' :: 'N' :: 'V' :: rest))
        = .ok [⟨"ENV", [String.mk (envKey rest), String.mk (envValue rest)]⟩]) := by
  rw [GenerateAST_env_text rest hnl]
  constructor
  · intro h
    obtain ⟨msg, hmsg⟩ := envStatement_fail rest h
    exact ⟨msg, by simp [collect, tokenizeLine_env_text rest hhash hhead, hmsg]⟩
  · intro h1 h2 h3
    have ht := (envStatement_token_iff rest _).2 ⟨h1, h2, h3, rfl⟩
    simp [collect, tokenizeLine_env_text rest hhash hhead, ht]

end Parser

/-- C14: in the tokenizer of the specification an ENV line is accepted only when the text
after the keyword holds a `=` with a non-empty key before it and a non-empty trimmed value
after it.  The three rows of the test table hold, and for all words `K` and `v` (no
whitespace, `=` or `#`) the inputs `ENV K` and `ENV K = ` make `GenerateAST` fail and
`ENV K = v` gives the single statement `ENV [K, v]`.  For every text `rest` without `#` and
line break that is empty or starts with whitespace, the input `ENV` followed by `rest`
fails when `rest` lacks the `=`, the key or the value, and gives the single statement
`ENV [key, value]` otherwise.  For every input, a line that holds an ENV statement lacking
the `=`, the key or the value makes the whole call fail; when the input is accepted, the
statements are those of its lines, in order, every line that holds an ENV statement has the
`=`, the key and the value and gives the statement `ENV [key, value]`, and every statement
with the keyword ENV is the one of such a line.  A line that is rejected makes the whole
call fail when the lines before it are accepted. -/
theorem C14_env_requires_value :
    (∃ msg, Parser.GenerateAST "ENV PRIVATE_KEY" = .error msg) ∧
    (∃ msg, Parser.GenerateAST "ENV PRIVATE_KEY = " = .error msg) ∧
    Parser.GenerateAST "ENV PRIVATE_KEY = xxx" = .ok [⟨"ENV", ["PRIVATE_KEY", "xxx"]⟩] ∧
    (∀ K : String, Parser.Word K = true →
      (∃ msg, Parser.GenerateAST ("ENV " ++ K) = .error msg) ∧
      (∃ msg, Parser.GenerateAST ("ENV " ++ K ++ " = ") = .error msg)) ∧
    (∀ K v : String, Parser.Word K = true → Parser.Word v = true →
      Parser.GenerateAST ("ENV " ++ K ++ " = " ++ v) = .ok [⟨"ENV", [K, v]⟩]) ∧
    (∀ (input : String) (toks : List Parser.Token), Parser.GenerateAST input = .ok toks →
      ∀ t ∈ toks, t.Key = "ENV" →
        ∃ line ∈ Parser.splitLines input.data, '=' ∈ line ∧
          ∃ k v, t = ⟨"ENV", [k, v]⟩ ∧ k ≠ "" ∧ v ≠ "" ∧ GoStrings.TrimSpace v = v) ∧
    (∀ (pre post : List (List Char)) (l : List Char) (msg : String),
      Parser.tokenizeLine l = .fail msg →
      (∀ x ∈ pre, ∀ m, Parser.tokenizeLine x ≠ .fail m) →
      Parser.collect (pre ++ l :: post) = .error msg) ∧
    (∀ rest : List Char, '#' ∉ rest → '\n' ∉ rest →
      (∀ c, rest.head? = some c → GoStrings.isSpace c = true) →
      Parser.envLine ('E' :: 'N' :: 'V' :: rest) = some (Parser.trimRight rest) ∧
      (('=' ∉ rest ∨ Parser.envKey rest = [] ∨ Parser.envValue rest = []) →
        ∃ msg, Parser.GenerateAST (String.mk ('E' :: 'N' :: 'V' :: rest)) = .error msg) ∧
      ('=' ∈ rest → Parser.envKey rest ≠ [] → Parser.envValue rest ≠ [] →
        Parser.GenerateAST (String.mk ('E' :: 'N' :: 'V' :: rest))
          = .ok [⟨"ENV", [String.mk (Parser.envKey rest),
              String.mk (Parser.envValue rest)]⟩])) ∧
    (∀ (input : String) (raw rest : List Char), raw ∈ Parser.splitLines input.data →
      Parser.envLine raw = some rest →
      ('=' ∉ rest ∨ Parser.envKey rest = [] ∨ Parser.envValue rest = []) →
      ∃ msg, Parser.GenerateAST input = .error msg) ∧
    (∀ (input : String) (toks : List Parser.Token), Parser.GenerateAST input = .ok toks →
      toks = (Parser.splitLines input.data).filterMap
        (fun raw => (Parser.tokenizeLine raw).token?) ∧
      ∀ raw ∈ Parser.splitLines input.data, ∀ rest, Parser.envLine raw = some rest →
        '=' ∈ rest ∧ Parser.envKey rest ≠ [] ∧ Parser.envValue rest ≠ [] ∧
        Parser.trimChars (Parser.envValue rest) = Parser.envValue rest ∧
        Parser.tokenizeLine raw = .token
          ⟨"ENV", [String.mk (Parser.envKey rest), String.mk (Parser.envValue rest)]⟩ ∧
        (⟨"ENV", [String.mk (Parser.envKey rest), String.mk (Parser.envValue rest)]⟩ :
          Parser.Token) ∈ toks) ∧
    (∀ (input : String) (toks : List Parser.Token), Parser.GenerateAST input = .ok toks →
      ∀ t ∈ toks, t.Key = "ENV" →
        ∃ raw ∈ Parser.splitLines input.data, ∃ rest, Parser.envLine raw = some rest ∧
          Parser.tokenizeLine raw = .token t ∧
          '=' ∈ rest ∧ Parser.envKey rest ≠ [] ∧ Parser.envValue rest ≠ [] ∧
          t = ⟨"ENV", [String.mk (Parser.envKey rest), String.mk (Parser.envValue rest)]⟩) := by
  have hS : GoStrings.isSpace ' ' = true := by decide
  have hword : ∀ w : List Char, Parser.wordChars w = true →
      w ≠ [] ∧ '#' ∉ w ∧ '\n' ∉ w ∧ '=' ∉ w ∧
      (∀ c ∈ w, GoStrings.isSpace c = false) := by
    intro w hw
    obtain ⟨hne, hall⟩ := (Parser.wordChars_iff w).1 hw
    refine ⟨hne, fun h => (hall _ h).2.2 rfl, fun h => ?_, fun h => (hall _ h).2.1 rfl,
      fun c hc => (hall c hc).1⟩
    have := (hall _ h).1
    exact absurd this (by decide)
  refine ⟨⟨"ENV requires `=`", by decide⟩, ⟨"ENV requires a value", by decide⟩, by decide,
    ?_, ?_, ?_, ?_, ?_, ?_, ?_, ?_⟩
  · intro K hK
    obtain ⟨hne, hhash, hnl, heq, hsp⟩ := hword K.data hK
    constructor
    · have hd : "ENV " ++ K = String.mk ('E' :: 'N' :: 'V' :: (' ' :: K.data)) := by
        apply String.ext
        simp [String.data_append]
      rw [hd]
      refine (Parser.GenerateAST_env_line (' ' :: K.data) ?_ ?_ ?_).1 (Or.inl ?_)
      · simp only [List.mem_cons, not_or]; exact ⟨by decide, hhash⟩
      · simp only [List.mem_cons, not_or]; exact ⟨by decide, hnl⟩
      · intro c hc; simp at hc; subst hc; exact hS
      · simp only [List.mem_cons, not_or]; exact ⟨by decide, heq⟩
    · have hd : "ENV " ++ K ++ " = "
          = String.mk ('E' :: 'N' :: 'V' :: (' ' :: K.data ++ ' ' :: '=' :: [' '])) := by
        apply String.ext
        simp [String.data_append]
      rw [hd]
      refine (Parser.GenerateAST_env_line (' ' :: K.data ++ ' ' :: '=' :: [' ']) ?_ ?_ ?_).1
        (Or.inr (Or.inr ?_))
      · simp only [List.cons_append, List.mem_cons, List.mem_append, List.not_mem_nil,
          or_false, not_or]
        exact ⟨by decide, hhash, by decide, by decide, by decide⟩
      · simp only [List.cons_append, List.mem_cons, List.mem_append, List.not_mem_nil,
          or_false, not_or]
        exact ⟨by decide, hnl, by decide, by decide, by decide⟩
      · intro c hc; simp at hc; subst hc; exact hS
      · rw [(Parser.envKey_padded K.data [' '] hK).2]
        decide
  · intro K v hK hv
    obtain ⟨hne, hhash, hnl, heq, hsp⟩ := hword K.data hK
    obtain ⟨hvne, hvhash, hvnl, -, hvsp⟩ := hword v.data hv
    have hd : "ENV " ++ K ++ " = " ++ v
        = String.mk ('E' :: 'N' :: 'V' :: (' ' :: K.data ++ ' ' :: '=' :: (' ' :: v.data))) := by
      apply String.ext
      simp [String.data_append]
    have htrim : Parser.trimChars (' ' :: v.data) = v.data := by
      have := Parser.trimChars_padded [' '] v.data [] (by simp [hS]) (by simp) hvsp
      simpa using this
    obtain ⟨hkey, hval⟩ := Parser.envKey_padded K.data (' ' :: v.data) hK
    rw [htrim] at hval
    rw [hd]
    have h := (Parser.GenerateAST_env_line (' ' :: K.data ++ ' ' :: '=' :: (' ' :: v.data))
      (by
        simp only [List.cons_append, List.mem_cons, List.mem_append, not_or]
        exact ⟨by decide, hhash, by decide, by decide, by decide, hvhash⟩)
      (by
        simp only [List.cons_append, List.mem_cons, List.mem_append, not_or]
        exact ⟨by decide, hnl, by decide, by decide, by decide, hvnl⟩)
      (by intro c hc; simp at hc; subst hc; exact hS)).2 (by simp)
      (by rw [hkey]; exact hne) (by rw [hval]; exact hvne)
    rw [h, hkey, hval]
  · intro input toks h t ht hk
    obtain ⟨l, hl, hl'⟩ := Parser.collect_ok_mem _ _ h t ht
    obtain ⟨hmem, hshape⟩ := Parser.tokenizeLine_env l t hl' hk
    exact ⟨l, hl, hmem, hshape⟩
  · intro pre post l msg hl hpre
    exact Parser.collect_fail pre post l msg hl hpre
  · intro rest hhash hnl hhead
    exact ⟨Parser.envLine_of_text rest hhash hhead,
      Parser.GenerateAST_env_line rest hhash hnl hhead⟩
  · intro input raw rest hraw hl hbad
    obtain ⟨msg, hmsg⟩ := Parser.envStatement_fail rest hbad
    rw [← Parser.tokenizeLine_of_envLine raw rest hl] at hmsg
    exact Parser.collect_error_of_fail _ raw msg hraw hmsg
  · intro input toks h
    obtain ⟨hnofail, htoks⟩ := (Parser.collect_ok_iff _ toks).1 h
    refine ⟨htoks, ?_⟩
    intro raw hraw rest hl
    have hline := Parser.tokenizeLine_of_envLine raw rest hl
    have hgood : '=' ∈ rest ∧ Parser.envKey rest ≠ [] ∧ Parser.envValue rest ≠ [] := by
      by_contra hcon
      have hbad : '=' ∉ rest ∨ Parser.envKey rest = [] ∨ Parser.envValue rest = [] := by
        by_cases h1 : '=' ∈ rest
        · by_cases h2 : Parser.envKey rest = []
          · exact Or.inr (Or.inl h2)
          · by_cases h3 : Parser.envValue rest = []
            · exact Or.inr (Or.inr h3)
            · exact absurd ⟨h1, h2, h3⟩ hcon
        · exact Or.inl h1
      obtain ⟨msg, hmsg⟩ := Parser.envStatement_fail rest hbad
      rw [← hline] at hmsg
      exact hnofail raw hraw msg hmsg
    obtain ⟨h1, h2, h3⟩ := hgood
    have htok := (Parser.envStatement_token_iff rest _).2 ⟨h1, h2, h3, rfl⟩
    rw [← hline] at htok
    refine ⟨h1, h2, h3, Parser.envValue_trimmed rest, htok, ?_⟩
    rw [htoks]
    exact List.mem_filterMap.2 ⟨raw, hraw, by rw [htok]; rfl⟩
  · intro input toks h t ht hk
    obtain ⟨raw, hraw, hl⟩ := Parser.collect_ok_mem _ _ h t ht
    obtain ⟨rest, hrest, hst⟩ := Parser.envLine_of_token raw t hl hk
    obtain ⟨h1, h2, h3, h4⟩ := (Parser.envStatement_token_iff rest t).1 hst
    exact ⟨raw, hraw, rest, hrest, hl, h1, h2, h3, h4⟩

/-- C14 at the words `PRIVATE_KEY` and `xxx` of the test table, at an ENV line with two
words and a trailing `=`, and at an ENV line without `=` beside a line that holds one. -/
theorem C14_env_requires_value_witness :
    Parser.GenerateAST ("ENV " ++ "PRIVATE_KEY" ++ " = " ++ "xxx")
      = .ok [⟨"ENV", ["PRIVATE_KEY", "xxx"]⟩] ∧
    (∃ msg, Parser.GenerateAST ("ENV " ++ "PRIVATE_KEY") = .error msg) ∧
    (∃ msg, Parser.GenerateAST (String.mk ('E' :: 'N' :: 'V' :: " A B =".data)) = .error msg) ∧
    (∃ msg, Parser.GenerateAST "ENV K v\nRUN a=b" = .error msg) :=
  ⟨C14_env_requires_value.2.2.2.2.1 "PRIVATE_KEY" "xxx" (by decide) (by decide),
   (C14_env_requires_value.2.2.2.1 "PRIVATE_KEY" (by decide)).1,
   (C14_env_requires_value.2.2.2.2.2.2.2.1 " A B =".data (by decide) (by decide)
      (by decide)).2.1 (Or.inr (Or.inr (by decide))),
   C14_env_requires_value.2.2.2.2.2.2.2.2.1 "ENV K v\nRUN a=b" "ENV K v".data " K v".data
      (by decide) (by decide) (Or.inl (by decide))⟩

/-! ## C15: errors inside a downloaded directory -/

/-- C15, on the code: the remote directory `/srv/site` holds `a.txt` and `sub/b`.  When the
open of `a.txt` fails, and when the listing of `sub` fails, `Client.Download` stops there
and returns nil, so `actionDownload` returns nil as well; the upload of the same tree
returns the error of the failed call. -/
theorem C15_download_drops_nested_error :
    Client.Download (World.withTree FsNode.sample [2]) ⟨some 0, some 1⟩ "/srv/site" "/work"
      = (⟨(World.withTree FsNode.sample [2]).answers,
          [⟨.sftpStat "/srv/site", true⟩, ⟨.sftpReadDir "/srv/site", true⟩,
           ⟨.sftpOpen "/srv/site/a.txt", false⟩]⟩, .nil) ∧
    (Client.Download (World.withTree FsNode.sample [10]) ⟨some 0, some 1⟩
        "/srv/site" "/work").2 = .nil ∧
    (Client.Download (World.withTree FsNode.sample [10]) ⟨some 0, some 1⟩
        "/srv/site" "/work").1.trace.getLast? = some ⟨.sftpReadDir "/srv/site/sub", false⟩ ∧
    ((Runner.connectedAt "/srv").actionDownload Lib.plain (World.withTree FsNode.sample [2])
        ⟨["site"], "/work"⟩).2.2 = .nil ∧
    (Client.Upload (World.withTree FsNode.sample [2]) ⟨some 0, some 1⟩ "/work/site" "/srv").2
      = .error "refused" := by
  refine ⟨rfl, ?_, ?_, ?_, ?_⟩ <;> decide

/-! ## C16: the command of a VAR -/

/-- C16, on the code: with `dir = /srv` in the variable table, `VAR out` from the remote
command `ls $dir` sends `ls $dir` to the session, not substituted, while the same command
run locally is spawned as `ls /srv`; a literal is stored as it is. -/
theorem C16_remote_command_not_substituted :
    (Runner.actionVar Lib.dollar World.calm
        { Runner.connectedAt "/home/u" with varTable := [("dir", "/srv")] }
        ⟨"out", none, none, some ⟨false, ["ls", "$dir"]⟩⟩).1.trace
      = [⟨.newSession 0, true⟩, ⟨.sessionRun 0 "cd /home/u && ls $dir", true⟩,
         ⟨.sessionClose 0, true⟩] ∧
    GoStrings.Join (Lib.dollar.CompileArray ["ls", "$dir"] [("dir", "/srv")]) " " = "ls /srv" ∧
    (Runner.actionVar Lib.dollar World.calm
        { Runner.connectedAt "/home/u" with varTable := [("dir", "/srv")] }
        ⟨"out", none, none, some ⟨true, ["ls", "$dir"]⟩⟩).1.trace
      = [⟨.exec "ls" ["/srv"], true⟩] ∧
    (Runner.actionVar Lib.dollar World.calm
        { Runner.connectedAt "/home/u" with varTable := [("dir", "/srv")] }
        ⟨"out", some ⟨"$dir"⟩, none, none⟩).2.1.varTable.get "out" = some "$dir" := by
  decide

/-! ## C17: the command of `Client.Env` -/

/-- C17: for every key, environment map and working directory in the options, the command
`Client.Env` builds is `setEnvForCommand("echo $" + key, env)`: the export statements of
the map, each followed by a space, then `echo $key`, with no `cd` whatever the working
directory; and it is the command `Client.Env` hands to its session when the session
opens. -/
theorem C17_env_command_is_setEnvForCommand (key : String) (env : StrMap) (cwd : String) :
    Client.envCommand key ⟨cwd, env⟩ = setEnvForCommand ("echo $" ++ key) env ∧
    Client.envCommand key ⟨cwd, env⟩ = exportPrefix env ++ ("echo $" ++ key) ∧
    Client.envCommand key ⟨cwd, env⟩ = Client.envCommand key ⟨"", env⟩ ∧
    Client.runCommand ("echo $" ++ key) ⟨"", env⟩ = Client.envCommand key ⟨cwd, env⟩ ∧
    (∀ (w : World) (t : Nat) (s : Option Nat), (w.answers w.trace.length).ok = true →
      (Client.Env w ⟨some t, s⟩ key ⟨cwd, env⟩).1.trace = w.trace ++
        [⟨.newSession t, true⟩,
         ⟨.sessionRun w.trace.length (setEnvForCommand ("echo $" ++ key) env),
           (w.answers (w.trace.length + 1)).ok⟩,
         ⟨.sessionClose w.trace.length, (w.answers (w.trace.length + 2)).ok⟩]) := by
  have h1 : ∀ cwd' : String,
      Client.envCommand key ⟨cwd', env⟩ = setEnvForCommand ("echo $" ++ key) env := by
    intro cwd'; rfl
  refine ⟨h1 cwd, ?_, ?_, ?_, ?_⟩
  · rw [h1, setEnvForCommand_exports]
  · rw [h1, h1]
  · rw [h1]; simp [Client.runCommand]
  · intro w t s h0
    unfold Client.Env
    simp only [World.ask, h0, h1, List.length_append, List.length_singleton]
    split_ifs <;> first | contradiction | simp [Nat.add_assoc]

/-- C17 on the key `HOME` and the environment `{FOO: bar}`. -/
theorem C17_env_command_is_setEnvForCommand_witness :
    (Client.Env World.calm ⟨some 0, some 1⟩ "HOME" ⟨"/home/u", [("FOO", "bar")]⟩).1.trace
      = [⟨.newSession 0, true⟩, ⟨.sessionRun 0 "export FOO=bar; echo $HOME", true⟩,
         ⟨.sessionClose 0, true⟩] := by
  have h := (C17_env_command_is_setEnvForCommand "HOME" [("FOO", "bar")] "/home/u").2.2.2.2
    World.calm 0 (some 1) rfl
  rw [h]
  decide

end S4
